import Mathlib

/-!
# bounce-notify: the frame client (`src/main.c`) and the reference server
(`tests/mock_bouncer_server.c`)

A shallow embedding of the two C programs and of the protocol constants of
`include/bouncer_proto.h`.

Conventions of the embedding.

* A byte (`unsigned char`) is a `Fin 256`.
* A `char *` is the list of the bytes stored from the pointer on; the string it
  denotes stops before the first NUL byte (or at the end of the list).
* `size_t` and `uint64_t` are 64 bits wide, `uint32_t` is 32 bits wide.  Sizes
  are natural numbers; the reductions modulo `2 ^ 32` and `2 ^ 64` are written
  where the source narrows or may wrap.
* The operating system is a parameter: every system call (`read`, `write`,
  `malloc`, `getaddrinfo`, `socket`, `connect`) takes its result from an
  environment, and every call is recorded in a trace of events.
-/

set_option linter.unusedVariables false
set_option maxRecDepth 4000

namespace BounceNotify

/-! ## Bytes and C strings -/

/-- One `unsigned char`. -/
abbrev Byte := Fin 256

/-- The bytes of an ASCII string literal, without the terminating NUL. -/
def lit (s : String) : List Byte := s.toList.map (fun c => Fin.ofNat c.toNat)

/-- The string a `char *` denotes: the bytes before the first NUL. -/
def cstr (p : List Byte) : List Byte := p.takeWhile (fun b => b ≠ 0)

/-- Libc `strlen`. -/
def strlen (p : List Byte) : Nat := (cstr p).length

/-- The test `strcmp(a, b) == 0`. -/
def streq (a b : List Byte) : Bool := cstr a == cstr b

/-- A list of bytes is the content of a C string when it holds no NUL byte. -/
def IsCStr (s : List Byte) : Prop := ∀ b ∈ s, b ≠ 0

instance (s : List Byte) : Decidable (IsCStr s) := by
  unfold IsCStr; infer_instance

/-! ## Protocol constants (`include/bouncer_proto.h`) -/

/-- The array `"BNCE"`: four characters and the terminating NUL. -/
def BOUNCER_MAGIC : List Byte := lit "BNCE" ++ [0]
/-- The array `"OK\n"`: three characters and the terminating NUL. -/
def BOUNCER_ACK : List Byte := lit "OK\n" ++ [0]
def BOUNCER_MAGIC_LEN : Nat := 4
def BOUNCER_ACK_LEN : Nat := 3

/-- Header structure for the JSON serialization; a NULL pointer is `none`. -/
structure bouncer_header_t where
  from_ : Option (List Byte)
  to_ : Option (List Byte)
  kind : Option (List Byte)
  source : Option (List Byte)

/-! ## Events and the environment -/

/-- Lines printed by the two programs. -/
inductive Msg where
  | usage (progname : Option (List Byte))
  | version
  | unknown_argument (arg : List Byte)
  | body_alloc_failed
  | body_too_large
  | connect_failed (server : List Byte)
  | send_failed
  | bad_ack
  | prefix_failed
  | bad_magic
  | invalid_lengths (header_len body_len : Nat)
  | alloc_failed
  | payload_failed
  | frame (header_len body_len : Nat)
  | header (text : List Byte)
  | ack_failed
  | result_ok
  deriving DecidableEq, Repr

/-- One observable action of a program run. -/
inductive Event where
  | stderr (m : Msg)
  | stdout (m : Msg)
  | malloc (size : Nat) (ok : Bool)
  | stdin_read (count : Nat) (got : Option (List Byte))
  | getaddrinfo (host port : List Byte) (ok : Bool)
  | socket (ok : Bool)
  | setsockopt (secs : Int)
  | connect (ok : Bool)
  | write (offered : List Byte) (ret : Int)
  | read (count : Nat) (got : Option (List Byte))
  | close
  deriving DecidableEq, Repr

/-- A connected socket as the program sees it.  `read st count` is one call of
`read(fd, p, count)`: `none` is the return value `-1`, `some bs` is the return
value `bs.length` with the bytes `bs` stored at `p`.  `write st data` is one
call of `write(fd, p, count)` with `data` the `count` bytes at `p`; it gives
the returned `ssize_t`. -/
structure Conn (σ : Type) where
  read : σ → Nat → Option (List Byte) × σ
  write : σ → List Byte → Int × σ

/-- The operating system keeps its promise on this connection: a read stores
at most `count` bytes and a write accepts at most the bytes it was offered. -/
def Conn.WellBehaved {σ : Type} (c : Conn σ) : Prop :=
  (∀ st count bs, (c.read st count).1 = some bs → bs.length ≤ count) ∧
  (∀ st data, (c.write st data).1 ≤ data.length)

/-- The bytes a trace shows as accepted by `write`, in call order. -/
def sent : List Event → List Byte
  | [] => []
  | Event.write offered ret :: es => offered.take ret.toNat ++ sent es
  | _ :: es => sent es

/-- The bytes a trace shows as delivered by `read` on the socket, in call order. -/
def received : List Event → List Byte
  | [] => []
  | Event.read _ (some bs) :: es => bs ++ received es
  | _ :: es => received es

/-- The bytes a trace shows as delivered by `read` on standard input. -/
def stdin_bytes : List Event → List Byte
  | [] => []
  | Event.stdin_read _ (some bs) :: es => bs ++ stdin_bytes es
  | _ :: es => stdin_bytes es

/-- The return values of the `write` calls of a trace, in call order. -/
def write_rets : List Event → List Int
  | [] => []
  | Event.write _ ret :: es => ret :: write_rets es
  | _ :: es => write_rets es

/-- The trace holds a call that touches the network: resolution, socket
creation, connection, or traffic on the socket. -/
def Event.isNetwork : Event → Bool
  | Event.getaddrinfo _ _ _ => true
  | Event.socket _ => true
  | Event.setsockopt _ => true
  | Event.connect _ => true
  | Event.write _ _ => true
  | Event.read _ _ => true
  | Event.close => true
  | _ => false

/-- The event is a system call (anything but a printed line). -/
def Event.isSyscall : Event → Bool
  | Event.stderr _ => false
  | Event.stdout _ => false
  | _ => true

/-! ## `write_all` and `read_all` (the same text in both programs) -/

/-- Result of `write_all`: the returned `int`, the state of the connection and
the calls made. -/
structure WriteAll (σ : Type) where
  ret : Int
  st : σ
  trace : List Event

/-- The loop of `write_all(fd, buf, len)` entered with the given `total`. -/
def write_all_loop {σ : Type} (c : Conn σ) (buf : List Byte) (len : Nat)
    (total : Nat) (st : σ) : WriteAll σ :=
  if h : total < len then
    if hn : (c.write st ((buf.drop total).take (len - total))).1 ≤ 0 then
      ⟨-1, (c.write st ((buf.drop total).take (len - total))).2,
        [Event.write ((buf.drop total).take (len - total))
          (c.write st ((buf.drop total).take (len - total))).1]⟩
    else
      let rest := write_all_loop c buf len
        (total + (c.write st ((buf.drop total).take (len - total))).1.toNat)
        (c.write st ((buf.drop total).take (len - total))).2
      ⟨rest.ret, rest.st,
        Event.write ((buf.drop total).take (len - total))
          (c.write st ((buf.drop total).take (len - total))).1 :: rest.trace⟩
  else ⟨0, st, []⟩
termination_by len - total
decreasing_by omega

/-- Source `write_all` (`main.c` 142-151, `mock_bouncer_server.c` 29-38). -/
def write_all {σ : Type} (c : Conn σ) (st : σ) (buf : List Byte) (len : Nat) : WriteAll σ :=
  write_all_loop c buf len 0 st

/-- Result of `read_all`: the returned `int`, the bytes stored in the buffer,
the state of the connection and the calls made. -/
structure ReadAll (σ : Type) where
  ret : Int
  buf : List Byte
  st : σ
  trace : List Event

/-- The loop of `read_all(fd, buf, len)` entered with the given `total`; `buf`
holds the bytes stored so far. -/
def read_all_loop {σ : Type} (c : Conn σ) (len : Nat) (total : Nat) (buf : List Byte)
    (st : σ) : ReadAll σ :=
  if h : total < len then
    match (c.read st (len - total)).1 with
    | none => ⟨-1, buf, (c.read st (len - total)).2, [Event.read (len - total) none]⟩
    | some bs =>
      if hn : bs.length = 0 then
        ⟨-1, buf, (c.read st (len - total)).2, [Event.read (len - total) (some bs)]⟩
      else
        let rest := read_all_loop c len (total + bs.length) (buf ++ bs) (c.read st (len - total)).2
        ⟨rest.ret, rest.buf, rest.st, Event.read (len - total) (some bs) :: rest.trace⟩
  else ⟨0, buf, st, []⟩
termination_by len - total
decreasing_by omega

/-- Source `read_all` (`main.c` 153-162, `mock_bouncer_server.c` 18-27). -/
def read_all {σ : Type} (c : Conn σ) (st : σ) (len : Nat) : ReadAll σ :=
  read_all_loop c len 0 [] st

/-! ## Big-endian integers -/

/-- The big-endian encoding of `n` in `width` bytes (the wire format of the
two length fields). -/
def be_encode : Nat → Nat → List Byte
  | 0, _ => []
  | width + 1, n => Fin.ofNat (n / 256 ^ width % 256) :: be_encode width n

/-- The value of a big-endian byte sequence. -/
def be_decode (bs : List Byte) : Nat := bs.foldl (fun v b => v * 256 + b.val) 0

/-- The four bytes in memory of `htonl(h)` for a `uint32_t h`: the most
significant byte first, whatever the byte order of the host. -/
def htonl_bytes (h : Nat) : List Byte :=
  [Fin.ofNat ((h >>> 24) &&& 0xFF), Fin.ofNat ((h >>> 16) &&& 0xFF),
   Fin.ofNat ((h >>> 8) &&& 0xFF), Fin.ofNat (h &&& 0xFF)]

/-- The `uint32_t` that `ntohl` gives for the four bytes found in memory. -/
def ntohl_bytes (m : List Byte) : Nat :=
  ((m.getD 0 0).val <<< 24) ||| ((m.getD 1 0).val <<< 16) ||| ((m.getD 2 0).val <<< 8)
    ||| (m.getD 3 0).val

/-! ## The client (`src/main.c`) -/

namespace Client

def MAX_BODY_BYTES : Nat := 50 * 1024
def DEFAULT_TIMEOUT_SECS : Int := 10
def EX_USAGE : Int := 64
def EX_TEMPFAIL : Int := 75

structure cli_args_t where
  server : Option (List Byte)
  from_ : Option (List Byte)
  to_ : Option (List Byte)
  timeout_secs : Int

inductive parse_result_t where
  | PARSE_OK
  | PARSE_USAGE
  | PARSE_HELP
  | PARSE_VERSION
  deriving DecidableEq, Repr

/-- What `parse_args` leaves behind: the returned value, the filled structure
and the line it may have printed. -/
structure Parsed where
  result : parse_result_t
  args : cli_args_t
  trace : List Event

/-- The last three branches of the loop body of `parse_args`, reached when
`argv[i]` is not an option that takes the next argument. -/
def parse_args_other (x : List Byte) (a : cli_args_t) : Parsed :=
  if streq x (lit "-h") || streq x (lit "--help") then ⟨.PARSE_HELP, a, []⟩
  else if streq x (lit "-V") || streq x (lit "--version") then ⟨.PARSE_VERSION, a, []⟩
  else ⟨.PARSE_USAGE, a, [Event.stderr (Msg.unknown_argument (cstr x))]⟩

/-- The loop of `parse_args` over `argv[i..argc)` and the test after it.
`atoi` is the libc function. -/
def parse_args_loop (atoi : List Byte → Int) : List (List Byte) → cli_args_t → Parsed
  | [], a =>
    if a.server.isNone || a.from_.isNone || a.to_.isNone then ⟨.PARSE_USAGE, a, []⟩
    else ⟨.PARSE_OK, a, []⟩
  | [x], a => parse_args_other x a
  | x :: v :: rest, a =>
    if streq x (lit "--server") then parse_args_loop atoi rest { a with server := some v }
    else if streq x (lit "--from") then parse_args_loop atoi rest { a with from_ := some v }
    else if streq x (lit "--to") then parse_args_loop atoi rest { a with to_ := some v }
    else if streq x (lit "--timeout-secs") then
      parse_args_loop atoi rest { a with timeout_secs := atoi v }
    else parse_args_other x a

/-- Source `parse_args` (`main.c` 54-83); `argv[0]` is skipped. -/
def parse_args (atoi : List Byte → Int) (argv : List (List Byte)) : Parsed :=
  parse_args_loop atoi argv.tail ⟨none, none, none, DEFAULT_TIMEOUT_SECS⟩

/-- The text `snprintf` formats for
`"{\"from\":\"%s\",\"to\":\"%s\",\"kind\":null,\"source\":null}"`. -/
def header_text (from_ to_ : List Byte) : List Byte :=
  lit "\x7b\"from\":\"" ++ cstr from_ ++ lit "\",\"to\":\"" ++ cstr to_
    ++ lit "\",\"kind\":null,\"source\":null\x7d"

/-- Libc `snprintf(buf, size, ...)` for the formatted text `text`: at most
`size - 1` bytes of it, then a NUL (nothing when `size` is 0). -/
def snprintf (size : Nat) (text : List Byte) : List Byte :=
  if size = 0 then [] else text.take (size - 1) ++ [0]

/-- Source `serialize_header` (`main.c` 86-95): the allocated buffer, or `none`
for NULL when `malloc` fails.  `malloc_ok` tells whether a request of the given
size succeeds. -/
def serialize_header (malloc_ok : Nat → Bool) (header : bouncer_header_t) :
    Option (List Byte) × List Event :=
  let len := strlen (header.from_.getD []) + strlen (header.to_.getD []) + 64
  if !malloc_ok len then (none, [Event.malloc len false])
  else
    (some (snprintf len (header_text (header.from_.getD []) (header.to_.getD []))),
      [Event.malloc len true])

/-- One candidate endpoint of `getaddrinfo`, with what the system does for it:
whether `socket` succeeds and, when `connect` returns 0, the new connection. -/
structure addrinfo (τ : Type) where
  socket_ok : Bool
  connect : Option τ

/-- The environment of one run of the client.  `malloc k size` is the outcome
of the `k`-th checked allocation; `stdin_read` is `read` on standard input. -/
structure Env (σ τ : Type) where
  atoi : List Byte → Int
  malloc : Nat → Nat → Bool
  stdin_read : σ → Nat → Option (List Byte) × σ
  getaddrinfo : List Byte → List Byte → Option (List (addrinfo τ))
  sock : Conn τ

/-- The candidate loop of `resolve_and_connect` (`main.c` 120-136). -/
def connect_loop {τ : Type} (timeout_secs : Int) : List (addrinfo τ) → Option τ × List Event
  | [] => (none, [])
  | p :: ps =>
    if !p.socket_ok then
      ((connect_loop timeout_secs ps).1, Event.socket false :: (connect_loop timeout_secs ps).2)
    else
      match p.connect with
      | some t =>
        (some t, [Event.socket true, Event.setsockopt timeout_secs,
          Event.setsockopt timeout_secs, Event.connect true])
      | none =>
        ((connect_loop timeout_secs ps).1,
          [Event.socket true, Event.setsockopt timeout_secs, Event.setsockopt timeout_secs,
            Event.connect false, Event.close] ++ (connect_loop timeout_secs ps).2)

/-- Source `resolve_and_connect` (`main.c` 97-140): the connection, or `none`
for the return value `-1`.  The byte 58 is `':'`. -/
def resolve_and_connect {σ τ : Type} (env : Env σ τ) (server : List Byte)
    (timeout_secs : Int) : Option τ × List Event :=
  let host := cstr server
  if (58 : Byte) ∉ host then (none, [])
  else
    let h := host.takeWhile (fun b => b ≠ 58)
    let port_str := (host.dropWhile (fun b => b ≠ 58)).drop 1
    match env.getaddrinfo h port_str with
    | none => (none, [Event.getaddrinfo h port_str false])
    | some res =>
      ((connect_loop timeout_secs res).1,
        Event.getaddrinfo h port_str true :: (connect_loop timeout_secs res).2)

/-- The `size_t` value of `MAX_BODY_BYTES + 1 - body_len`. -/
def stdin_count (body_len : Nat) : Nat :=
  (MAX_BODY_BYTES + 1 + 2 ^ 64 - body_len % 2 ^ 64) % 2 ^ 64

/-- Result of the loop that reads the body. -/
structure ReadBody (σ : Type) where
  too_large : Bool
  body : List Byte
  st : σ
  trace : List Event

/-- The loop of `main` that reads the body from standard input (`main.c`
187-196), entered with `body` already stored (`body_len = body.length`). -/
def read_body_loop {σ : Type} (rd : σ → Nat → Option (List Byte) × σ) (body : List Byte)
    (st : σ) : ReadBody σ :=
  match (rd st (stdin_count body.length)).1 with
  | none =>
    ⟨false, body, (rd st (stdin_count body.length)).2,
      [Event.stdin_read (stdin_count body.length) none]⟩
  | some bs =>
    if hn : bs.length = 0 then
      ⟨false, body, (rd st (stdin_count body.length)).2,
        [Event.stdin_read (stdin_count body.length) (some bs)]⟩
    else if hl : (body ++ bs).length > MAX_BODY_BYTES then
      ⟨true, body ++ bs, (rd st (stdin_count body.length)).2,
        [Event.stdin_read (stdin_count body.length) (some bs)]⟩
    else
      let rest := read_body_loop rd (body ++ bs) (rd st (stdin_count body.length)).2
      ⟨rest.too_large, rest.body, rest.st,
        Event.stdin_read (stdin_count body.length) (some bs) :: rest.trace⟩
termination_by MAX_BODY_BYTES + 1 - body.length
decreasing_by
  simp only [List.length_append, gt_iff_lt, not_lt] at hl ⊢
  omega

/-- The chain `write_all(..) != 0 || write_all(..) != 0 || ...` of `main`
(`main.c` 222-224): the buffers are written in order and the chain stops at the
first call that does not return 0.  `failed` is the value of the condition. -/
structure WriteChain (τ : Type) where
  failed : Bool
  st : τ
  trace : List Event

def write_chain {τ : Type} (c : Conn τ) (st : τ) : List (List Byte × Nat) → WriteChain τ
  | [] => ⟨false, st, []⟩
  | (buf, len) :: rest =>
    if (write_all c st buf len).ret ≠ 0 then
      ⟨true, (write_all c st buf len).st, (write_all c st buf len).trace⟩
    else
      ⟨(write_chain c (write_all c st buf len).st rest).failed,
        (write_chain c (write_all c st buf len).st rest).st,
        (write_all c st buf len).trace ++ (write_chain c (write_all c st buf len).st rest).trace⟩

/-- The five buffers of the frame with the lengths passed to `write_all`
(`main.c` 204-224). -/
def frame_parts (header_json body : List Byte) : List (List Byte × Nat) :=
  let header_len := strlen header_json % 2 ^ 32
  let body_len_64 := body.length % 2 ^ 64
  let header_len_be := htonl_bytes header_len
  let body_len_buf : List Byte :=
    (List.range 8).map (fun i => Fin.ofNat ((body_len_64 >>> (8 * (7 - i))) &&& 0xFF))
  [(BOUNCER_MAGIC, 4), (header_len_be, 4), (body_len_buf, 8), (header_json, header_len),
   (body, body.length)]

/-- What a run of a program leaves: the exit status and the trace. -/
structure Outcome where
  exit : Int
  trace : List Event

/-- The part of `main` after the connection is made (`main.c` 215-245). -/
def exchange {τ : Type} (c : Conn τ) (t : τ) (header_json body : List Byte) : Outcome :=
  let w := write_chain c t (frame_parts header_json body)
  if w.failed then
    ⟨EX_TEMPFAIL, w.trace ++ [Event.stderr Msg.send_failed, Event.close]⟩
  else
    let r := read_all c w.st 3
    if r.ret ≠ 0 || r.buf.take 3 ≠ BOUNCER_ACK.take 3 then
      ⟨EX_TEMPFAIL, w.trace ++ r.trace ++ [Event.stderr Msg.bad_ack, Event.close]⟩
    else
      ⟨0, w.trace ++ r.trace ++ [Event.close]⟩

/-- The part of `main` that runs once the arguments are accepted (`main.c`
180-245). -/
def run {σ τ : Type} (env : Env σ τ) (s0 : σ) (args : cli_args_t) : Outcome :=
  if !env.malloc 0 (MAX_BODY_BYTES + 1) then
    ⟨EX_TEMPFAIL, [Event.malloc (MAX_BODY_BYTES + 1) false, Event.stderr Msg.body_alloc_failed]⟩
  else
    let rb := read_body_loop env.stdin_read [] s0
    if rb.too_large then
      ⟨EX_TEMPFAIL, Event.malloc (MAX_BODY_BYTES + 1) true :: rb.trace
        ++ [Event.stderr Msg.body_too_large]⟩
    else
      let header : bouncer_header_t := ⟨args.from_, args.to_, none, none⟩
      match serialize_header (env.malloc 1) header with
      | (none, tr) => ⟨EX_TEMPFAIL, Event.malloc (MAX_BODY_BYTES + 1) true :: rb.trace ++ tr⟩
      | (some header_json, tr) =>
        match resolve_and_connect env (args.server.getD []) args.timeout_secs with
        | (none, tc) =>
          ⟨EX_TEMPFAIL, Event.malloc (MAX_BODY_BYTES + 1) true :: rb.trace ++ tr ++ tc
            ++ [Event.stderr (Msg.connect_failed (cstr (args.server.getD [])))]⟩
        | (some t, tc) =>
          ⟨(exchange env.sock t header_json rb.body).exit,
            Event.malloc (MAX_BODY_BYTES + 1) true :: rb.trace ++ tr ++ tc
              ++ (exchange env.sock t header_json rb.body).trace⟩

/-- Source `main` of the client (`main.c` 164-246). -/
def main {σ τ : Type} (env : Env σ τ) (s0 : σ) (argv : List (List Byte)) : Outcome :=
  match (parse_args env.atoi argv).result with
  | .PARSE_HELP => ⟨0, (parse_args env.atoi argv).trace ++ [Event.stderr (Msg.usage argv.head?)]⟩
  | .PARSE_VERSION => ⟨0, (parse_args env.atoi argv).trace ++ [Event.stdout Msg.version]⟩
  | .PARSE_USAGE =>
    ⟨EX_USAGE, (parse_args env.atoi argv).trace ++ [Event.stderr (Msg.usage argv.head?)]⟩
  | .PARSE_OK =>
    ⟨(run env s0 (parse_args env.atoi argv).args).exit,
      (parse_args env.atoi argv).trace ++ (run env s0 (parse_args env.atoi argv).args).trace⟩

end Client

/-! ## The reference server (`tests/mock_bouncer_server.c`) -/

namespace MockServer

def MAX_HEADER_BYTES : Nat := 16 * 1024
def MAX_BODY_BYTES : Nat := 2 * 1024 * 1024

/-- Source `read_u64_be` (`mock_bouncer_server.c` 40-44), on `uint64_t`. -/
def read_u64_be (inp : List Byte) : Nat :=
  (List.range 8).foldl (fun v i => ((v <<< 8) % 2 ^ 64) ||| (inp.getD i 0).val) 0

/-- The environment of the server once a connection is accepted: `malloc k size`
is the outcome of the `k`-th allocation, `conn` is the accepted connection. -/
structure Env (σ : Type) where
  malloc : Nat → Nat → Bool
  conn : Conn σ

/-- A frame as the server holds it after the payload is read. -/
structure Frame where
  header_len : Nat
  body_len : Nat
  header : List Byte
  body : List Byte
  deriving DecidableEq, Repr

/-- Result of the decoding steps: the frame, or the exit status of the
rejection, with the state of the connection and the trace. -/
structure Recv (σ : Type) where
  result : Except Int Frame
  st : σ
  trace : List Event

/-- Allocation of the two buffers and payload read (`mock_bouncer_server.c`
154-171) for the lengths already checked. -/
def recv_payload {σ : Type} (env : Env σ) (st : σ) (header_len body_len : Nat) : Recv σ :=
  let header_ok := env.malloc 0 (header_len + 1)
  let body_ok := env.malloc 1 body_len
  let allocs := [Event.malloc (header_len + 1) header_ok, Event.malloc body_len body_ok]
  if !header_ok || (!body_ok && body_len > 0) then
    ⟨.error 7, st, allocs ++ [Event.stderr Msg.alloc_failed, Event.close]⟩
  else
    let r4 := read_all env.conn st header_len
    if r4.ret ≠ 0 then
      ⟨.error 8, r4.st, allocs ++ r4.trace ++ [Event.stderr Msg.payload_failed, Event.close]⟩
    else if body_len > 0 then
      let r5 := read_all env.conn r4.st body_len
      if r5.ret ≠ 0 then
        ⟨.error 8, r5.st,
          allocs ++ r4.trace ++ r5.trace ++ [Event.stderr Msg.payload_failed, Event.close]⟩
      else
        ⟨.ok ⟨header_len, body_len, r4.buf, r5.buf⟩, r5.st, allocs ++ r4.trace ++ r5.trace⟩
    else
      ⟨.ok ⟨header_len, body_len, r4.buf, []⟩, r4.st, allocs ++ r4.trace⟩

/-- Magic check and length check (`mock_bouncer_server.c` 139-152) on the three
buffers of the prefix, then `recv_payload`. -/
def recv_checked {σ : Type} (env : Env σ) (st : σ) (magic header_len_be body_len_buf : List Byte) :
    Recv σ :=
  if magic.take BOUNCER_MAGIC_LEN ≠ BOUNCER_MAGIC.take BOUNCER_MAGIC_LEN then
    ⟨.error 5, st, [Event.stderr Msg.bad_magic, Event.close]⟩
  else
    let header_len := ntohl_bytes header_len_be
    let body_len := read_u64_be body_len_buf
    if header_len = 0 || header_len > MAX_HEADER_BYTES || body_len > MAX_BODY_BYTES then
      ⟨.error 6, st, [Event.stderr (Msg.invalid_lengths header_len body_len), Event.close]⟩
    else recv_payload env st header_len body_len

/-- The decoding steps of `main` (`mock_bouncer_server.c` 128-171): prefix
read (128-137), then `recv_checked`. -/
def recv_frame {σ : Type} (env : Env σ) (st : σ) : Recv σ :=
  let r1 := read_all env.conn st BOUNCER_MAGIC_LEN
  if r1.ret ≠ 0 then
    ⟨.error 4, r1.st, r1.trace ++ [Event.stderr Msg.prefix_failed, Event.close]⟩
  else
    let r2 := read_all env.conn r1.st 4
    if r2.ret ≠ 0 then
      ⟨.error 4, r2.st, r1.trace ++ r2.trace ++ [Event.stderr Msg.prefix_failed, Event.close]⟩
    else
      let r3 := read_all env.conn r2.st 8
      if r3.ret ≠ 0 then
        ⟨.error 4, r3.st,
          r1.trace ++ r2.trace ++ r3.trace ++ [Event.stderr Msg.prefix_failed, Event.close]⟩
      else
        let p := recv_checked env r3.st r1.buf r2.buf r3.buf
        ⟨p.result, p.st, r1.trace ++ r2.trace ++ r3.trace ++ p.trace⟩

/-- What the handling of one connection leaves: the exit status, the state of
the connection and the trace. -/
structure Outcome (σ : Type) where
  exit : Int
  st : σ
  trace : List Event

/-- The part of `main` that handles the accepted connection
(`mock_bouncer_server.c` 128-190).  The header is printed with `%s` after
`header[header_len] = '\0'`. -/
def main_conn {σ : Type} (env : Env σ) (st : σ) : Outcome σ :=
  match recv_frame env st with
  | ⟨.error code, st1, tr⟩ => ⟨code, st1, tr⟩
  | ⟨.ok f, st1, tr⟩ =>
    let w := write_all env.conn st1 BOUNCER_ACK BOUNCER_ACK_LEN
    if w.ret ≠ 0 then
      ⟨9, w.st,
        tr ++ [Event.stdout (Msg.frame f.header_len f.body_len),
               Event.stdout (Msg.header (cstr (f.header ++ [0])))]
          ++ w.trace ++ [Event.stderr Msg.ack_failed, Event.close]⟩
    else
      ⟨0, w.st,
        tr ++ [Event.stdout (Msg.frame f.header_len f.body_len),
               Event.stdout (Msg.header (cstr (f.header ++ [0])))]
          ++ w.trace ++ [Event.stdout Msg.result_ok, Event.close]⟩

end MockServer

/-! ## Byte streams -/

/-- An inbound byte stream that ends with end-of-stream: the bytes not yet
delivered and the number of `read` calls made so far. -/
structure Stream where
  data : List Byte
  calls : Nat

/-- One `read` on a byte stream.  The schedule `sched` fixes the chunking: the
`k`-th call delivers at most `sched k + 1` bytes, at most `count` bytes and at
most what is left; it returns 0 only at end-of-stream (or for `count = 0`). -/
def stream_read (sched : Nat → Nat) (s : Stream) (count : Nat) : Option (List Byte) × Stream :=
  (some (s.data.take (min (min count (sched s.calls + 1)) s.data.length)),
    ⟨s.data.drop (min (min count (sched s.calls + 1)) s.data.length), s.calls + 1⟩)

/-- A connection whose inbound direction is a byte stream with the given
chunking and whose outbound direction is the arbitrary `wr`. -/
def streamConn {τ : Type} (sched : Nat → Nat) (wr : τ → List Byte → Int × τ) :
    Conn (Stream × τ) where
  read := fun st count => ((stream_read sched st.1 count).1, ((stream_read sched st.1 count).2, st.2))
  write := fun st data => ((wr st.2 data).1, (st.1, (wr st.2 data).2))

/-- The frame the client puts on the wire for the strings `from_`, `to_` and the
body `body`: the bytes of the five buffers of `Client.frame_parts`, each cut at
the length passed to `write_all`.  (`Client.serialize_header` with a successful
allocation gives the header buffer.) -/
def client_frame (from_ to_ body : List Byte) : List Byte :=
  ((Client.frame_parts
      (Client.snprintf (strlen from_ + strlen to_ + 64) (Client.header_text from_ to_)) body).map
    (fun p => p.1.take p.2)).flatten

/-! ## Predicates on traces -/

/-- Every `write` call of the trace offers the bytes of `buf` from the offset
reached so far (`total` plus what the earlier calls returned) up to `len`. -/
def OffersInOrder (buf : List Byte) (len : Nat) : Nat → List Event → Prop
  | _, [] => True
  | total, Event.write offered ret :: es =>
    offered = (buf.drop total).take (len - total) ∧ OffersInOrder buf len (total + ret.toNat) es
  | total, _ :: es => OffersInOrder buf len total es

/-- The trace consists of `write` calls only. -/
def OnlyWrites (tr : List Event) : Prop := ∀ e ∈ tr, ∃ offered ret, e = Event.write offered ret

/-- The trace consists of `read` calls on the socket only. -/
def OnlyReads (tr : List Event) : Prop := ∀ e ∈ tr, ∃ count got, e = Event.read count got

/-- Every `read` call on standard input in the trace is issued with a positive
count equal to `MAX_BODY_BYTES + 1` minus the bytes stored so far (`stored`
plus what the earlier calls delivered), and what it delivers still fits the
buffer of `MAX_BODY_BYTES + 1` bytes. -/
def ReadsFillBuffer : Nat → List Event → Prop
  | _, [] => True
  | stored, Event.stdin_read count got :: es =>
    0 < count ∧ count = Client.MAX_BODY_BYTES + 1 - stored ∧
      stored + (got.getD []).length ≤ Client.MAX_BODY_BYTES + 1 ∧
      ReadsFillBuffer (stored + (got.getD []).length) es
  | stored, _ :: es => ReadsFillBuffer stored es

/-- The event is a line on standard output. -/
def Event.isStdout : Event → Bool
  | Event.stdout _ => true
  | _ => false

/-- The event is a `write` call on the connection. -/
def Event.isWrite : Event → Bool
  | Event.write _ _ => true
  | _ => false

/-- The event is a `malloc` call. -/
def Event.isMalloc : Event → Bool
  | Event.malloc _ _ => true
  | _ => false

/-- The event is a `read` call on standard input. -/
def Event.isStdinRead : Event → Bool
  | Event.stdin_read _ _ => true
  | _ => false

/-- The trace shows no line on standard output and no `write` call. -/
def NoOutput (tr : List Event) : Prop := ∀ e ∈ tr, e.isStdout = false ∧ e.isWrite = false

/-- The trace shows no `malloc` call. -/
def NoMalloc (tr : List Event) : Prop := ∀ e ∈ tr, e.isMalloc = false

/-- Every event of the trace satisfies `p`. -/
def AllEv (p : Event → Bool) (tr : List Event) : Prop := ∀ e ∈ tr, p e = true

/-- The event is a `read` call on the socket. -/
def Event.isRead : Event → Bool
  | Event.read _ _ => true
  | _ => false

/-- The event is a line on standard error. -/
def Event.isStderr : Event → Bool
  | Event.stderr _ => true
  | _ => false

/-- The event belongs to `resolve_and_connect`: resolution, socket creation,
socket options, connection, or the `close` of a socket that did not connect. -/
def Event.isConnectStep : Event → Bool
  | Event.getaddrinfo _ _ _ => true
  | Event.socket _ => true
  | Event.setsockopt _ => true
  | Event.connect _ => true
  | Event.close => true
  | _ => false

/-- The event belongs to the exchange on the connected socket: a `write`, a
`read`, a line on standard error, or the final `close`. -/
def Event.isExchangeStep : Event → Bool
  | Event.write _ _ => true
  | Event.read _ _ => true
  | Event.stderr _ => true
  | Event.close => true
  | _ => false

/-! ## Example environments -/

/-- A peer that accepts every byte offered and answers `"OK\n"`. -/
def okPeer : Conn Unit where
  read := fun t count => (some ((lit "OK\n").take count), t)
  write := fun t data => ((data.length : Int), t)

/-- An environment of the client: `atoi` gives 0, allocations succeed,
standard input is empty, every name resolves to one endpoint that connects,
and the peer is `okPeer`. -/
def okEnv : Client.Env Unit Unit where
  atoi := fun _ => 0
  malloc := fun _ _ => true
  stdin_read := fun s _ => (some [], s)
  getaddrinfo := fun _ _ => some [⟨true, some ()⟩]
  sock := okPeer

/-- An environment of the client whose standard input is a byte stream
delivered 4096 bytes at a time; nothing resolves. -/
def streamEnv : Client.Env Stream Unit where
  atoi := fun _ => 0
  malloc := fun _ _ => true
  stdin_read := stream_read (fun _ => 4095)
  getaddrinfo := fun _ _ => none
  sock := okPeer

/-- An environment of the server: allocations succeed, the inbound stream is
delivered one byte at a time, every byte written is accepted. -/
def okServer : MockServer.Env (Stream × Unit) where
  malloc := fun _ _ => true
  conn := streamConn (fun _ => 0) (fun t data => ((data.length : Int), t))

/-- An environment of the client whose peer is slow in both directions:
standard input is a byte stream delivered two bytes at a time, allocations
succeed, every name resolves to one endpoint that connects, the socket accepts
one byte per `write` and delivers the bytes `reply`, then end-of-stream, one
byte per `read`. -/
def peerEnv (reply : List Byte) : Client.Env Stream (Stream × Unit) where
  atoi := fun _ => 0
  malloc := fun _ _ => true
  stdin_read := stream_read (fun _ => 1)
  getaddrinfo := fun _ _ => some [⟨true, some (⟨reply, 0⟩, ())⟩]
  sock := streamConn (fun _ => 0) (fun w data => (((min 1 data.length : Nat) : Int), w))

/-! ## Lemmas on `write_all` -/

theorem write_all_loop_ret {σ : Type} (c : Conn σ) (buf : List Byte) (len total : Nat) (st : σ) :
    (write_all_loop c buf len total st).ret = 0 ∨ (write_all_loop c buf len total st).ret = -1 := by
  induction total, st using write_all_loop.induct c buf len with
  | case1 total st h hn => rw [write_all_loop]; simp [h, hn]
  | case2 total st h hn ih => rw [write_all_loop]; simp [h, hn]; exact ih
  | case3 total st h => rw [write_all_loop]; simp [h]

theorem write_all_loop_calls {σ : Type} (c : Conn σ) (buf : List Byte) (len total : Nat) (st : σ) :
    (write_all_loop c buf len total st).trace.length ≤ len - total := by
  induction total, st using write_all_loop.induct c buf len with
  | case1 total st h hn => rw [write_all_loop]; simp [h, hn]; omega
  | case2 total st h hn ih => rw [write_all_loop]; simp [h, hn]; omega
  | case3 total st h => rw [write_all_loop]; simp [h]

theorem take_take_drop (L : List Byte) (m n : Nat) (h : n ≤ m) :
    (L.take m).take n ++ (L.drop n).take (m - n) = L.take m := by
  rw [List.take_take, Nat.min_eq_left h]
  conv_rhs => rw [show m = n + (m - n) by omega, List.take_add]

theorem write_all_loop_sent {σ : Type} (c : Conn σ) (hw : ∀ st data, (c.write st data).1 ≤ data.length)
    (buf : List Byte) (len total : Nat) (st : σ) :
    ((write_all_loop c buf len total st).ret = 0 →
        sent (write_all_loop c buf len total st).trace = (buf.drop total).take (len - total) ∧
        (sent (write_all_loop c buf len total st).trace).length = len - total) ∧
    ((write_all_loop c buf len total st).ret ≠ 0 →
        sent (write_all_loop c buf len total st).trace
          = (buf.drop total).take (sent (write_all_loop c buf len total st).trace).length ∧
        (sent (write_all_loop c buf len total st).trace).length < len - total) := by
  induction total, st using write_all_loop.induct c buf len with
  | case1 total st h hn =>
    rw [write_all_loop]; simp [h, hn, sent]
    have : (c.write st (List.take (len - total) (List.drop total buf))).1.toNat = 0 := by omega
    simp [this]; omega
  | case2 total st h hn ih =>
    rw [write_all_loop]; simp only [h, hn, dite_true, dite_false, sent]
    have hle := hw st (List.take (len - total) (List.drop total buf))
    set n := (c.write st (List.take (len - total) (List.drop total buf))).1 with hn_def
    have hlen : (List.take (len - total) (List.drop total buf)).length ≤ len - total := by
      simp
    have hn1 : n.toNat ≤ len - total := by omega
    have hn2 : n.toNat ≤ (List.take (len - total) (List.drop total buf)).length := by omega
    have hdrop : List.drop (total + n.toNat) buf = List.drop n.toNat (List.drop total buf) := by
      rw [List.drop_drop, Nat.add_comm]
    have hsub : len - (total + n.toNat) = len - total - n.toNat := by omega
    rw [hdrop, hsub] at ih
    refine ⟨fun h0 => ?_, fun h0 => ?_⟩
    · obtain ⟨e1, e2⟩ := ih.1 h0
      refine ⟨?_, ?_⟩
      · rw [e1]; exact take_take_drop _ _ _ hn1
      · rw [List.length_append, e2, List.length_take, List.length_take] 
        simp only [List.length_take] at hn2
        omega
    · obtain ⟨e1, e2⟩ := ih.2 h0
      refine ⟨?_, ?_⟩
      · rw [List.length_append]
        have hl : (List.take n.toNat (List.take (len - total) (List.drop total buf))).length = n.toNat := by
          rw [List.length_take]; omega
        rw [hl]
        rw [List.take_add]
        congr 1
        · rw [List.take_take, Nat.min_eq_left hn1]
      · rw [List.length_append, List.length_take]; omega
  | case3 total st h =>
    rw [write_all_loop]; simp [h, sent]
    omega

theorem write_all_loop_rets {σ : Type} (c : Conn σ) (buf : List Byte) (len total : Nat) (st : σ) :
    ((write_all_loop c buf len total st).ret = 0 ↔
        ∀ n ∈ write_rets (write_all_loop c buf len total st).trace, 0 < n) ∧
    ((write_all_loop c buf len total st).ret = -1 →
        ∃ pre n, write_rets (write_all_loop c buf len total st).trace = pre ++ [n] ∧ n ≤ 0 ∧
          ∀ m ∈ pre, 0 < m) := by
  induction total, st using write_all_loop.induct c buf len with
  | case1 total st h hn =>
    rw [write_all_loop]; simp only [h, hn, dite_true, write_rets]
    refine ⟨by simp; omega, fun _ => ⟨[], _, rfl, hn, by simp⟩⟩
  | case2 total st h hn ih =>
    rw [write_all_loop]; simp only [h, hn, dite_true, dite_false, write_rets]
    refine ⟨?_, fun h1 => ?_⟩
    · rw [ih.1]; simp only [List.mem_cons, forall_eq_or_imp]
      constructor
      · intro hh; exact ⟨by omega, hh⟩
      · intro hh; exact hh.2
    · obtain ⟨pre, n, e, hle, hpre⟩ := ih.2 h1
      refine ⟨_ :: pre, n, by rw [e]; rfl, hle, ?_⟩
      intro m hm
      rcases List.mem_cons.1 hm with rfl | hm
      · omega
      · exact hpre m hm
  | case3 total st h =>
    rw [write_all_loop]; simp [h, write_rets]

theorem write_all_loop_offers {σ : Type} (c : Conn σ) (buf : List Byte) (len total : Nat) (st : σ) :
    OffersInOrder buf len total (write_all_loop c buf len total st).trace := by
  induction total, st using write_all_loop.induct c buf len with
  | case1 total st h hn =>
    rw [write_all_loop]; simp only [h, hn, dite_true, OffersInOrder]
    simp [List.take_drop]
  | case2 total st h hn ih =>
    rw [write_all_loop]; simp only [h, hn, dite_true, dite_false, OffersInOrder]
    exact ⟨trivial, ih⟩
  | case3 total st h =>
    rw [write_all_loop]; simp [h, OffersInOrder]

theorem write_all_loop_only {σ : Type} (c : Conn σ) (buf : List Byte) (len total : Nat) (st : σ) :
    OnlyWrites (write_all_loop c buf len total st).trace := by
  induction total, st using write_all_loop.induct c buf len with
  | case1 total st h hn =>
    rw [write_all_loop]; simp only [h, hn, dite_true, OnlyWrites]
    intro e he; simp at he; exact ⟨_, _, he⟩
  | case2 total st h hn ih =>
    rw [write_all_loop]; simp only [h, hn, dite_true, dite_false, OnlyWrites]
    intro e he
    rcases List.mem_cons.1 he with rfl | he
    · exact ⟨_, _, rfl⟩
    · exact ih e he
  | case3 total st h =>
    rw [write_all_loop]; simp [h, OnlyWrites]

/-! ## Lemmas on `read_all` -/

theorem read_all_loop_ret {σ : Type} (c : Conn σ) (len total : Nat) (buf : List Byte) (st : σ) :
    (read_all_loop c len total buf st).ret = 0 ∨ (read_all_loop c len total buf st).ret = -1 := by
  induction total, buf, st using read_all_loop.induct c len with
  | case1 total buf st h hr => rw [read_all_loop]; simp [h, hr]
  | case2 total buf st h bs hr hn => rw [read_all_loop]; simp [h, hr, hn]
  | case3 total buf st h bs hr hn ih => rw [read_all_loop]; simp [h, hr, hn]; exact ih
  | case4 total buf st h => rw [read_all_loop]; simp [h]

theorem read_all_loop_buf {σ : Type} (c : Conn σ) (len total : Nat) (buf : List Byte) (st : σ) :
    (read_all_loop c len total buf st).buf
      = buf ++ received (read_all_loop c len total buf st).trace := by
  induction total, buf, st using read_all_loop.induct c len with
  | case1 total buf st h hr => rw [read_all_loop]; simp [h, hr, received]
  | case2 total buf st h bs hr hn =>
    rw [read_all_loop]; simp [h, hr, hn, received]
    exact List.length_eq_zero.1 hn
  | case3 total buf st h bs hr hn ih =>
    rw [read_all_loop]; simp [h, hr, hn, received]; rw [ih]; simp
  | case4 total buf st h => rw [read_all_loop]; simp [h, received]

theorem read_all_loop_only {σ : Type} (c : Conn σ) (len total : Nat) (buf : List Byte) (st : σ) :
    OnlyReads (read_all_loop c len total buf st).trace := by
  induction total, buf, st using read_all_loop.induct c len with
  | case1 total buf st h hr =>
    rw [read_all_loop]; simp only [h, hr, dite_true, OnlyReads]
    intro e he; simp at he; exact ⟨_, _, he⟩
  | case2 total buf st h bs hr hn =>
    rw [read_all_loop]; simp only [h, hr, hn, dite_true, OnlyReads]
    intro e he; simp at he; exact ⟨_, _, he⟩
  | case3 total buf st h bs hr hn ih =>
    rw [read_all_loop]; simp only [h, hr, hn, dite_true, dite_false, OnlyReads]
    intro e he
    rcases List.mem_cons.1 he with rfl | he
    · exact ⟨_, _, rfl⟩
    · exact ih e he
  | case4 total buf st h => rw [read_all_loop]; simp [h, OnlyReads]

theorem read_all_loop_received {σ : Type} (c : Conn σ)
    (hr : ∀ st count bs, (c.read st count).1 = some bs → bs.length ≤ count)
    (len total : Nat) (buf : List Byte) (st : σ) :
    ((read_all_loop c len total buf st).ret = 0 →
        (received (read_all_loop c len total buf st).trace).length = len - total) ∧
    ((read_all_loop c len total buf st).ret ≠ 0 →
        (received (read_all_loop c len total buf st).trace).length < len - total) := by
  induction total, buf, st using read_all_loop.induct c len with
  | case1 total buf st h he => rw [read_all_loop]; simp [h, he, received]
  | case2 total buf st h bs he hn =>
    rw [read_all_loop]; simp [h, he, hn, received]
  | case3 total buf st h bs he hn ih =>
    rw [read_all_loop]; simp only [h, he, hn, dite_true, dite_false, received, List.length_append]
    have := hr _ _ _ he
    refine ⟨fun h0 => ?_, fun h0 => ?_⟩
    · have := ih.1 h0; omega
    · have := ih.2 h0; omega
  | case4 total buf st h => rw [read_all_loop]; simp [h, received]; omega

/-! ## Lemmas on the loop that reads the body -/

section BodyLoop
open Client

theorem stdin_count_eq (n : Nat) (h : n ≤ MAX_BODY_BYTES + 1) :
    stdin_count n = MAX_BODY_BYTES + 1 - n := by
  unfold stdin_count MAX_BODY_BYTES at *
  norm_num at *
  omega

theorem read_body_loop_spec {σ : Type} (rd : σ → Nat → Option (List Byte) × σ)
    (hr : ∀ st count bs, (rd st count).1 = some bs → bs.length ≤ count)
    (body : List Byte) (st : σ) (hb : body.length ≤ MAX_BODY_BYTES) :
    ReadsFillBuffer body.length (read_body_loop rd body st).trace ∧
    (read_body_loop rd body st).body = body ++ stdin_bytes (read_body_loop rd body st).trace ∧
    (read_body_loop rd body st).body.length ≤ MAX_BODY_BYTES + 1 ∧
    ((read_body_loop rd body st).too_large = false →
      (read_body_loop rd body st).body.length ≤ MAX_BODY_BYTES) ∧
    ((read_body_loop rd body st).too_large = true →
      (read_body_loop rd body st).body.length = MAX_BODY_BYTES + 1) ∧
    (read_body_loop rd body st).trace.length ≤ MAX_BODY_BYTES + 1 - body.length := by
  have hc := stdin_count_eq body.length (by omega)
  induction body, st using read_body_loop.induct rd with
  | case1 body st he =>
    rw [read_body_loop]; simp only [he, ReadsFillBuffer, stdin_bytes]
    simp [hc]; omega
  | case2 body st bs he hn =>
    rw [read_body_loop]; simp only [he, hn, dite_true, ReadsFillBuffer, stdin_bytes]
    simp [hc, hn, List.length_eq_zero.1 hn]; omega
  | case3 body st bs he hn hl =>
    rw [read_body_loop]; simp only [he, hn, hl, dite_true, dite_false, ReadsFillBuffer, stdin_bytes]
    have := hr _ _ _ he
    simp only [List.length_append, gt_iff_lt] at hl
    simp [hc]; omega
  | case4 body st bs he hn hl ih =>
    rw [read_body_loop]; simp only [he, hn, hl, dite_true, dite_false, ReadsFillBuffer, stdin_bytes]
    have := hr _ _ _ he
    simp only [List.length_append, gt_iff_lt, not_lt] at hl
    have ih' := ih (by simp; omega) (stdin_count_eq _ (by simp; omega))
    simp only [List.length_append] at ih'
    obtain ⟨i1, i2, i3, i4, i5, i6⟩ := ih'
    refine ⟨⟨by omega, by omega, by simp; omega, by simpa using i1⟩, ?_, i3, i4, i5, ?_⟩
    · rw [i2]; simp
    · simp; omega

end BodyLoop

/-! ## Lemmas on byte streams -/

section Streams
open Client

theorem stream_read_le (sched : Nat → Nat) :
    ∀ (st : Stream) (count : Nat) (bs : List Byte),
      (stream_read sched st count).1 = some bs → bs.length ≤ count := by
  intro st count bs h
  simp only [stream_read, Option.some.injEq] at h
  subst h
  simp only [List.length_take]
  omega

theorem read_body_loop_stream (sched : Nat → Nat) (body : List Byte) (st : Stream)
    (hb : body.length ≤ MAX_BODY_BYTES) :
    (MAX_BODY_BYTES < body.length + st.data.length →
      (read_body_loop (stream_read sched) body st).too_large = true) ∧
    (body.length + st.data.length ≤ MAX_BODY_BYTES →
      (read_body_loop (stream_read sched) body st).too_large = false ∧
      (read_body_loop (stream_read sched) body st).body = body ++ st.data) := by
  have hc := stdin_count_eq body.length (by omega)
  induction body, st using read_body_loop.induct (stream_read sched) with
  | case1 body st he => simp [stream_read] at he
  | case2 body st bs he hn =>
    rw [read_body_loop]; simp only [he, hn, dite_true]
    simp only [stream_read, Option.some.injEq] at he
    subst he
    simp only [List.length_take] at hn
    have hd : st.data.length = 0 := by omega
    have hd' : st.data = [] := List.length_eq_zero.1 hd
    simp [hd']
    exact hb
  | case3 body st bs he hn hl =>
    rw [read_body_loop]; simp only [he, hn, hl, dite_true, dite_false]
    simp only [stream_read, Option.some.injEq] at he
    subst he
    simp only [List.length_append, List.length_take, gt_iff_lt] at hl
    simp
    omega
  | case4 body st bs he hn hl ih =>
    rw [read_body_loop]; simp only [he, hn, hl, dite_true, dite_false]
    simp only [stream_read, Option.some.injEq] at he
    subst he
    simp only [List.length_append, List.length_take, gt_iff_lt, not_lt] at hl
    have ih' := ih (by simp; omega) (stdin_count_eq _ (by simp; omega))
    simp only [stream_read, List.length_append, List.length_take, List.length_drop,
      List.append_assoc, List.take_append_drop] at ih'
    refine ⟨fun h1 => ih'.1 (by omega), fun h1 => ih'.2 (by omega)⟩

theorem read_all_loop_stream {τ : Type} (sched : Nat → Nat) (wr : τ → List Byte → Int × τ)
    (len total : Nat) (buf : List Byte) (st : Stream × τ) :
    (read_all_loop (streamConn sched wr) len total buf st).st.2 = st.2 ∧
    (len - total ≤ st.1.data.length →
      (read_all_loop (streamConn sched wr) len total buf st).ret = 0 ∧
      (read_all_loop (streamConn sched wr) len total buf st).buf
        = buf ++ st.1.data.take (len - total) ∧
      (read_all_loop (streamConn sched wr) len total buf st).st.1.data
        = st.1.data.drop (len - total)) ∧
    (st.1.data.length < len - total →
      (read_all_loop (streamConn sched wr) len total buf st).ret = -1) := by
  induction total, buf, st using read_all_loop.induct (streamConn sched wr) len with
  | case1 total buf st h he => simp [streamConn, stream_read] at he
  | case2 total buf st h bs he hn =>
    rw [read_all_loop]; simp only [h, he, hn, dite_true]
    simp only [streamConn, stream_read, Option.some.injEq] at he ⊢
    subst he
    simp only [List.length_take] at hn
    have hd : st.1.data.length = 0 := by omega
    refine ⟨trivial, fun h1 => by omega, fun _ => trivial⟩
  | case3 total buf st h bs he hn ih =>
    rw [read_all_loop]; simp only [h, he, hn, dite_true, dite_false]
    simp only [streamConn, stream_read, Option.some.injEq] at he
    subst he
    simp only [List.length_take] at hn
    simp only [streamConn, stream_read, List.length_take, List.length_drop] at ih ⊢
    obtain ⟨i1, i2, i3⟩ := ih
    refine ⟨i1, fun h1 => ?_, fun h1 => i3 (by omega)⟩
    obtain ⟨j1, j2, j3⟩ := i2 (by omega)
    refine ⟨j1, ?_, ?_⟩
    · rw [j2, List.append_assoc]
      congr 1
      set n := min (min (len - total) (sched st.1.calls + 1)) st.1.data.length with hn_def
      have hnle : n ≤ len - total := by omega
      have e : len - (total + min n st.1.data.length) = len - total - n := by omega
      rw [e]
      conv_rhs => rw [show len - total = n + (len - total - n) by omega, List.take_add]
    · rw [j3, List.drop_drop]
      congr 1
      omega
  | case4 total buf st h =>
    rw [read_all_loop]; simp only [h, dite_false]
    have : len - total = 0 := by omega
    simp [this]

theorem read_all_stream {τ : Type} (sched : Nat → Nat) (wr : τ → List Byte → Int × τ)
    (len : Nat) (st : Stream × τ) :
    (read_all (streamConn sched wr) st len).st.2 = st.2 ∧
    (len ≤ st.1.data.length →
      (read_all (streamConn sched wr) st len).ret = 0 ∧
      (read_all (streamConn sched wr) st len).buf = st.1.data.take len ∧
      (read_all (streamConn sched wr) st len).st.1.data = st.1.data.drop len) ∧
    (st.1.data.length < len → (read_all (streamConn sched wr) st len).ret = -1) := by
  have := read_all_loop_stream sched wr len 0 [] st
  simpa [read_all] using this

end Streams

/-! ## Lemmas on big-endian integers -/

theorem byte_and_ff (x : Nat) : x &&& 0xFF = x % 256 := by
  have := Nat.and_pow_two_sub_one_eq_mod x 8
  simpa using this

theorem length_be_encode (w n : Nat) : (be_encode w n).length = w := by
  induction w with
  | zero => rfl
  | succ w ih => simp [be_encode, ih]

theorem htonl_bytes_eq (h : Nat) : htonl_bytes h = be_encode 4 h := by
  simp only [htonl_bytes, be_encode, byte_and_ff, Nat.shiftRight_eq_div_pow]
  norm_num

theorem body_len_buf_eq (n : Nat) :
    (List.range 8).map (fun i => (Fin.ofNat ((n >>> (8 * (7 - i))) &&& 0xFF) : Byte))
      = be_encode 8 n := by
  simp only [be_encode, byte_and_ff, Nat.shiftRight_eq_div_pow]
  simp [List.range, List.range.loop]

theorem be_decode_foldl (bs : List Byte) (v : Nat) :
    bs.foldl (fun v b => v * 256 + b.val) v = v * 256 ^ bs.length + be_decode bs := by
  induction bs generalizing v with
  | nil => simp [be_decode]
  | cons b bs ih =>
    simp only [List.foldl_cons, List.length_cons, be_decode]
    rw [ih, ih (0 * 256 + b.val)]
    ring

theorem be_decode_cons (b : Byte) (bs : List Byte) :
    be_decode (b :: bs) = b.val * 256 ^ bs.length + be_decode bs := by
  simp only [be_decode, List.foldl_cons]
  rw [be_decode_foldl]
  simp [be_decode]

theorem be_decode_encode (w n : Nat) : be_decode (be_encode w n) = n % 256 ^ w := by
  induction w with
  | zero => simp [be_encode, be_decode, Nat.mod_one]
  | succ w ih =>
    rw [be_encode, be_decode_cons, ih, length_be_encode]
    have h1 : ((Fin.ofNat (n / 256 ^ w % 256) : Byte)).val = n / 256 ^ w % 256 := by
      simp [Fin.ofNat]
    rw [h1, pow_succ, Nat.mod_mul, Nat.add_comm, Nat.mul_comm]

theorem be_decode_lt (bs : List Byte) : be_decode bs < 256 ^ bs.length := by
  induction bs with
  | nil => simp [be_decode]
  | cons b bs ih =>
    rw [be_decode_cons, List.length_cons, pow_succ]
    have := b.isLt
    nlinarith

theorem shl8_or (v b : Nat) (hb : b < 256) : (v <<< 8) ||| b = v * 256 + b := by
  rw [Nat.shiftLeft_eq, Nat.mul_comm]
  exact (@Nat.mul_add_lt_is_or 8 b hb v).symm

theorem u64_step (v b : Nat) (hv : v < 2 ^ 56) (hb : b < 256) :
    ((v <<< 8) % 2 ^ 64) ||| b = v * 256 + b := by
  have h1 : v <<< 8 < 2 ^ 64 := by
    rw [Nat.shiftLeft_eq]; norm_num at hv ⊢; omega
  rw [Nat.mod_eq_of_lt h1, shl8_or v b hb]

theorem u64_foldl (bs : List Byte) (h : bs.length ≤ 8) :
    bs.foldl (fun v b => ((v <<< 8) % 2 ^ 64) ||| b.val) 0 = be_decode bs := by
  induction bs using List.reverseRecOn with
  | nil => rfl
  | append_singleton bs b ih =>
    simp only [List.length_append, List.length_singleton] at h
    rw [List.foldl_append, List.foldl_cons, List.foldl_nil, ih (by omega)]
    have hlt := be_decode_lt bs
    have hp : 256 ^ bs.length ≤ 256 ^ 7 := Nat.pow_le_pow_right (by norm_num) (by omega)
    rw [u64_step _ _ (by norm_num at hp ⊢; omega) b.isLt]
    simp [be_decode, List.foldl_append]

theorem read_u64_be_eq (inp : List Byte) (h : inp.length = 8) :
    MockServer.read_u64_be inp = be_decode inp := by
  rw [← u64_foldl inp (by omega)]
  match inp, h with
  | [a, b, c, d, e, f, g, i], _ =>
    simp [MockServer.read_u64_be, List.range, List.range.loop]

theorem ntohl_bytes_eq (m : List Byte) (h : m.length = 4) : ntohl_bytes m = be_decode m := by
  match m, h with
  | [a, b, c, d], _ =>
    have ha := a.isLt; have hb := b.isLt; have hc := c.isLt; have hd := d.isLt
    simp only [ntohl_bytes, List.getD_cons_zero, List.getD_cons_succ, be_decode, List.foldl_cons,
      List.foldl_nil]
    rw [Nat.shiftLeft_eq b.val, Nat.shiftLeft_eq c.val]
    have e1 : a.val <<< 24 ||| b.val * 2 ^ 16 = 2 ^ 24 * a.val + b.val * 2 ^ 16 := by
      rw [Nat.shiftLeft_eq, Nat.mul_comm]
      exact (@Nat.mul_add_lt_is_or 24 _ (by norm_num; omega) a.val).symm
    have e2 : (2 ^ 24 * a.val + b.val * 2 ^ 16) ||| c.val * 2 ^ 8
        = 2 ^ 16 * (2 ^ 8 * a.val + b.val) + c.val * 2 ^ 8 := by
      rw [show 2 ^ 24 * a.val + b.val * 2 ^ 16 = 2 ^ 16 * (2 ^ 8 * a.val + b.val) by ring]
      exact (@Nat.mul_add_lt_is_or 16 _ (by norm_num; omega) _).symm
    have e3 : (2 ^ 16 * (2 ^ 8 * a.val + b.val) + c.val * 2 ^ 8) ||| d.val
        = 2 ^ 8 * (2 ^ 8 * (2 ^ 8 * a.val + b.val) + c.val) + d.val := by
      rw [show 2 ^ 16 * (2 ^ 8 * a.val + b.val) + c.val * 2 ^ 8
        = 2 ^ 8 * (2 ^ 8 * (2 ^ 8 * a.val + b.val) + c.val) by ring]
      exact (@Nat.mul_add_lt_is_or 8 _ (show d.val < 2 ^ 8 from d.isLt) _).symm
    rw [e1, e2, e3]
    ring

/-! ## Lemmas on the reference server -/

section Server
open MockServer

theorem prefix_reads {τ : Type} (sched : Nat → Nat) (wr : τ → List Byte → Int × τ)
    (st : Stream × τ) (M H B rest : List Byte) (hM : M.length = 4) (hH : H.length = 4)
    (hB : B.length = 8) (hd : st.1.data = M ++ H ++ B ++ rest) :
    (read_all (streamConn sched wr) st 4).ret = 0 ∧
    (read_all (streamConn sched wr) st 4).buf = M ∧
    (read_all (streamConn sched wr) (read_all (streamConn sched wr) st 4).st 4).ret = 0 ∧
    (read_all (streamConn sched wr) (read_all (streamConn sched wr) st 4).st 4).buf = H ∧
    (read_all (streamConn sched wr)
      (read_all (streamConn sched wr) (read_all (streamConn sched wr) st 4).st 4).st 8).ret = 0 ∧
    (read_all (streamConn sched wr)
      (read_all (streamConn sched wr) (read_all (streamConn sched wr) st 4).st 4).st 8).buf = B ∧
    (read_all (streamConn sched wr)
      (read_all (streamConn sched wr) (read_all (streamConn sched wr) st 4).st 4).st 8).st.1.data
      = rest ∧
    (read_all (streamConn sched wr)
      (read_all (streamConn sched wr) (read_all (streamConn sched wr) st 4).st 4).st 8).st.2
      = st.2 := by
  obtain ⟨a1, a2, _⟩ := read_all_stream sched wr 4 st
  obtain ⟨b1, b2, b3⟩ := a2 (by rw [hd]; simp; omega)
  rw [hd] at b2 b3
  have b2' : (read_all (streamConn sched wr) st 4).buf = M := by
    rw [b2, List.append_assoc, List.append_assoc, List.take_left' hM]
  have b3' : (read_all (streamConn sched wr) st 4).st.1.data = H ++ B ++ rest := by
    rw [b3, List.append_assoc, List.append_assoc, List.drop_left' hM, List.append_assoc]
  obtain ⟨c1, c2, _⟩ := read_all_stream sched wr 4 (read_all (streamConn sched wr) st 4).st
  obtain ⟨d1, d2, d3⟩ := c2 (by rw [b3']; simp; omega)
  rw [b3'] at d2 d3
  rw [List.append_assoc, List.take_left' hH] at d2
  rw [List.append_assoc, List.drop_left' hH] at d3
  obtain ⟨e1, e2, _⟩ := read_all_stream sched wr 8
    (read_all (streamConn sched wr) (read_all (streamConn sched wr) st 4).st 4).st
  obtain ⟨f1, f2, f3⟩ := e2 (by rw [d3]; simp; omega)
  rw [d3] at f2 f3
  rw [List.take_left' hB] at f2
  rw [List.drop_left' hB] at f3
  exact ⟨b1, b2', d1, d2, f1, f2, f3, by rw [e1, c1, a1]⟩

theorem NoOutput_nil : NoOutput [] := by simp [NoOutput]

theorem NoOutput_append (a b : List Event) : NoOutput (a ++ b) ↔ NoOutput a ∧ NoOutput b := by
  simp only [NoOutput, List.mem_append]
  constructor
  · intro h; exact ⟨fun e he => h e (Or.inl he), fun e he => h e (Or.inr he)⟩
  · rintro ⟨h1, h2⟩ e (he | he)
    · exact h1 e he
    · exact h2 e he

theorem NoOutput_cons (e : Event) (a : List Event) :
    NoOutput (e :: a) ↔ (e.isStdout = false ∧ e.isWrite = false) ∧ NoOutput a := by
  simp [NoOutput]

theorem NoOutput_of_OnlyReads (a : List Event) (h : OnlyReads a) : NoOutput a := by
  intro e he
  obtain ⟨c, g, rfl⟩ := h e he
  simp [Event.isStdout, Event.isWrite]

theorem NoMalloc_nil : NoMalloc [] := by simp [NoMalloc]

theorem NoMalloc_append (a b : List Event) : NoMalloc (a ++ b) ↔ NoMalloc a ∧ NoMalloc b := by
  simp only [NoMalloc, List.mem_append]
  constructor
  · intro h; exact ⟨fun e he => h e (Or.inl he), fun e he => h e (Or.inr he)⟩
  · rintro ⟨h1, h2⟩ e (he | he)
    · exact h1 e he
    · exact h2 e he

theorem NoMalloc_cons (e : Event) (a : List Event) :
    NoMalloc (e :: a) ↔ e.isMalloc = false ∧ NoMalloc a := by
  simp [NoMalloc]

theorem NoMalloc_of_OnlyReads (a : List Event) (h : OnlyReads a) : NoMalloc a := by
  intro e he
  obtain ⟨c, g, rfl⟩ := h e he
  simp [Event.isMalloc]

theorem read_all_only {σ : Type} (c : Conn σ) (st : σ) (len : Nat) :
    OnlyReads (read_all c st len).trace := read_all_loop_only c len 0 [] st

theorem recv_payload_no_output {σ : Type} (env : Env σ) (st : σ) (h b : Nat) :
    NoOutput (recv_payload env st h b).trace := by
  have r := fun st len => NoOutput_of_OnlyReads _ (read_all_only env.conn st len)
  simp only [recv_payload]
  have n4 := r st h
  generalize read_all env.conn st h = r4 at n4 ⊢
  have n5 := r r4.st b
  generalize read_all env.conn r4.st b = r5 at n5 ⊢
  split_ifs
  all_goals
    simp only [NoOutput_append, NoOutput_cons, NoOutput_nil, n4, n5, Event.isStdout,
      Event.isWrite, and_self]

theorem recv_checked_no_output {σ : Type} (env : Env σ) (st : σ) (M H B : List Byte) :
    NoOutput (recv_checked env st M H B).trace := by
  simp only [recv_checked]
  split_ifs
  · simp [NoOutput_cons, NoOutput_nil, Event.isStdout, Event.isWrite]
  · simp [NoOutput_cons, NoOutput_nil, Event.isStdout, Event.isWrite]
  · exact recv_payload_no_output _ _ _ _

theorem recv_frame_no_output {σ : Type} (env : Env σ) (st : σ) :
    NoOutput (recv_frame env st).trace := by
  have r := fun st len => NoOutput_of_OnlyReads _ (read_all_only env.conn st len)
  simp only [recv_frame, BOUNCER_MAGIC_LEN]
  have n1 := r st 4
  generalize read_all env.conn st 4 = r1 at n1 ⊢
  have n2 := r r1.st 4
  generalize read_all env.conn r1.st 4 = r2 at n2 ⊢
  have n3 := r r2.st 8
  generalize read_all env.conn r2.st 8 = r3 at n3 ⊢
  split_ifs
  all_goals
    simp only [NoOutput_append, NoOutput_cons, NoOutput_nil, n1, n2, n3, Event.isStdout,
      Event.isWrite, and_self, recv_checked_no_output]

theorem recv_checked_no_malloc {σ : Type} (env : Env σ) (st : σ) (M H B : List Byte)
    (h : (recv_checked env st M H B).result = .error 5 ∨
      (recv_checked env st M H B).result = .error 6) :
    NoMalloc (recv_checked env st M H B).trace := by
  revert h
  simp only [recv_checked, recv_payload]
  generalize read_all env.conn st (ntohl_bytes H) = r4
  generalize read_all env.conn r4.st (read_u64_be B) = r5
  split_ifs
  all_goals simp [NoMalloc_cons, NoMalloc_nil, Event.isMalloc]

theorem recv_frame_no_malloc {σ : Type} (env : Env σ) (st : σ)
    (h : (recv_frame env st).result = .error 4 ∨ (recv_frame env st).result = .error 5 ∨
      (recv_frame env st).result = .error 6) :
    NoMalloc (recv_frame env st).trace := by
  have r := fun st len => NoMalloc_of_OnlyReads _ (read_all_only env.conn st len)
  revert h
  simp only [recv_frame, BOUNCER_MAGIC_LEN]
  have n1 := r st 4
  generalize read_all env.conn st 4 = r1 at n1 ⊢
  have n2 := r r1.st 4
  generalize read_all env.conn r1.st 4 = r2 at n2 ⊢
  have n3 := r r2.st 8
  generalize read_all env.conn r2.st 8 = r3 at n3 ⊢
  split_ifs
  · intro _; simp [NoMalloc_append, NoMalloc_cons, NoMalloc_nil, n1, n2, n3, Event.isMalloc]
  · intro _; simp [NoMalloc_append, NoMalloc_cons, NoMalloc_nil, n1, n2, n3, Event.isMalloc]
  · intro _; simp [NoMalloc_append, NoMalloc_cons, NoMalloc_nil, n1, n2, n3, Event.isMalloc]
  · intro h
    simp only [NoMalloc_append, n1, n2, n3, true_and]
    apply recv_checked_no_malloc
    have h4 : (recv_checked env r3.st r1.buf r2.buf r3.buf).result ≠ .error 4 := by
      simp only [recv_checked, recv_payload]
      generalize read_all env.conn r3.st (ntohl_bytes r2.buf) = r4
      generalize read_all env.conn r4.st (read_u64_be r3.buf) = r5
      split_ifs <;> simp
    rcases h with h | h | h
    · exact absurd h h4
    · exact Or.inl h
    · exact Or.inr h

theorem recv_frame_stream_short {τ : Type} (malloc : Nat → Nat → Bool) (sched : Nat → Nat)
    (wr : τ → List Byte → Int × τ) (st : Stream × τ) (h : st.1.data.length < 16) :
    (recv_frame ⟨malloc, streamConn sched wr⟩ st).result = .error 4 := by
  simp only [recv_frame, BOUNCER_MAGIC_LEN]
  obtain ⟨_, a2, a3⟩ := read_all_stream sched wr 4 st
  by_cases c1 : st.1.data.length < 4
  · have := a3 c1
    simp [this]
  obtain ⟨a4, _, a6⟩ := a2 (by omega)
  obtain ⟨_, b2, b3⟩ := read_all_stream sched wr 4 (read_all (streamConn sched wr) st 4).st
  rw [a6, List.length_drop] at b2 b3
  by_cases c2 : st.1.data.length - 4 < 4
  · have := b3 c2
    simp [a4, this]
  obtain ⟨b4, _, b6⟩ := b2 (by omega)
  obtain ⟨_, _, d3⟩ := read_all_stream sched wr 8
    (read_all (streamConn sched wr) (read_all (streamConn sched wr) st 4).st 4).st
  rw [b6, List.length_drop, List.length_drop] at d3
  have := d3 (by omega)
  simp [a4, b4, this]

theorem recv_frame_stream_prefix {τ : Type} (malloc : Nat → Nat → Bool) (sched : Nat → Nat)
    (wr : τ → List Byte → Int × τ)
    (st : Stream × τ) (M H B rest : List Byte) (hM : M.length = 4) (hH : H.length = 4)
    (hB : B.length = 8) (hd : st.1.data = M ++ H ++ B ++ rest) :
    ∃ (st3 : Stream × τ) (pre : List Event), st3.1.data = rest ∧ st3.2 = st.2 ∧ OnlyReads pre ∧
      (recv_frame ⟨malloc, streamConn sched wr⟩ st).result
        = (recv_checked ⟨malloc, streamConn sched wr⟩ st3 M H B).result ∧
      (recv_frame ⟨malloc, streamConn sched wr⟩ st).st
        = (recv_checked ⟨malloc, streamConn sched wr⟩ st3 M H B).st ∧
      (recv_frame ⟨malloc, streamConn sched wr⟩ st).trace
        = pre ++ (recv_checked ⟨malloc, streamConn sched wr⟩ st3 M H B).trace := by
  obtain ⟨h1, h2, h3, h4, h5, h6, h7, h8⟩ := prefix_reads sched wr st M H B rest hM hH hB hd
  refine ⟨_, (read_all (streamConn sched wr) st 4).trace
      ++ (read_all (streamConn sched wr) (read_all (streamConn sched wr) st 4).st 4).trace
      ++ (read_all (streamConn sched wr)
          (read_all (streamConn sched wr) (read_all (streamConn sched wr) st 4).st 4).st 8).trace,
    h7, h8, ?_, ?_⟩
  · intro e he
    simp only [List.mem_append] at he
    rcases he with (he | he) | he
    · exact read_all_only _ _ _ e he
    · exact read_all_only _ _ _ e he
    · exact read_all_only _ _ _ e he
  · simp only [recv_frame, BOUNCER_MAGIC_LEN, h1, h2, h3, h4, h5, h6, ne_eq, not_true_eq_false,
      if_false, and_self]

theorem recv_checked_bad_magic {σ : Type} (env : Env σ) (st : σ) (M H B : List Byte)
    (hM : M.length = 4) (hne : M ≠ lit "BNCE") :
    recv_checked env st M H B = ⟨.error 5, st, [Event.stderr Msg.bad_magic, Event.close]⟩ := by
  have hm : List.take 4 M ≠ List.take 4 BOUNCER_MAGIC := by
    rw [List.take_of_length_le (by omega)]
    intro h; apply hne; rw [h]; decide
  simp only [recv_checked, BOUNCER_MAGIC_LEN, hm, ne_eq, not_false_eq_true, if_true]

theorem recv_checked_good_magic {σ : Type} (env : Env σ) (st : σ) (H B : List Byte)
    (hH : H.length = 4) (hB : B.length = 8) :
    recv_checked env st (lit "BNCE") H B =
      if be_decode H = 0 ∨ be_decode H > MAX_HEADER_BYTES ∨ be_decode B > MAX_BODY_BYTES then
        ⟨.error 6, st,
          [Event.stderr (Msg.invalid_lengths (be_decode H) (be_decode B)), Event.close]⟩
      else recv_payload env st (be_decode H) (be_decode B) := by
  have hm : List.take 4 (lit "BNCE") = List.take 4 BOUNCER_MAGIC := by decide
  simp only [recv_checked, BOUNCER_MAGIC_LEN, hm, ne_eq, not_true_eq_false, if_false,
    ntohl_bytes_eq H hH, read_u64_be_eq B hB, Bool.or_eq_true, decide_eq_true_eq, or_assoc]

theorem recv_payload_no_error_456 {σ : Type} (env : Env σ) (st : σ) (h b : Nat) :
    (recv_payload env st h b).result ≠ .error 4 ∧ (recv_payload env st h b).result ≠ .error 5 ∧
    (recv_payload env st h b).result ≠ .error 6 := by
  simp only [recv_payload]
  generalize read_all env.conn st h = r4
  generalize read_all env.conn r4.st b = r5
  split_ifs <;> simp

theorem recv_payload_stream {τ : Type} (malloc : Nat → Nat → Bool) (sched : Nat → Nat)
    (wr : τ → List Byte → Int × τ) (st : Stream × τ) (h b : Nat)
    (hm0 : malloc 0 (h + 1) = true) (hm1 : malloc 1 b = true ∨ b = 0) :
    (st.1.data.length < h + b →
      (recv_payload ⟨malloc, streamConn sched wr⟩ st h b).result = .error 8) ∧
    (h + b ≤ st.1.data.length →
      (recv_payload ⟨malloc, streamConn sched wr⟩ st h b).result
        = .ok ⟨h, b, st.1.data.take h, (st.1.data.drop h).take b⟩ ∧
      (recv_payload ⟨malloc, streamConn sched wr⟩ st h b).st.1.data = st.1.data.drop (h + b) ∧
      (recv_payload ⟨malloc, streamConn sched wr⟩ st h b).st.2 = st.2) := by
  have hal : (!malloc 0 (h + 1) || (!malloc 1 b && decide (b > 0))) = false := by
    rcases hm1 with hm1 | hm1
    · simp [hm0, hm1]
    · simp [hm0, hm1]
  obtain ⟨a1, a2, a3⟩ := read_all_stream sched wr h st
  simp only [recv_payload, hal, Bool.false_eq_true, if_false]
  by_cases c1 : st.1.data.length < h
  · have e := a3 c1
    simp only [e]
    refine ⟨fun _ => by simp, fun h2 => by omega⟩
  · obtain ⟨a4, a5, a6⟩ := a2 (by omega)
    obtain ⟨b1, b2, b3⟩ := read_all_stream sched wr b (read_all (streamConn sched wr) st h).st
    rw [a6, List.length_drop] at b2 b3
    simp only [a4, ne_eq, not_true_eq_false, if_false]
    by_cases c2 : b > 0
    · simp only [c2, if_true]
      by_cases c3 : st.1.data.length - h < b
      · have e := b3 c3
        simp only [e]
        refine ⟨fun _ => by simp, fun h2 => by omega⟩
      · obtain ⟨b4, b5, b6⟩ := b2 (by omega)
        simp only [b4, ne_eq, not_true_eq_false, if_false]
        refine ⟨fun h2 => by omega, fun _ => ⟨?_, ?_, ?_⟩⟩
        · rw [a5, b5]
        · rw [b6, List.drop_drop, Nat.add_comm]
        · rw [b1, a1]
    · have hb0 : b = 0 := by omega
      subst hb0
      simp only [gt_iff_lt, lt_self_iff_false, if_false]
      refine ⟨fun h2 => by omega, fun _ => ⟨?_, ?_, ?_⟩⟩
      · rw [a5]; simp
      · rw [a6]; simp
      · rw [a1]

theorem main_conn_error {σ : Type} (env : Env σ) (st : σ) (code : Int)
    (h : (recv_frame env st).result = .error code) :
    main_conn env st = ⟨code, (recv_frame env st).st, (recv_frame env st).trace⟩ := by
  unfold main_conn
  generalize recv_frame env st = r at h
  obtain ⟨res, st1, tr⟩ := r
  simp only at h
  subst h
  rfl

theorem main_conn_ok {σ : Type} (env : Env σ) (st : σ) (f : Frame)
    (h : (recv_frame env st).result = .ok f) :
    main_conn env st =
      if (write_all env.conn (recv_frame env st).st BOUNCER_ACK BOUNCER_ACK_LEN).ret ≠ 0 then
        ⟨9, (write_all env.conn (recv_frame env st).st BOUNCER_ACK BOUNCER_ACK_LEN).st,
          (recv_frame env st).trace ++ [Event.stdout (Msg.frame f.header_len f.body_len),
               Event.stdout (Msg.header (cstr (f.header ++ [0])))]
          ++ (write_all env.conn (recv_frame env st).st BOUNCER_ACK BOUNCER_ACK_LEN).trace
          ++ [Event.stderr Msg.ack_failed, Event.close]⟩
      else
        ⟨0, (write_all env.conn (recv_frame env st).st BOUNCER_ACK BOUNCER_ACK_LEN).st,
          (recv_frame env st).trace ++ [Event.stdout (Msg.frame f.header_len f.body_len),
               Event.stdout (Msg.header (cstr (f.header ++ [0])))]
          ++ (write_all env.conn (recv_frame env st).st BOUNCER_ACK BOUNCER_ACK_LEN).trace
          ++ [Event.stdout Msg.result_ok, Event.close]⟩ := by
  unfold main_conn
  generalize recv_frame env st = r at h
  obtain ⟨res, st1, tr⟩ := r
  simp only at h
  subst h
  rfl

theorem main_conn_exit_cases {σ : Type} (env : Env σ) (st : σ) :
    (∃ code, (recv_frame env st).result = .error code ∧ (main_conn env st).exit = code) ∨
    ((∃ f, (recv_frame env st).result = .ok f) ∧
      ((main_conn env st).exit = 0 ∨ (main_conn env st).exit = 9)) := by
  cases hres : (recv_frame env st).result with
  | error code =>
    left; exact ⟨code, rfl, by rw [main_conn_error env st code hres]⟩
  | ok f =>
    right; refine ⟨⟨f, rfl⟩, ?_⟩
    rw [main_conn_ok env st f hres]
    split_ifs
    · right; rfl
    · left; rfl

theorem sent_of_NoOutput (tr : List Event) (h : NoOutput tr) : sent tr = [] := by
  induction tr with
  | nil => rfl
  | cons e es ih =>
    have he := (NoOutput_cons e es).1 h
    cases e <;> simp_all [sent, Event.isWrite]

theorem main_conn_invalid_lengths {τ : Type} (malloc : Nat → Nat → Bool) (sched : Nat → Nat)
    (wr : τ → List Byte → Int × τ) (t : τ) (k : Nat) (h b : Nat) (rest : List Byte)
    (hh : h < 2 ^ 32) (hb : b < 2 ^ 64)
    (hinv : h = 0 ∨ h > MAX_HEADER_BYTES ∨ b > MAX_BODY_BYTES) :
    (recv_frame ⟨malloc, streamConn sched wr⟩
      (⟨lit "BNCE" ++ be_encode 4 h ++ be_encode 8 b ++ rest, k⟩, t)).result = .error 6 ∧
    Event.stderr (Msg.invalid_lengths h b) ∈ (recv_frame ⟨malloc, streamConn sched wr⟩
      (⟨lit "BNCE" ++ be_encode 4 h ++ be_encode 8 b ++ rest, k⟩, t)).trace ∧
    (recv_frame ⟨malloc, streamConn sched wr⟩
      (⟨lit "BNCE" ++ be_encode 4 h ++ be_encode 8 b ++ rest, k⟩, t)).st.1.data = rest := by
  obtain ⟨st3, pre, h7, h8, hpre, e1, e2, e3⟩ :=
    recv_frame_stream_prefix malloc sched wr
      (⟨lit "BNCE" ++ be_encode 4 h ++ be_encode 8 b ++ rest, k⟩, t) (lit "BNCE") (be_encode 4 h)
      (be_encode 8 b) rest (by decide) (length_be_encode 4 h) (length_be_encode 8 b) rfl
  have hc := recv_checked_good_magic ⟨malloc, streamConn sched wr⟩ st3 (be_encode 4 h)
    (be_encode 8 b) (length_be_encode 4 h) (length_be_encode 8 b)
  have dh : be_decode (be_encode 4 h) = h := by
    rw [be_decode_encode]; exact Nat.mod_eq_of_lt (by norm_num at hh ⊢; exact hh)
  have db : be_decode (be_encode 8 b) = b := by
    rw [be_decode_encode]; exact Nat.mod_eq_of_lt (by norm_num at hb ⊢; exact hb)
  rw [dh, db, if_pos hinv] at hc
  rw [hc] at e1 e2 e3
  refine ⟨e1, ?_, ?_⟩
  · rw [e3]; simp
  · rw [e2]; exact h7

theorem main_conn_valid_lengths {τ : Type} (malloc : Nat → Nat → Bool) (sched : Nat → Nat)
    (wr : τ → List Byte → Int × τ) (t : τ) (k : Nat) (h b : Nat) (rest : List Byte)
    (hh : h < 2 ^ 32) (hb : b < 2 ^ 64)
    (hval : ¬ (h = 0 ∨ h > MAX_HEADER_BYTES ∨ b > MAX_BODY_BYTES)) :
    (main_conn ⟨malloc, streamConn sched wr⟩
      (⟨lit "BNCE" ++ be_encode 4 h ++ be_encode 8 b ++ rest, k⟩, t)).exit ≠ 6 := by
  obtain ⟨st3, pre, h7, h8, hpre, e1, e2, e3⟩ :=
    recv_frame_stream_prefix malloc sched wr
      (⟨lit "BNCE" ++ be_encode 4 h ++ be_encode 8 b ++ rest, k⟩, t) (lit "BNCE") (be_encode 4 h)
      (be_encode 8 b) rest (by decide) (length_be_encode 4 h) (length_be_encode 8 b) rfl
  have hc := recv_checked_good_magic ⟨malloc, streamConn sched wr⟩ st3 (be_encode 4 h)
    (be_encode 8 b) (length_be_encode 4 h) (length_be_encode 8 b)
  have dh : be_decode (be_encode 4 h) = h := by
    rw [be_decode_encode]; exact Nat.mod_eq_of_lt (by norm_num at hh ⊢; exact hh)
  have db : be_decode (be_encode 8 b) = b := by
    rw [be_decode_encode]; exact Nat.mod_eq_of_lt (by norm_num at hb ⊢; exact hb)
  rw [dh, db, if_neg hval] at hc
  rw [hc] at e1
  have hne6 : (recv_frame ⟨malloc, streamConn sched wr⟩
      (⟨lit "BNCE" ++ be_encode 4 h ++ be_encode 8 b ++ rest, k⟩, t)).result ≠ .error 6 := by
    rw [e1]; exact (recv_payload_no_error_456 _ _ _ _).2.2
  rcases main_conn_exit_cases ⟨malloc, streamConn sched wr⟩
    (⟨lit "BNCE" ++ be_encode 4 h ++ be_encode 8 b ++ rest, k⟩, t) with
    ⟨code, hc1, hc2⟩ | ⟨_, hc2 | hc2⟩
  · rw [hc2]; intro h6; subst h6; exact hne6 hc1
  · rw [hc2]; decide
  · rw [hc2]; decide

end Server

/-! ## Lemmas on the client -/

section ClientLemmas
open Client

theorem cstr_of_IsCStr (s : List Byte) (h : IsCStr s) : cstr s = s := by
  unfold cstr
  rw [List.takeWhile_eq_self_iff]
  intro b hb
  simpa using h b hb

theorem strlen_of_IsCStr (s : List Byte) (h : IsCStr s) : strlen s = s.length := by
  rw [strlen, cstr_of_IsCStr s h]

theorem IsCStr_cstr (s : List Byte) : IsCStr (cstr s) := by
  intro b hb
  have := List.mem_takeWhile_imp hb
  simpa using this

theorem IsCStr_append (a b : List Byte) : IsCStr (a ++ b) ↔ IsCStr a ∧ IsCStr b := by
  simp only [IsCStr, List.mem_append]
  constructor
  · intro h; exact ⟨fun x hx => h x (Or.inl hx), fun x hx => h x (Or.inr hx)⟩
  · rintro ⟨h1, h2⟩ x (hx | hx)
    · exact h1 x hx
    · exact h2 x hx

theorem cstr_append_nul (s rest : List Byte) (h : IsCStr s) : cstr (s ++ 0 :: rest) = s := by
  unfold cstr
  induction s with
  | nil => simp [List.takeWhile]
  | cons a s ih =>
    have ha : a ≠ 0 := h a (List.mem_cons_self _ _)
    have hs : IsCStr s := fun b hb => h b (List.mem_cons_of_mem _ hb)
    have hd : decide (a ≠ 0) = true := by simpa using ha
    rw [List.cons_append, List.takeWhile_cons, hd]
    simp only [if_true]
    rw [ih hs]

theorem header_text_length (f t : List Byte) :
    (header_text f t).length = strlen f + strlen t + 45 := by
  simp only [header_text, List.length_append, strlen]
  have h1 : (lit "\x7b\"from\":\"").length = 9 := by decide
  have h2 : (lit "\",\"to\":\"").length = 8 := by decide
  have h3 : (lit "\",\"kind\":null,\"source\":null\x7d").length = 28 := by decide
  rw [h1, h2, h3]; omega

theorem IsCStr_header_text (f t : List Byte) : IsCStr (header_text f t) := by
  simp only [header_text, IsCStr_append]
  exact ⟨⟨⟨⟨by decide, IsCStr_cstr f⟩, by decide⟩, IsCStr_cstr t⟩, by decide⟩

theorem snprintf_header (f t : List Byte) :
    snprintf (strlen f + strlen t + 64) (header_text f t) = header_text f t ++ [0] := by
  have hl := header_text_length f t
  simp only [snprintf]
  rw [if_neg (by omega), List.take_of_length_le (by omega)]

theorem strlen_header_json (f t : List Byte) :
    strlen (header_text f t ++ [0]) = strlen f + strlen t + 45 := by
  rw [strlen, cstr_append_nul _ _ (IsCStr_header_text f t), header_text_length]

theorem client_frame_eq (f t body : List Byte) :
    client_frame f t body
      = lit "BNCE" ++ be_encode 4 ((strlen f + strlen t + 45) % 2 ^ 32)
        ++ be_encode 8 (body.length % 2 ^ 64)
        ++ (header_text f t).take ((strlen f + strlen t + 45) % 2 ^ 32) ++ body := by
  have hl := header_text_length f t
  have hle : (strlen f + strlen t + 45) % 2 ^ 32 ≤ (header_text f t).length := by
    rw [hl]; exact Nat.mod_le _ _
  simp only [client_frame, frame_parts, snprintf_header, strlen_header_json, htonl_bytes_eq,
    body_len_buf_eq, List.map_cons, List.map_nil, List.flatten_cons, List.flatten_nil,
    List.append_nil, List.take_length]
  have e1 : List.take 4 BOUNCER_MAGIC = lit "BNCE" := by decide
  have e2 : ∀ n, List.take 4 (be_encode 4 n) = be_encode 4 n := fun n =>
    List.take_of_length_le (by rw [length_be_encode])
  have e3 : ∀ n, List.take 8 (be_encode 8 n) = be_encode 8 n := fun n =>
    List.take_of_length_le (by rw [length_be_encode])
  rw [e1, e2, e3, List.take_append_of_le_length hle]
  simp only [List.append_assoc]

theorem AllEv_nil (p : Event → Bool) : AllEv p [] := by simp [AllEv]

theorem AllEv_cons (p : Event → Bool) (e : Event) (tr : List Event) :
    AllEv p (e :: tr) ↔ p e = true ∧ AllEv p tr := by
  simp [AllEv]

theorem AllEv_append (p : Event → Bool) (a b : List Event) :
    AllEv p (a ++ b) ↔ AllEv p a ∧ AllEv p b := by
  simp only [AllEv, List.mem_append]
  constructor
  · intro h; exact ⟨fun e he => h e (Or.inl he), fun e he => h e (Or.inr he)⟩
  · rintro ⟨h1, h2⟩ e (he | he)
    · exact h1 e he
    · exact h2 e he

theorem AllEv_mono (p q : Event → Bool) (tr : List Event) (hpq : ∀ e, p e = true → q e = true)
    (h : AllEv p tr) : AllEv q tr := fun e he => hpq e (h e he)

theorem sent_append (a b : List Event) : sent (a ++ b) = sent a ++ sent b := by
  induction a with
  | nil => rfl
  | cons e a ih => cases e <;> simp [sent, ih]

theorem received_append (a b : List Event) : received (a ++ b) = received a ++ received b := by
  induction a with
  | nil => rfl
  | cons e a ih =>
    cases e with
    | read c g => cases g <;> simp [received, ih]
    | _ => simp [received, ih]

theorem stdin_bytes_append (a b : List Event) :
    stdin_bytes (a ++ b) = stdin_bytes a ++ stdin_bytes b := by
  induction a with
  | nil => rfl
  | cons e a ih =>
    cases e with
    | stdin_read c g => cases g <;> simp [stdin_bytes, ih]
    | _ => simp [stdin_bytes, ih]

theorem sent_nil_of (tr : List Event) (h : AllEv (fun e => !e.isWrite) tr) : sent tr = [] := by
  induction tr with
  | nil => rfl
  | cons e es ih =>
    have he := (AllEv_cons _ e es).1 h
    cases e <;> simp_all [sent, Event.isWrite]

theorem received_nil_of (tr : List Event) (h : AllEv (fun e => !e.isRead) tr) :
    received tr = [] := by
  induction tr with
  | nil => rfl
  | cons e es ih =>
    have he := (AllEv_cons _ e es).1 h
    cases e <;> simp_all [received, Event.isRead]

theorem stdin_bytes_nil_of (tr : List Event) (h : AllEv (fun e => !e.isStdinRead) tr) :
    stdin_bytes tr = [] := by
  induction tr with
  | nil => rfl
  | cons e es ih =>
    have he := (AllEv_cons _ e es).1 h
    cases e <;> simp_all [stdin_bytes, Event.isStdinRead]

theorem write_all_AllEv {σ : Type} (c : Conn σ) (st : σ) (buf : List Byte) (len : Nat) :
    AllEv Event.isWrite (write_all c st buf len).trace := by
  intro e he
  obtain ⟨o, n, rfl⟩ := write_all_loop_only c buf len 0 st e he
  rfl

theorem read_all_AllEv {σ : Type} (c : Conn σ) (st : σ) (len : Nat) :
    AllEv Event.isRead (read_all c st len).trace := by
  intro e he
  obtain ⟨o, n, rfl⟩ := read_all_only c st len e he
  rfl

theorem read_body_loop_AllEv {σ : Type} (rd : σ → Nat → Option (List Byte) × σ)
    (body : List Byte) (st : σ) :
    AllEv Event.isStdinRead (read_body_loop rd body st).trace := by
  induction body, st using read_body_loop.induct rd with
  | case1 body st he =>
    rw [read_body_loop]; simp [he, AllEv, Event.isStdinRead]
  | case2 body st bs he hn =>
    rw [read_body_loop]; simp [he, hn, AllEv, Event.isStdinRead]
  | case3 body st bs he hn hl =>
    rw [read_body_loop]; simp only [he, hn, hl, dite_true, dite_false]
    simp [AllEv, Event.isStdinRead]
  | case4 body st bs he hn hl ih =>
    rw [read_body_loop]; simp only [he, hn, hl, dite_true, dite_false]
    rw [AllEv_cons]; exact ⟨rfl, ih⟩

theorem read_body_loop_body {σ : Type} (rd : σ → Nat → Option (List Byte) × σ)
    (body : List Byte) (st : σ) :
    (read_body_loop rd body st).body = body ++ stdin_bytes (read_body_loop rd body st).trace := by
  induction body, st using read_body_loop.induct rd with
  | case1 body st he =>
    rw [read_body_loop]; simp [he, stdin_bytes]
  | case2 body st bs he hn =>
    rw [read_body_loop]; simp [he, hn, stdin_bytes]
    exact List.length_eq_zero.1 hn
  | case3 body st bs he hn hl =>
    rw [read_body_loop]; simp only [he, hn, hl, dite_true, dite_false]
    simp [stdin_bytes]
  | case4 body st bs he hn hl ih =>
    rw [read_body_loop]; simp only [he, hn, hl, dite_true, dite_false, stdin_bytes]
    rw [ih]; simp

theorem connect_loop_AllEv {τ : Type} (secs : Int) (ps : List (addrinfo τ)) :
    AllEv Event.isConnectStep (connect_loop secs ps).2 := by
  induction ps with
  | nil => simp [connect_loop, AllEv]
  | cons p ps ih =>
    simp only [connect_loop]
    split_ifs
    · rw [AllEv_cons]; exact ⟨rfl, ih⟩
    · split
      · simp [AllEv, Event.isConnectStep]
      · rw [AllEv_append]
        exact ⟨by simp [AllEv, Event.isConnectStep], ih⟩

theorem connect_loop_connected {τ : Type} (secs : Int) (ps : List (addrinfo τ)) :
    ((connect_loop secs ps).1.isSome ↔ Event.connect true ∈ (connect_loop secs ps).2) := by
  induction ps with
  | nil => simp [connect_loop]
  | cons p ps ih =>
    simp only [connect_loop]
    split_ifs
    · simp [ih]
    · split
      · simp
      · simp [ih]

theorem resolve_and_connect_AllEv {σ τ : Type} (env : Env σ τ) (server : List Byte)
    (secs : Int) : AllEv Event.isConnectStep (resolve_and_connect env server secs).2 := by
  by_cases hc : (58 : Byte) ∉ cstr server
  · simp only [resolve_and_connect, hc, not_false_eq_true, if_true]
    exact AllEv_nil _
  · simp only [resolve_and_connect, hc, if_false]
    split
    · simp [AllEv, Event.isConnectStep]
    · rw [AllEv_cons]; exact ⟨rfl, connect_loop_AllEv _ _⟩

theorem resolve_and_connect_connected {σ τ : Type} (env : Env σ τ) (server : List Byte)
    (secs : Int) :
    ((resolve_and_connect env server secs).1.isSome ↔
      Event.connect true ∈ (resolve_and_connect env server secs).2) := by
  by_cases hc : (58 : Byte) ∉ cstr server
  · simp only [resolve_and_connect, hc, not_false_eq_true, if_true]
    simp
  · simp only [resolve_and_connect, hc, if_false]
    split
    · simp
    · simp [connect_loop_connected]

theorem resolve_and_connect_no_colon {σ τ : Type} (env : Env σ τ) (server : List Byte)
    (secs : Int) (h : (58 : Byte) ∉ cstr server) :
    resolve_and_connect env server secs = (none, []) := by
  simp only [resolve_and_connect, h, not_false_eq_true, if_true]

theorem write_all_sent {σ : Type} (c : Conn σ) (hw : ∀ st data, (c.write st data).1 ≤ data.length)
    (st : σ) (buf : List Byte) (len : Nat) :
    ((write_all c st buf len).ret = 0 →
      sent (write_all c st buf len).trace = buf.take len ∧
      (sent (write_all c st buf len).trace).length = len) ∧
    ((write_all c st buf len).ret ≠ 0 → (sent (write_all c st buf len).trace).length < len) := by
  have h := write_all_loop_sent c hw buf len 0 st
  simp only [List.drop_zero, Nat.sub_zero] at h
  exact ⟨h.1, fun hne => (h.2 hne).2⟩

theorem write_chain_spec {τ : Type} (c : Conn τ)
    (hw : ∀ st data, (c.write st data).1 ≤ data.length) (parts : List (List Byte × Nat))
    (hfit : ∀ p ∈ parts, p.2 ≤ p.1.length) (st : τ) :
    AllEv Event.isWrite (write_chain c st parts).trace ∧
    ((write_chain c st parts).failed = false →
      sent (write_chain c st parts).trace = (parts.map (fun p => p.1.take p.2)).flatten) ∧
    ((write_chain c st parts).failed = true →
      (sent (write_chain c st parts).trace).length
        < ((parts.map (fun p => p.1.take p.2)).flatten).length) := by
  induction parts generalizing st with
  | nil => simp [write_chain, AllEv_nil, sent]
  | cons p parts ih =>
    obtain ⟨buf, len⟩ := p
    have hfit0 : len ≤ buf.length := hfit (buf, len) (List.mem_cons_self _ _)
    have hfit' : ∀ p ∈ parts, p.2 ≤ p.1.length := fun p hp => hfit p (List.mem_cons_of_mem _ hp)
    have hs := write_all_sent c hw st buf len
    have ha := write_all_AllEv c st buf len
    simp only [write_chain]
    by_cases h0 : (write_all c st buf len).ret ≠ 0
    · simp only [h0, ne_eq, not_false_eq_true, if_true, List.map_cons, List.flatten_cons,
        List.length_append, List.length_take]
      refine ⟨ha, fun hf => by simp at hf, fun _ => ?_⟩
      have := hs.2 h0
      omega
    · have h0' : (write_all c st buf len).ret = 0 := by simpa using h0
      obtain ⟨i1, i2, i3⟩ := ih hfit' (write_all c st buf len).st
      obtain ⟨s1, s2⟩ := hs.1 h0'
      simp only [h0', ne_eq, not_true_eq_false, if_false, List.map_cons, List.flatten_cons,
        sent_append, List.length_append, AllEv_append]
      refine ⟨⟨ha, i1⟩, fun hf => ?_, fun hf => ?_⟩
      · rw [s1, i2 hf]
      · have := i3 hf
        rw [s2, List.length_take]
        omega

theorem frame_parts_fit (hj body : List Byte) : ∀ p ∈ frame_parts hj body, p.2 ≤ p.1.length := by
  intro p hp
  simp only [frame_parts, List.mem_cons, List.mem_singleton, List.not_mem_nil, or_false] at hp
  rcases hp with rfl | rfl | rfl | rfl | rfl
  · decide
  · simp [htonl_bytes]
  · simp
  · simp only [strlen, cstr]
    exact Nat.le_trans (Nat.mod_le _ _) (List.takeWhile_sublist _).length_le
  · simp

theorem exchange_spec {τ : Type} (c : Conn τ) (hwb : c.WellBehaved) (t : τ)
    (hj body : List Byte) :
    ((exchange c t hj body).exit = 0 ↔
      sent (exchange c t hj body).trace
          = ((frame_parts hj body).map (fun p => p.1.take p.2)).flatten ∧
        received (exchange c t hj body).trace = lit "OK\n") ∧
    ((exchange c t hj body).exit = 0 ∨ (exchange c t hj body).exit = EX_TEMPFAIL) ∧
    AllEv Event.isExchangeStep (exchange c t hj body).trace := by
  obtain ⟨w1, w2, w3⟩ := write_chain_spec c hwb.2 (frame_parts hj body) (frame_parts_fit hj body) t
  have hW : ∀ tr, AllEv Event.isWrite tr → AllEv Event.isExchangeStep tr := fun tr =>
    AllEv_mono _ _ tr (by intro e; cases e <;> simp [Event.isWrite, Event.isExchangeStep])
  have hR : ∀ tr, AllEv Event.isRead tr → AllEv Event.isExchangeStep tr := fun tr =>
    AllEv_mono _ _ tr (by intro e; cases e <;> simp [Event.isRead, Event.isExchangeStep])
  have hWr : ∀ tr, AllEv Event.isWrite tr → received tr = [] := fun tr h =>
    received_nil_of tr (AllEv_mono _ _ tr
      (by intro e; cases e <;> simp [Event.isWrite, Event.isRead]) h)
  have hRs : ∀ tr, AllEv Event.isRead tr → sent tr = [] := fun tr h =>
    sent_nil_of tr (AllEv_mono _ _ tr
      (by intro e; cases e <;> simp [Event.isWrite, Event.isRead]) h)
  simp only [exchange]
  generalize write_chain c t (frame_parts hj body) = w at w1 w2 w3
  by_cases hf : w.failed = true
  · have h3 := w3 hf
    simp only [hf, if_true]
    refine ⟨⟨fun h => ?_, fun h => ?_⟩, Or.inr trivial, ?_⟩
    · exact absurd h (by decide)
    · exfalso
      have h1 := congrArg List.length h.1
      rw [sent_append] at h1
      simp only [List.length_append, sent, List.length_nil, Nat.add_zero] at h1
      omega
    · rw [AllEv_append]
      exact ⟨hW _ w1, by simp [AllEv, Event.isExchangeStep]⟩
  · have hf' : w.failed = false := by simpa using hf
    have h2 := w2 hf'
    have ra := read_all_AllEv c w.st 3
    have rb := read_all_loop_buf c 3 0 [] w.st
    have rr := read_all_loop_received c hwb.1 3 0 [] w.st
    simp only [List.nil_append, Nat.sub_zero] at rb rr
    change (read_all c w.st 3).buf = received (read_all c w.st 3).trace at rb
    change ((read_all c w.st 3).ret = 0 → (received (read_all c w.st 3).trace).length = 3) ∧
      ((read_all c w.st 3).ret ≠ 0 → (received (read_all c w.st 3).trace).length < 3) at rr
    generalize read_all c w.st 3 = r at ra rb rr
    have hack : List.take 3 BOUNCER_ACK = lit "OK\n" := by decide
    have hsent : ∀ tl, AllEv (fun e => !e.isWrite) tl →
        sent (w.trace ++ r.trace ++ tl) = sent w.trace := by
      intro tl htl
      rw [sent_append, sent_append, hRs _ ra, sent_nil_of tl htl]; simp
    have hrecv : ∀ tl, AllEv (fun e => !e.isRead) tl →
        received (w.trace ++ r.trace ++ tl) = received r.trace := by
      intro tl htl
      rw [received_append, received_append, hWr _ w1, received_nil_of tl htl]; simp
    have hall : ∀ tl, AllEv Event.isExchangeStep tl →
        AllEv Event.isExchangeStep (w.trace ++ r.trace ++ tl) := by
      intro tl htl
      rw [AllEv_append, AllEv_append]
      exact ⟨⟨hW _ w1, hR _ ra⟩, htl⟩
    simp only [hf', Bool.false_eq_true, if_false, hack, rb]
    by_cases hbad : (r.ret ≠ 0 || List.take 3 (received r.trace) ≠ lit "OK\n") = true
    · rw [if_pos hbad]
      simp only []
      rw [hsent _ (by simp [AllEv, Event.isWrite]), hrecv _ (by simp [AllEv, Event.isRead])]
      refine ⟨⟨fun h => ?_, fun h => ?_⟩, Or.inr trivial,
        hall _ (by simp [AllEv, Event.isExchangeStep])⟩
      · exact absurd h (by decide)
      · exfalso
        have hrec : received r.trace = lit "OK\n" := h.2
        simp only [Bool.or_eq_true, decide_eq_true_eq] at hbad
        rcases hbad with hb1 | hb1
        · have := rr.2 hb1
          rw [hrec] at this
          exact absurd this (by decide)
        · apply hb1
          rw [hrec]; decide
    · rw [if_neg hbad]
      simp only [Bool.or_eq_true, decide_eq_true_eq, not_or, not_not] at hbad
      obtain ⟨hr0, hrt⟩ := hbad
      have hlen := rr.1 hr0
      rw [List.take_of_length_le (by omega)] at hrt
      simp only []
      rw [hsent _ (by simp [AllEv, Event.isWrite]), hrecv _ (by simp [AllEv, Event.isRead])]
      exact ⟨⟨fun _ => ⟨h2, hrt⟩, fun _ => trivial⟩, Or.inl trivial,
        hall _ (by simp [AllEv, Event.isExchangeStep])⟩

theorem parse_args_other_spec (x : List Byte) (a : cli_args_t) :
    (parse_args_other x a).result ≠ .PARSE_OK ∧ (parse_args_other x a).args = a ∧
    AllEv Event.isStderr (parse_args_other x a).trace ∧
    ((parse_args_other x a).result = .PARSE_HELP →
      streq x (lit "-h") = true ∨ streq x (lit "--help") = true) ∧
    ((parse_args_other x a).result = .PARSE_VERSION →
      streq x (lit "-V") = true ∨ streq x (lit "--version") = true) := by
  simp only [parse_args_other]
  split_ifs with h1 h2
  · simp only [Bool.or_eq_true] at h1
    simp [AllEv_nil, h1]
  · simp only [Bool.or_eq_true] at h2
    simp [AllEv_nil, h2]
  · simp [AllEv, Event.isStderr]

theorem parse_args_loop_trace (atoi : List Byte → Int) (l : List (List Byte)) (a : cli_args_t) :
    AllEv Event.isStderr (parse_args_loop atoi l a).trace := by
  induction l, a using parse_args_loop.induct atoi with
  | case1 a h => simp [parse_args_loop, h, AllEv_nil]
  | case2 a h => simp [parse_args_loop, h, AllEv_nil]
  | case3 x a => simp only [parse_args_loop]; exact (parse_args_other_spec x a).2.2.1
  | case4 x v rest a h ih => simp only [parse_args_loop, h, if_true]; exact ih
  | case5 x v rest a h1 h2 ih => simp only [parse_args_loop, h1, h2, if_true, if_false]; exact ih
  | case6 x v rest a h1 h2 h3 ih =>
    simp only [parse_args_loop, h1, h2, h3, if_true, if_false]; exact ih
  | case7 x v rest a h1 h2 h3 h4 ih =>
    simp only [parse_args_loop, h1, h2, h3, h4, if_true, if_false]; exact ih
  | case8 x v rest a h1 h2 h3 h4 =>
    simp only [parse_args_loop, h1, h2, h3, h4, if_false]
    exact (parse_args_other_spec x a).2.2.1

theorem parse_args_loop_spec (atoi : List Byte → Int) (l : List (List Byte)) (a : cli_args_t) :
    ((parse_args_loop atoi l a).result = .PARSE_OK →
      (parse_args_loop atoi l a).args.server.isSome = true ∧
      (parse_args_loop atoi l a).args.from_.isSome = true ∧
      (parse_args_loop atoi l a).args.to_.isSome = true) ∧
    ((parse_args_loop atoi l a).result = .PARSE_OK → a.server = none →
      ∃ x ∈ l, streq x (lit "--server") = true) ∧
    ((parse_args_loop atoi l a).result = .PARSE_OK → a.from_ = none →
      ∃ x ∈ l, streq x (lit "--from") = true) ∧
    ((parse_args_loop atoi l a).result = .PARSE_OK → a.to_ = none →
      ∃ x ∈ l, streq x (lit "--to") = true) ∧
    ((parse_args_loop atoi l a).result = .PARSE_HELP →
      ∃ x ∈ l, streq x (lit "-h") = true ∨ streq x (lit "--help") = true) ∧
    ((parse_args_loop atoi l a).result = .PARSE_VERSION →
      ∃ x ∈ l, streq x (lit "-V") = true ∨ streq x (lit "--version") = true) := by
  induction l, a using parse_args_loop.induct atoi with
  | case1 a h => simp [parse_args_loop, h]
  | case2 a h =>
    simp only [parse_args_loop, h, if_false]
    simp only [Bool.or_eq_true, not_or, Option.isNone_iff_eq_none] at h
    obtain ⟨⟨h1, h2⟩, h3⟩ := h
    simp [h1, h2, h3, Option.isSome_iff_ne_none]
  | case3 x a =>
    simp only [parse_args_loop]
    obtain ⟨o1, _, _, o4, o5⟩ := parse_args_other_spec x a
    refine ⟨fun h => absurd h o1, fun h => absurd h o1, fun h => absurd h o1,
      fun h => absurd h o1, fun h => ⟨x, by simp, o4 h⟩, fun h => ⟨x, by simp, o5 h⟩⟩
  | case4 x v rest a h ih =>
    simp only [parse_args_loop, h, if_true]
    obtain ⟨i1, i2, i3, i4, i5, i6⟩ := ih
    refine ⟨i1, fun _ _ => ⟨x, by simp, h⟩, fun hr ha => ?_, fun hr ha => ?_, fun hr => ?_,
      fun hr => ?_⟩
    · obtain ⟨y, hy, hs⟩ := i3 hr ha; exact ⟨y, by simp [hy], hs⟩
    · obtain ⟨y, hy, hs⟩ := i4 hr ha; exact ⟨y, by simp [hy], hs⟩
    · obtain ⟨y, hy, hs⟩ := i5 hr; exact ⟨y, by simp [hy], hs⟩
    · obtain ⟨y, hy, hs⟩ := i6 hr; exact ⟨y, by simp [hy], hs⟩
  | case5 x v rest a h1 h2 ih =>
    simp only [parse_args_loop, h1, h2, if_true, if_false]
    obtain ⟨i1, i2, i3, i4, i5, i6⟩ := ih
    refine ⟨i1, fun hr ha => ?_, fun _ _ => ⟨x, by simp, h2⟩, fun hr ha => ?_, fun hr => ?_,
      fun hr => ?_⟩
    · obtain ⟨y, hy, hs⟩ := i2 hr ha; exact ⟨y, by simp [hy], hs⟩
    · obtain ⟨y, hy, hs⟩ := i4 hr ha; exact ⟨y, by simp [hy], hs⟩
    · obtain ⟨y, hy, hs⟩ := i5 hr; exact ⟨y, by simp [hy], hs⟩
    · obtain ⟨y, hy, hs⟩ := i6 hr; exact ⟨y, by simp [hy], hs⟩
  | case6 x v rest a h1 h2 h3 ih =>
    simp only [parse_args_loop, h1, h2, h3, if_true, if_false]
    obtain ⟨i1, i2, i3, i4, i5, i6⟩ := ih
    refine ⟨i1, fun hr ha => ?_, fun hr ha => ?_, fun _ _ => ⟨x, by simp, h3⟩, fun hr => ?_,
      fun hr => ?_⟩
    · obtain ⟨y, hy, hs⟩ := i2 hr ha; exact ⟨y, by simp [hy], hs⟩
    · obtain ⟨y, hy, hs⟩ := i3 hr ha; exact ⟨y, by simp [hy], hs⟩
    · obtain ⟨y, hy, hs⟩ := i5 hr; exact ⟨y, by simp [hy], hs⟩
    · obtain ⟨y, hy, hs⟩ := i6 hr; exact ⟨y, by simp [hy], hs⟩
  | case7 x v rest a h1 h2 h3 h4 ih =>
    simp only [parse_args_loop, h1, h2, h3, h4, if_true, if_false]
    obtain ⟨i1, i2, i3, i4, i5, i6⟩ := ih
    refine ⟨i1, fun hr ha => ?_, fun hr ha => ?_, fun hr ha => ?_, fun hr => ?_, fun hr => ?_⟩
    · obtain ⟨y, hy, hs⟩ := i2 hr ha; exact ⟨y, by simp [hy], hs⟩
    · obtain ⟨y, hy, hs⟩ := i3 hr ha; exact ⟨y, by simp [hy], hs⟩
    · obtain ⟨y, hy, hs⟩ := i4 hr ha; exact ⟨y, by simp [hy], hs⟩
    · obtain ⟨y, hy, hs⟩ := i5 hr; exact ⟨y, by simp [hy], hs⟩
    · obtain ⟨y, hy, hs⟩ := i6 hr; exact ⟨y, by simp [hy], hs⟩
  | case8 x v rest a h1 h2 h3 h4 =>
    simp only [parse_args_loop, h1, h2, h3, h4, if_false]
    obtain ⟨o1, _, _, o4, o5⟩ := parse_args_other_spec x a
    refine ⟨fun h => absurd h o1, fun h => absurd h o1, fun h => absurd h o1,
      fun h => absurd h o1, fun h => ⟨x, by simp, o4 h⟩, fun h => ⟨x, by simp, o5 h⟩⟩

theorem not_mem_of_AllEv (p : Event → Bool) (e : Event) (tr : List Event) (h : AllEv p tr)
    (hp : p e = false) : e ∉ tr := by
  intro he
  have := h e he
  rw [hp] at this
  exact Bool.noConfusion this

theorem serialize_header_cases (malloc_ok : Nat → Bool) (f t : Option (List Byte)) :
    (serialize_header malloc_ok ⟨f, t, none, none⟩
        = (none, [Event.malloc (strlen (f.getD []) + strlen (t.getD []) + 64) false])) ∨
    (serialize_header malloc_ok ⟨f, t, none, none⟩
        = (some (header_text (f.getD []) (t.getD []) ++ [0]),
            [Event.malloc (strlen (f.getD []) + strlen (t.getD []) + 64) true])) := by
  simp only [serialize_header, snprintf_header]
  split_ifs
  · left; rfl
  · right; rfl

theorem client_frame_parts (f t body : List Byte) :
    ((frame_parts (header_text f t ++ [0]) body).map (fun p => p.1.take p.2)).flatten
      = client_frame f t body := by
  simp only [client_frame, snprintf_header]

theorem run_spec {σ τ : Type} (env : Env σ τ) (hwb : env.sock.WellBehaved) (s0 : σ)
    (args : cli_args_t) :
    ((run env s0 args).exit = 0 ↔
      Event.connect true ∈ (run env s0 args).trace ∧
      sent (run env s0 args).trace
        = client_frame (args.from_.getD []) (args.to_.getD []) (stdin_bytes (run env s0 args).trace) ∧
      received (run env s0 args).trace = lit "OK\n") ∧
    ((run env s0 args).exit = 0 ∨ (run env s0 args).exit = EX_TEMPFAIL) := by
  have hrbA := read_body_loop_AllEv env.stdin_read [] s0
  have hrbB := read_body_loop_body env.stdin_read [] s0
  simp only [List.nil_append] at hrbB
  have hS : ∀ tr, AllEv Event.isStdinRead tr → AllEv (fun e => !e.isConnectStep) tr := fun tr =>
    AllEv_mono _ _ tr (by intro e; cases e <;> simp [Event.isStdinRead, Event.isConnectStep])
  have hSw : ∀ tr, AllEv Event.isStdinRead tr → sent tr = [] := fun tr h =>
    sent_nil_of tr (AllEv_mono _ _ tr
      (by intro e; cases e <;> simp [Event.isWrite, Event.isStdinRead]) h)
  have hSr : ∀ tr, AllEv Event.isStdinRead tr → received tr = [] := fun tr h =>
    received_nil_of tr (AllEv_mono _ _ tr
      (by intro e; cases e <;> simp [Event.isRead, Event.isStdinRead]) h)
  have hCw : ∀ tr, AllEv Event.isConnectStep tr → sent tr = [] := fun tr h =>
    sent_nil_of tr (AllEv_mono _ _ tr
      (by intro e; cases e <;> simp [Event.isWrite, Event.isConnectStep]) h)
  have hCr : ∀ tr, AllEv Event.isConnectStep tr → received tr = [] := fun tr h =>
    received_nil_of tr (AllEv_mono _ _ tr
      (by intro e; cases e <;> simp [Event.isRead, Event.isConnectStep]) h)
  have hCs : ∀ tr, AllEv Event.isConnectStep tr → stdin_bytes tr = [] := fun tr h =>
    stdin_bytes_nil_of tr (AllEv_mono _ _ tr
      (by intro e; cases e <;> simp [Event.isStdinRead, Event.isConnectStep]) h)
  have hEs : ∀ tr, AllEv Event.isExchangeStep tr → stdin_bytes tr = [] := fun tr h =>
    stdin_bytes_nil_of tr (AllEv_mono _ _ tr
      (by intro e; cases e <;> simp [Event.isStdinRead, Event.isExchangeStep]) h)
  simp only [run]
  generalize read_body_loop env.stdin_read [] s0 = rb at hrbA hrbB
  by_cases hm : env.malloc 0 (MAX_BODY_BYTES + 1) = true
  swap
  · simp only [hm, Bool.not_false, if_true]
    refine ⟨⟨fun h => absurd h (by decide), fun h => ?_⟩, Or.inr trivial⟩
    exact absurd h.1 (by simp)
  simp only [hm, Bool.not_true, Bool.false_eq_true, if_false]
  by_cases hl : rb.too_large = true
  · simp only [hl, if_true]
    refine ⟨⟨fun h => absurd h (by decide), fun h => ?_⟩, Or.inr trivial⟩
    exfalso
    have h1 := h.1
    simp at h1
    exact not_mem_of_AllEv _ (Event.connect true) _ (hS _ hrbA) rfl h1
  simp only [hl, Bool.false_eq_true, if_false]
  rcases serialize_header_cases (env.malloc 1) args.from_ args.to_ with hs | hs
  · rw [hs]
    simp only []
    refine ⟨⟨fun h => absurd h (by decide), fun h => ?_⟩, Or.inr trivial⟩
    exfalso
    have h1 := h.1
    simp at h1
    exact not_mem_of_AllEv _ (Event.connect true) _ (hS _ hrbA) rfl h1
  rw [hs]
  simp only []
  have hcA := resolve_and_connect_AllEv env (args.server.getD []) args.timeout_secs
  have hcC := resolve_and_connect_connected env (args.server.getD []) args.timeout_secs
  generalize resolve_and_connect env (args.server.getD []) args.timeout_secs = rc at hcA hcC
  obtain ⟨conn, tc⟩ := rc
  cases conn with
  | none =>
    simp only []
    refine ⟨⟨fun h => absurd h (by decide), fun h => ?_⟩, Or.inr trivial⟩
    exfalso
    have h1 := h.1
    simp at h1
    rcases h1 with h1 | h1
    · exact not_mem_of_AllEv _ (Event.connect true) _ (hS _ hrbA) rfl h1
    · simp at hcC; exact hcC h1
  | some t =>
    simp only []
    obtain ⟨x1, x2, x3⟩ := exchange_spec env.sock hwb t
      (header_text (args.from_.getD []) (args.to_.getD []) ++ [0]) rb.body
    rw [client_frame_parts] at x1
    generalize exchange env.sock t
      (header_text (args.from_.getD []) (args.to_.getD []) ++ [0]) rb.body = ex at x1 x2 x3
    have hconn : Event.connect true ∈ tc := by simpa using hcC
    have e1 : sent (Event.malloc (MAX_BODY_BYTES + 1) true :: rb.trace
        ++ [Event.malloc (strlen (args.from_.getD []) + strlen (args.to_.getD []) + 64) true]
        ++ tc ++ ex.trace) = sent ex.trace := by
      simp [sent, sent_append, hSw _ hrbA, hCw _ hcA]
    have e2 : received (Event.malloc (MAX_BODY_BYTES + 1) true :: rb.trace
        ++ [Event.malloc (strlen (args.from_.getD []) + strlen (args.to_.getD []) + 64) true]
        ++ tc ++ ex.trace) = received ex.trace := by
      simp [received, received_append, hSr _ hrbA, hCr _ hcA]
    have e3 : stdin_bytes (Event.malloc (MAX_BODY_BYTES + 1) true :: rb.trace
        ++ [Event.malloc (strlen (args.from_.getD []) + strlen (args.to_.getD []) + 64) true]
        ++ tc ++ ex.trace) = rb.body := by
      simp [stdin_bytes, stdin_bytes_append, hCs _ hcA, hEs _ x3, hrbB]
    rw [e1, e2, e3]
    refine ⟨⟨fun h => ⟨?_, x1.1 h⟩, fun h => x1.2 h.2⟩, x2⟩
    simp [hconn]

theorem write_chain_AllEv {τ : Type} (c : Conn τ) (parts : List (List Byte × Nat)) (st : τ) :
    AllEv Event.isWrite (write_chain c st parts).trace := by
  induction parts generalizing st with
  | nil => simp [write_chain, AllEv_nil]
  | cons p parts ih =>
    obtain ⟨buf, len⟩ := p
    simp only [write_chain]
    split_ifs
    · exact write_all_AllEv c st buf len
    · rw [AllEv_append]; exact ⟨write_all_AllEv c st buf len, ih _⟩

theorem exchange_trace {τ : Type} (c : Conn τ) (t : τ) (hj body : List Byte) :
    AllEv (fun e => e.isWrite || e.isRead || decide (e = Event.stderr Msg.send_failed)
      || decide (e = Event.stderr Msg.bad_ack) || decide (e = Event.close))
      (exchange c t hj body).trace := by
  have hW : ∀ tr, AllEv Event.isWrite tr → AllEv (fun e => e.isWrite || e.isRead
      || decide (e = Event.stderr Msg.send_failed)
      || decide (e = Event.stderr Msg.bad_ack) || decide (e = Event.close)) tr := fun tr =>
    AllEv_mono _ _ tr (by intro e h; simp [h])
  have hR : ∀ tr, AllEv Event.isRead tr → AllEv (fun e => e.isWrite || e.isRead
      || decide (e = Event.stderr Msg.send_failed)
      || decide (e = Event.stderr Msg.bad_ack) || decide (e = Event.close)) tr := fun tr =>
    AllEv_mono _ _ tr (by intro e h; simp [h])
  have w1 := hW _ (write_chain_AllEv c (frame_parts hj body) t)
  simp only [exchange]
  generalize write_chain c t (frame_parts hj body) = w at w1
  have r1 := hR _ (read_all_AllEv c w.st 3)
  generalize read_all c w.st 3 = r at r1
  split_ifs
  · rw [AllEv_append]; exact ⟨w1, by simp [AllEv]⟩
  · rw [AllEv_append, AllEv_append]; exact ⟨⟨w1, r1⟩, by simp [AllEv]⟩
  · rw [AllEv_append, AllEv_append]; exact ⟨⟨w1, r1⟩, by simp [AllEv]⟩

theorem run_cases {σ τ : Type} (env : Env σ τ) (s0 : σ) (args : cli_args_t) :
    (env.malloc 0 (MAX_BODY_BYTES + 1) = false ∧
      run env s0 args = ⟨EX_TEMPFAIL,
        [Event.malloc (MAX_BODY_BYTES + 1) false, Event.stderr Msg.body_alloc_failed]⟩) ∨
    (env.malloc 0 (MAX_BODY_BYTES + 1) = true ∧
      (read_body_loop env.stdin_read [] s0).too_large = true ∧
      run env s0 args = ⟨EX_TEMPFAIL,
        Event.malloc (MAX_BODY_BYTES + 1) true :: (read_body_loop env.stdin_read [] s0).trace
          ++ [Event.stderr Msg.body_too_large]⟩) ∨
    (env.malloc 0 (MAX_BODY_BYTES + 1) = true ∧
      (read_body_loop env.stdin_read [] s0).too_large = false ∧
      run env s0 args = ⟨EX_TEMPFAIL,
        Event.malloc (MAX_BODY_BYTES + 1) true :: (read_body_loop env.stdin_read [] s0).trace
          ++ [Event.malloc (strlen (args.from_.getD []) + strlen (args.to_.getD []) + 64)
                false]⟩) ∨
    (env.malloc 0 (MAX_BODY_BYTES + 1) = true ∧
      (read_body_loop env.stdin_read [] s0).too_large = false ∧
      (resolve_and_connect env (args.server.getD []) args.timeout_secs).1 = none ∧
      run env s0 args = ⟨EX_TEMPFAIL,
        Event.malloc (MAX_BODY_BYTES + 1) true :: (read_body_loop env.stdin_read [] s0).trace
          ++ [Event.malloc (strlen (args.from_.getD []) + strlen (args.to_.getD []) + 64) true]
          ++ (resolve_and_connect env (args.server.getD []) args.timeout_secs).2
          ++ [Event.stderr (Msg.connect_failed (cstr (args.server.getD [])))]⟩) ∨
    (env.malloc 0 (MAX_BODY_BYTES + 1) = true ∧
      (read_body_loop env.stdin_read [] s0).too_large = false ∧
      ∃ t, (resolve_and_connect env (args.server.getD []) args.timeout_secs).1 = some t ∧
      run env s0 args =
        ⟨(exchange env.sock t (header_text (args.from_.getD []) (args.to_.getD []) ++ [0])
            (read_body_loop env.stdin_read [] s0).body).exit,
        Event.malloc (MAX_BODY_BYTES + 1) true :: (read_body_loop env.stdin_read [] s0).trace
          ++ [Event.malloc (strlen (args.from_.getD []) + strlen (args.to_.getD []) + 64) true]
          ++ (resolve_and_connect env (args.server.getD []) args.timeout_secs).2
          ++ (exchange env.sock t (header_text (args.from_.getD []) (args.to_.getD []) ++ [0])
            (read_body_loop env.stdin_read [] s0).body).trace⟩) := by
  simp only [run]
  generalize read_body_loop env.stdin_read [] s0 = rb
  by_cases hm : env.malloc 0 (MAX_BODY_BYTES + 1) = true
  swap
  · left
    have hm' : env.malloc 0 (MAX_BODY_BYTES + 1) = false := by simpa using hm
    simp [hm']
  right
  simp only [hm, Bool.not_true, Bool.false_eq_true, if_false, true_and]
  by_cases hl : rb.too_large = true
  · left; simp [hl]
  right
  have hl' : rb.too_large = false := by simpa using hl
  simp only [hl', Bool.false_eq_true, if_false, true_and, false_and, false_or]
  rcases serialize_header_cases (env.malloc 1) args.from_ args.to_ with hs | hs
  · left; rw [hs]
  right
  rw [hs]
  simp only []
  generalize resolve_and_connect env (args.server.getD []) args.timeout_secs = rc
  obtain ⟨conn, tc⟩ := rc
  cases conn with
  | none => left; simp
  | some t => right; exact ⟨t, rfl, rfl⟩

theorem main_ok {σ τ : Type} (env : Env σ τ) (s0 : σ) (argv : List (List Byte))
    (hp : (parse_args env.atoi argv).result = .PARSE_OK) :
    main env s0 argv = ⟨(run env s0 (parse_args env.atoi argv).args).exit,
      (parse_args env.atoi argv).trace ++ (run env s0 (parse_args env.atoi argv).args).trace⟩ := by
  simp only [main, hp]

theorem main_usage {σ τ : Type} (env : Env σ τ) (s0 : σ) (argv : List (List Byte))
    (hp : (parse_args env.atoi argv).result = .PARSE_USAGE) :
    main env s0 argv = ⟨EX_USAGE,
      (parse_args env.atoi argv).trace ++ [Event.stderr (Msg.usage argv.head?)]⟩ := by
  simp only [main, hp]

theorem parse_args_ok_trace (atoi : List Byte → Int) (argv : List (List Byte))
    (hp : (parse_args atoi argv).result = .PARSE_OK) : (parse_args atoi argv).trace = [] := by
  have h := hp
  simp only [parse_args] at h ⊢
  generalize (⟨none, none, none, DEFAULT_TIMEOUT_SECS⟩ : cli_args_t) = a at h ⊢
  generalize argv.tail = l at h ⊢
  induction l, a using parse_args_loop.induct atoi with
  | case1 a h1 => simp [parse_args_loop, h1]
  | case2 a h1 => simp [parse_args_loop, h1]
  | case3 x a =>
    simp only [parse_args_loop] at h
    exact absurd h (parse_args_other_spec x a).1
  | case4 x v rest a h1 ih =>
    simp only [parse_args_loop, h1, if_true] at h ⊢; exact ih h
  | case5 x v rest a h1 h2 ih =>
    simp only [parse_args_loop, h1, h2, if_true, if_false] at h ⊢; exact ih h
  | case6 x v rest a h1 h2 h3 ih =>
    simp only [parse_args_loop, h1, h2, h3, if_true, if_false] at h ⊢; exact ih h
  | case7 x v rest a h1 h2 h3 h4 ih =>
    simp only [parse_args_loop, h1, h2, h3, h4, if_true, if_false] at h ⊢; exact ih h
  | case8 x v rest a h1 h2 h3 h4 =>
    simp only [parse_args_loop, h1, h2, h3, h4, if_false] at h
    exact absurd h (parse_args_other_spec x a).1

theorem run_trace_stream {τ : Type} (env : Env Stream τ) (sched : Nat → Nat) (k : Nat)
    (data : List Byte) (args : cli_args_t) (hstdin : env.stdin_read = stream_read sched) :
    (MAX_BODY_BYTES < data.length →
      (run env ⟨data, k⟩ args).exit = EX_TEMPFAIL ∧
      AllEv (fun e => !e.isNetwork) (run env ⟨data, k⟩ args).trace ∧
      (env.malloc 0 (MAX_BODY_BYTES + 1) = true →
        Event.stderr Msg.body_too_large ∈ (run env ⟨data, k⟩ args).trace)) ∧
    (data.length ≤ MAX_BODY_BYTES →
      Event.stderr Msg.body_too_large ∉ (run env ⟨data, k⟩ args).trace ∧
      (env.malloc 0 (MAX_BODY_BYTES + 1) = true →
        stdin_bytes (run env ⟨data, k⟩ args).trace = data)) := by
  have hs := read_body_loop_stream sched [] ⟨data, k⟩ (by simp)
  simp only [List.length_nil, Nat.zero_add, List.nil_append] at hs
  have hA := read_body_loop_AllEv (stream_read sched) [] ⟨data, k⟩
  have hB := read_body_loop_body (stream_read sched) [] ⟨data, k⟩
  simp only [List.nil_append] at hB
  have hcA := resolve_and_connect_AllEv env (args.server.getD []) args.timeout_secs
  have hNet : AllEv (fun e => !e.isNetwork)
      (read_body_loop (stream_read sched) [] ⟨data, k⟩).trace :=
    AllEv_mono _ _ _ (by intro e; cases e <;> simp [Event.isStdinRead, Event.isNetwork]) hA
  have hNo : Event.stderr Msg.body_too_large ∉
      (read_body_loop (stream_read sched) [] ⟨data, k⟩).trace :=
    not_mem_of_AllEv _ _ _ hA rfl
  have hNoC : Event.stderr Msg.body_too_large ∉
      (resolve_and_connect env (args.server.getD []) args.timeout_secs).2 :=
    not_mem_of_AllEv _ _ _ hcA rfl
  have hCs : stdin_bytes (resolve_and_connect env (args.server.getD []) args.timeout_secs).2
      = [] :=
    stdin_bytes_nil_of _ (AllEv_mono _ _ _
      (by intro e; cases e <;> simp [Event.isStdinRead, Event.isConnectStep]) hcA)
  have hEx : ∀ t hj body, Event.stderr Msg.body_too_large ∉ (exchange env.sock t hj body).trace :=
    fun t hj body => not_mem_of_AllEv _ _ _ (exchange_trace env.sock t hj body) rfl
  have hExs : ∀ t hj body, stdin_bytes (exchange env.sock t hj body).trace = [] :=
    fun t hj body => stdin_bytes_nil_of _ (AllEv_mono _ _ _
      (by intro e h; cases e <;> simp_all [Event.isStdinRead, Event.isWrite, Event.isRead])
      (exchange_trace env.sock t hj body))
  rcases run_cases env ⟨data, k⟩ args with ⟨h0, hr⟩ | ⟨_, hl, hr⟩ | ⟨_, hl, hr⟩ | ⟨_, hl, _, hr⟩ |
      ⟨_, hl, t, _, hr⟩
  · rw [hr]
    refine ⟨fun _ => ⟨rfl, by simp [AllEv, Event.isNetwork], fun hm => ?_⟩,
      fun _ => ⟨by simp, fun hm => ?_⟩⟩
    · rw [hm] at h0; exact absurd h0 (by decide)
    · rw [hm] at h0; exact absurd h0 (by decide)
  · rw [hstdin] at hl hr
    rw [hr]
    refine ⟨fun _ => ⟨rfl, ?_, fun _ => by simp⟩, fun hle => ?_⟩
    · rw [AllEv_append, AllEv_cons]
      exact ⟨⟨rfl, hNet⟩, by simp [AllEv, Event.isNetwork]⟩
    · rw [(hs.2 hle).1] at hl; exact absurd hl (by decide)
  · rw [hstdin] at hl hr
    rw [hr]
    refine ⟨fun hgt => ?_, fun hle => ⟨?_, fun _ => ?_⟩⟩
    · rw [hs.1 hgt] at hl; exact absurd hl (by decide)
    · simp [hNo]
    · simp [stdin_bytes, stdin_bytes_append, ← hB, (hs.2 hle).2]
  · rw [hstdin] at hl hr
    rw [hr]
    refine ⟨fun hgt => ?_, fun hle => ⟨?_, fun _ => ?_⟩⟩
    · rw [hs.1 hgt] at hl; exact absurd hl (by decide)
    · simp [hNo, hNoC]
    · simp [stdin_bytes, stdin_bytes_append, ← hB, (hs.2 hle).2, hCs]
  · rw [hstdin] at hl hr
    rw [hr]
    refine ⟨fun hgt => ?_, fun hle => ⟨?_, fun _ => ?_⟩⟩
    · rw [hs.1 hgt] at hl; exact absurd hl (by decide)
    · simp [hNo, hNoC, hEx]
    · simp [stdin_bytes, stdin_bytes_append, ← hB, (hs.2 hle).2, hCs, hExs]

theorem read_body_loop_reads {σ : Type} (rd : σ → Nat → Option (List Byte) × σ)
    (body : List Byte) (st : σ) :
    ∃ got rest, (read_body_loop rd body st).trace
      = Event.stdin_read (stdin_count body.length) got :: rest := by
  rw [read_body_loop]
  split
  · exact ⟨_, _, rfl⟩
  · split_ifs
    · exact ⟨_, _, rfl⟩
    · exact ⟨_, _, rfl⟩
    · exact ⟨_, _, rfl⟩

theorem parse_args_result_usage (atoi : List Byte → Int) (argv : List (List Byte))
    (hno : ∀ a ∈ argv.tail, streq a (lit "-h") = false ∧ streq a (lit "--help") = false ∧
      streq a (lit "-V") = false ∧ streq a (lit "--version") = false)
    (hmiss : (∀ a ∈ argv.tail, streq a (lit "--server") = false) ∨
      (∀ a ∈ argv.tail, streq a (lit "--from") = false) ∨
      (∀ a ∈ argv.tail, streq a (lit "--to") = false)) :
    (parse_args atoi argv).result = .PARSE_USAGE := by
  obtain ⟨_, s2, s3, s4, s5, s6⟩ :=
    parse_args_loop_spec atoi argv.tail ⟨none, none, none, DEFAULT_TIMEOUT_SECS⟩
  change ((parse_args atoi argv).result = _ → _) at s2 s3 s4 s5 s6
  cases hres : (parse_args atoi argv).result with
  | PARSE_USAGE => rfl
  | PARSE_OK =>
    exfalso
    rcases hmiss with hm | hm | hm
    · obtain ⟨x, hx, hs⟩ := s2 hres rfl
      rw [hm x hx] at hs; exact Bool.noConfusion hs
    · obtain ⟨x, hx, hs⟩ := s3 hres rfl
      rw [hm x hx] at hs; exact Bool.noConfusion hs
    · obtain ⟨x, hx, hs⟩ := s4 hres rfl
      rw [hm x hx] at hs; exact Bool.noConfusion hs
  | PARSE_HELP =>
    exfalso
    obtain ⟨x, hx, hs⟩ := s5 hres
    obtain ⟨n1, n2, _, _⟩ := hno x hx
    rw [n1, n2] at hs
    rcases hs with hs | hs <;> exact Bool.noConfusion hs
  | PARSE_VERSION =>
    exfalso
    obtain ⟨x, hx, hs⟩ := s6 hres
    obtain ⟨_, _, n3, n4⟩ := hno x hx
    rw [n3, n4] at hs
    rcases hs with hs | hs <;> exact Bool.noConfusion hs

theorem main_usage_spec {σ τ : Type} (env : Env σ τ) (s0 : σ) (argv : List (List Byte))
    (hp : (parse_args env.atoi argv).result = .PARSE_USAGE) :
    (main env s0 argv).exit = EX_USAGE ∧
    AllEv (fun e => !e.isSyscall) (main env s0 argv).trace := by
  have hpt := parse_args_loop_trace env.atoi argv.tail ⟨none, none, none, DEFAULT_TIMEOUT_SECS⟩
  change AllEv Event.isStderr (parse_args env.atoi argv).trace at hpt
  rw [main_usage env s0 argv hp]
  refine ⟨rfl, ?_⟩
  rw [AllEv_append]
  exact ⟨AllEv_mono _ _ _ (by intro e; cases e <;> simp [Event.isStderr, Event.isSyscall]) hpt,
    by simp [AllEv, Event.isSyscall]⟩

theorem main_no_colon {σ τ : Type} (env : Env σ τ) (s0 : σ) (argv : List (List Byte))
    (hp : (parse_args env.atoi argv).result = .PARSE_OK)
    (hc : (58 : Byte) ∉ cstr ((parse_args env.atoi argv).args.server.getD [])) :
    (main env s0 argv).exit = EX_TEMPFAIL ∧
    AllEv (fun e => !e.isNetwork) (main env s0 argv).trace ∧
    (env.malloc 0 (MAX_BODY_BYTES + 1) = true →
      ∃ got, Event.stdin_read (MAX_BODY_BYTES + 1) got ∈ (main env s0 argv).trace) := by
  have hp0 := parse_args_ok_trace env.atoi argv hp
  have hrc := resolve_and_connect_no_colon env ((parse_args env.atoi argv).args.server.getD [])
    (parse_args env.atoi argv).args.timeout_secs hc
  have hA := read_body_loop_AllEv env.stdin_read [] s0
  have hNet : AllEv (fun e => !e.isNetwork) (read_body_loop env.stdin_read [] s0).trace :=
    AllEv_mono _ _ _ (by intro e; cases e <;> simp [Event.isStdinRead, Event.isNetwork]) hA
  obtain ⟨got, rest, hrd⟩ := read_body_loop_reads env.stdin_read [] s0
  have hcnt : stdin_count ([] : List Byte).length = MAX_BODY_BYTES + 1 :=
    stdin_count_eq 0 (by omega)
  rw [hcnt] at hrd
  rw [main_ok env s0 argv hp, hp0]
  simp only [List.nil_append]
  generalize (parse_args env.atoi argv).args = args at hrc
  rcases run_cases env s0 args with ⟨h0, hr⟩ | ⟨h0, _, hr⟩ | ⟨h0, _, hr⟩ | ⟨h0, _, _, hr⟩ |
      ⟨_, _, t, ht, _⟩
  · rw [hr]
    refine ⟨rfl, by simp [AllEv, Event.isNetwork], fun h => ?_⟩
    rw [h0] at h; exact absurd h (by decide)
  · rw [hr]
    refine ⟨rfl, ?_, fun _ => ⟨got, by rw [hrd]; simp⟩⟩
    rw [AllEv_append, AllEv_cons]
    exact ⟨⟨rfl, hNet⟩, by simp [AllEv, Event.isNetwork]⟩
  · rw [hr]
    refine ⟨rfl, ?_, fun _ => ⟨got, by rw [hrd]; simp⟩⟩
    rw [AllEv_append, AllEv_cons]
    exact ⟨⟨rfl, hNet⟩, by simp [AllEv, Event.isNetwork]⟩
  · rw [hr, hrc]
    refine ⟨rfl, ?_, fun _ => ⟨got, by rw [hrd]; simp⟩⟩
    simp only [List.append_nil]
    rw [AllEv_append, AllEv_append, AllEv_cons]
    exact ⟨⟨⟨rfl, hNet⟩, by simp [AllEv, Event.isNetwork]⟩, by simp [AllEv, Event.isNetwork]⟩
  · rw [hrc] at ht; exact absurd ht (by simp)

theorem okPeer_wellBehaved : okPeer.WellBehaved := by
  refine ⟨fun _ count bs h => ?_, fun _ data => ?_⟩
  · simp only [okPeer, Option.some.injEq] at h
    subst h
    simp only [List.length_take]
    omega
  · simp [okPeer]

theorem exchange_ok_shape {τ : Type} (c : Conn τ) (t : τ) (hj body : List Byte)
    (h0 : (exchange c t hj body).exit = 0) :
    ∃ ws rs, (exchange c t hj body).trace = ws ++ rs ++ [Event.close] ∧
      AllEv Event.isWrite ws ∧ AllEv Event.isRead rs := by
  have w1 := write_chain_AllEv c (frame_parts hj body) t
  revert h0
  simp only [exchange]
  generalize write_chain c t (frame_parts hj body) = w at w1
  have r1 := read_all_AllEv c w.st 3
  generalize read_all c w.st 3 = r at r1
  split_ifs
  · intro h; simp [EX_TEMPFAIL] at h
  · intro h; simp [EX_TEMPFAIL] at h
  · intro _; exact ⟨w.trace, r.trace, rfl, w1, r1⟩

theorem run_ok_shape {σ τ : Type} (env : Env σ τ) (s0 : σ) (args : cli_args_t)
    (h0 : (run env s0 args).exit = 0) :
    ∃ pre ws rs, (run env s0 args).trace = pre ++ ws ++ rs ++ [Event.close] ∧
      AllEv (fun e => !e.isWrite && !e.isRead) pre ∧ Event.connect true ∈ pre ∧
      AllEv Event.isWrite ws ∧ AllEv Event.isRead rs := by
  have hA := read_body_loop_AllEv env.stdin_read [] s0
  have hcA := resolve_and_connect_AllEv env (args.server.getD []) args.timeout_secs
  have hcC := resolve_and_connect_connected env (args.server.getD []) args.timeout_secs
  rcases run_cases env s0 args with ⟨_, hr⟩ | ⟨_, _, hr⟩ | ⟨_, _, hr⟩ | ⟨_, _, _, hr⟩ |
      ⟨_, _, t, ht, hr⟩
  · rw [hr] at h0; simp [EX_TEMPFAIL] at h0
  · rw [hr] at h0; simp [EX_TEMPFAIL] at h0
  · rw [hr] at h0; simp [EX_TEMPFAIL] at h0
  · rw [hr] at h0; simp [EX_TEMPFAIL] at h0
  · rw [hr] at h0 ⊢
    obtain ⟨ws, rs, e, hw, hrd⟩ := exchange_ok_shape env.sock t _ _ h0
    rw [ht] at hcC
    refine ⟨Event.malloc (MAX_BODY_BYTES + 1) true :: (read_body_loop env.stdin_read [] s0).trace
      ++ [Event.malloc (strlen (args.from_.getD []) + strlen (args.to_.getD []) + 64) true]
      ++ (resolve_and_connect env (args.server.getD []) args.timeout_secs).2, ws, rs, ?_, ?_, ?_,
      hw, hrd⟩
    · simp only [e, List.append_assoc]
    · rw [AllEv_append, AllEv_append, AllEv_cons]
      refine ⟨⟨⟨rfl, ?_⟩, by simp [AllEv, Event.isWrite, Event.isRead]⟩, ?_⟩
      · exact AllEv_mono _ _ _
          (by intro e; cases e <;> simp [Event.isStdinRead, Event.isWrite, Event.isRead]) hA
      · exact AllEv_mono _ _ _
          (by intro e; cases e <;> simp [Event.isConnectStep, Event.isWrite, Event.isRead]) hcA
    · have := hcC.1 rfl
      simp [this]

theorem write_all_loop_live {σ : Type} (c : Conn σ)
    (hlive : ∀ st data, data ≠ [] → 0 < (c.write st data).1)
    (buf : List Byte) (len : Nat) (hfit : len ≤ buf.length) (total : Nat) (st : σ) :
    (write_all_loop c buf len total st).ret = 0 := by
  induction total, st using write_all_loop.induct c buf len with
  | case1 total st h hn =>
    exfalso
    have hne : List.take (len - total) (List.drop total buf) ≠ [] := by
      intro he
      have := congrArg List.length he
      simp only [List.length_take, List.length_drop, List.length_nil] at this
      omega
    have := hlive st _ hne
    omega
  | case2 total st h hn ih => rw [write_all_loop]; simp only [h, hn, dite_true, dite_false]; exact ih
  | case3 total st h => rw [write_all_loop]; simp [h]

theorem write_all_loop_stream_state {ω : Type} (sched : Nat → Nat)
    (wr : ω → List Byte → Int × ω) (buf : List Byte) (len total : Nat) (st : Stream × ω) :
    (write_all_loop (streamConn sched wr) buf len total st).st.1 = st.1 := by
  induction total, st using write_all_loop.induct (streamConn sched wr) buf len with
  | case1 total st h hn => rw [write_all_loop]; simp only [h, hn, dite_true]; rfl
  | case2 total st h hn ih =>
    rw [write_all_loop]; simp only [h, hn, dite_true, dite_false]; rw [ih]; rfl
  | case3 total st h => rw [write_all_loop]; simp [h]

theorem write_chain_live {ω : Type} (sched : Nat → Nat) (wr : ω → List Byte → Int × ω)
    (hlive : ∀ w data, data ≠ [] → 0 < (wr w data).1)
    (parts : List (List Byte × Nat)) (hfit : ∀ p ∈ parts, p.2 ≤ p.1.length) (st : Stream × ω) :
    (write_chain (streamConn sched wr) st parts).failed = false ∧
    (write_chain (streamConn sched wr) st parts).st.1 = st.1 := by
  induction parts generalizing st with
  | nil => simp [write_chain]
  | cons p parts ih =>
    obtain ⟨buf, len⟩ := p
    have h0 : (write_all (streamConn sched wr) st buf len).ret = 0 :=
      write_all_loop_live (streamConn sched wr) (fun st data hd => hlive st.2 data hd) buf len
        (hfit (buf, len) (List.mem_cons_self _ _)) 0 st
    have h1 : (write_all (streamConn sched wr) st buf len).st.1 = st.1 :=
      write_all_loop_stream_state sched wr buf len 0 st
    obtain ⟨i1, i2⟩ := ih (fun p hp => hfit p (List.mem_cons_of_mem _ hp))
      (write_all (streamConn sched wr) st buf len).st
    simp only [write_chain, h0, ne_eq, not_true_eq_false, if_false]
    exact ⟨i1, by rw [i2, h1]⟩

theorem exchange_stream {ω : Type} (sched : Nat → Nat) (wr : ω → List Byte → Int × ω)
    (hlive : ∀ w data, data ≠ [] → 0 < (wr w data).1)
    (t : Stream × ω) (hj body : List Byte) :
    ((exchange (streamConn sched wr) t hj body).exit = 0 ↔ t.1.data.take 3 = lit "OK\n") := by
  obtain ⟨w1, w2⟩ := write_chain_live sched wr hlive (frame_parts hj body)
    (frame_parts_fit hj body) t
  simp only [exchange]
  generalize write_chain (streamConn sched wr) t (frame_parts hj body) = w at w1 w2
  obtain ⟨_, a2, a3⟩ := read_all_stream sched wr 3 w.st
  rw [w2] at a2 a3
  have hack : List.take 3 BOUNCER_ACK = lit "OK\n" := by decide
  simp only [w1, Bool.false_eq_true, if_false, hack]
  by_cases hlen : 3 ≤ t.1.data.length
  · obtain ⟨b1, b2, _⟩ := a2 hlen
    rw [b1, b2, List.take_take, Nat.min_self]
    by_cases hok : List.take 3 t.1.data = lit "OK\n"
    · simp [hok]
    · simp [hok, EX_TEMPFAIL]
  · have b1 := a3 (by omega)
    rw [b1]
    have hne : List.take 3 t.1.data ≠ lit "OK\n" := by
      intro he
      have := congrArg List.length he
      rw [List.length_take] at this
      have h3 : (lit "OK\n").length = 3 := by decide
      omega
    simp [hne, EX_TEMPFAIL]

theorem run_connected {σ τ : Type} (env : Env σ τ) (s0 : σ) (args : cli_args_t) (t0 : τ)
    (hm0 : env.malloc 0 (MAX_BODY_BYTES + 1) = true)
    (htl : (read_body_loop env.stdin_read [] s0).too_large = false)
    (hm1 : env.malloc 1 (strlen (args.from_.getD []) + strlen (args.to_.getD []) + 64) = true)
    (hconn : (resolve_and_connect env (args.server.getD []) args.timeout_secs).1 = some t0) :
    (run env s0 args).exit
      = (exchange env.sock t0 (header_text (args.from_.getD []) (args.to_.getD []) ++ [0])
          (read_body_loop env.stdin_read [] s0).body).exit := by
  rcases run_cases env s0 args with ⟨h0, _⟩ | ⟨_, hl, _⟩ | ⟨_, _, hr⟩ | ⟨_, _, hn, _⟩ |
      ⟨_, _, t, ht, hr⟩
  · rw [hm0] at h0; exact absurd h0 (by decide)
  · rw [htl] at hl; exact absurd hl (by decide)
  · exfalso
    have hs : (run env s0 args).trace
        ≠ Event.malloc (MAX_BODY_BYTES + 1) true :: (read_body_loop env.stdin_read [] s0).trace
          ++ [Event.malloc (strlen (args.from_.getD []) + strlen (args.to_.getD []) + 64)
                false] := by
      simp only [run, hm0, htl, Bool.not_true, Bool.false_eq_true, if_false, serialize_header,
        hm1]
      generalize resolve_and_connect env (args.server.getD []) args.timeout_secs = rc
      obtain ⟨conn, tc⟩ := rc
      cases conn <;> simp
    exact hs (by rw [hr])
  · rw [hconn] at hn; exact absurd hn (by simp)
  · rw [hconn] at ht
    cases ht
    rw [hr]

theorem read_all_none {σ : Type} (c : Conn σ) (hnone : ∀ st count, (c.read st count).1 = none)
    (st : σ) (len : Nat) (hlen : 0 < len) : (read_all c st len).ret = -1 := by
  rw [read_all, read_all_loop]
  simp only [hlen, dite_true]
  split
  · rfl
  · rename_i bs h
    rw [hnone] at h
    exact absurd h (by simp)

theorem exchange_read_error {τ : Type} (c : Conn τ)
    (hnone : ∀ st count, (c.read st count).1 = none) (t : τ) (hj body : List Byte) :
    (exchange c t hj body).exit = EX_TEMPFAIL := by
  simp only [exchange]
  generalize write_chain c t (frame_parts hj body) = w
  have hr := read_all_none c hnone w.st 3 (by decide)
  split_ifs
  · rfl
  · rfl
  · rename_i h1 h2
    simp [hr] at h2

theorem run_read_error {σ τ : Type} (env : Env σ τ) (s0 : σ) (args : cli_args_t)
    (hnone : ∀ st count, (env.sock.read st count).1 = none) :
    (run env s0 args).exit = EX_TEMPFAIL := by
  rcases run_cases env s0 args with ⟨_, hr⟩ | ⟨_, _, hr⟩ | ⟨_, _, hr⟩ | ⟨_, _, _, hr⟩ |
      ⟨_, _, t, _, hr⟩
  · rw [hr]
  · rw [hr]
  · rw [hr]
  · rw [hr]
  · rw [hr]; exact exchange_read_error env.sock hnone t _ _

theorem streamConn_wellBehaved {ω : Type} (sched : Nat → Nat) (wr : ω → List Byte → Int × ω)
    (hle : ∀ w data, (wr w data).1 ≤ data.length) : (streamConn sched wr).WellBehaved :=
  ⟨fun st count bs h => stream_read_le sched st.1 count bs h, fun st data => hle st.2 data⟩

end ClientLemmas

/-! ## Lemmas on the frame and the round trip -/

section RoundTrip
open Client MockServer

theorem IsCStr_replicate (n : Nat) (b : Byte) (hb : b ≠ 0) : IsCStr (List.replicate n b) := by
  intro x hx
  rw [List.eq_of_mem_replicate hx]
  exact hb

theorem write_all_first {σ : Type} (c : Conn σ) (st : σ) (buf : List Byte) (len : Nat)
    (h : 0 < len) :
    ∃ n rest, (write_all c st buf len).trace = Event.write (buf.take len) n :: rest := by
  rw [write_all, write_all_loop]
  simp only [h, dite_true, List.drop_zero, Nat.sub_zero]
  split_ifs
  · exact ⟨_, _, rfl⟩
  · exact ⟨_, _, rfl⟩

theorem client_frame_layout (f t body : List Byte) (hf : IsCStr f) (ht : IsCStr t)
    (hl : f.length + t.length + 45 < 2 ^ 32) (hb : body.length < 2 ^ 64) :
    (header_text f t).length = f.length + t.length + 45 ∧
    client_frame f t body = lit "BNCE" ++ be_encode 4 (f.length + t.length + 45)
      ++ be_encode 8 body.length ++ header_text f t ++ body := by
  have h1 := header_text_length f t
  rw [strlen_of_IsCStr f hf, strlen_of_IsCStr t ht] at h1
  refine ⟨h1, ?_⟩
  rw [client_frame_eq, strlen_of_IsCStr f hf, strlen_of_IsCStr t ht, Nat.mod_eq_of_lt hl,
    Nat.mod_eq_of_lt hb, List.take_of_length_le (by omega)]

theorem recv_frame_round_trip {τ : Type} (malloc : Nat → Nat → Bool) (sched : Nat → Nat)
    (wr : τ → List Byte → Int × τ) (t0 : τ) (k : Nat) (f t body : List Byte)
    (hf : IsCStr f) (ht : IsCStr t) (hb : body.length ≤ 51200)
    (hh : f.length + t.length + 45 ≤ 16384)
    (hm0 : malloc 0 (f.length + t.length + 45 + 1) = true)
    (hm1 : malloc 1 body.length = true ∨ body.length = 0) :
    (recv_frame ⟨malloc, streamConn sched wr⟩ (⟨client_frame f t body, k⟩, t0)).result
      = .ok ⟨f.length + t.length + 45, body.length, header_text f t, body⟩ ∧
    (recv_frame ⟨malloc, streamConn sched wr⟩ (⟨client_frame f t body, k⟩, t0)).st.1.data = [] := by
  obtain ⟨hlen, hfr⟩ := client_frame_layout f t body hf ht (by norm_num; omega) (by norm_num; omega)
  obtain ⟨st3, pre, h7, h8, hpre, e1, e2, e3⟩ :=
    recv_frame_stream_prefix malloc sched wr (⟨client_frame f t body, k⟩, t0) (lit "BNCE")
      (be_encode 4 (f.length + t.length + 45)) (be_encode 8 body.length)
      (header_text f t ++ body) (by decide) (length_be_encode 4 _) (length_be_encode 8 _)
      (by show client_frame f t body = _; rw [hfr]; simp only [List.append_assoc])
  have hc := recv_checked_good_magic ⟨malloc, streamConn sched wr⟩ st3
    (be_encode 4 (f.length + t.length + 45)) (be_encode 8 body.length) (length_be_encode 4 _)
    (length_be_encode 8 _)
  have dh : be_decode (be_encode 4 (f.length + t.length + 45)) = f.length + t.length + 45 := by
    rw [be_decode_encode]; exact Nat.mod_eq_of_lt (by norm_num; omega)
  have db : be_decode (be_encode 8 body.length) = body.length := by
    rw [be_decode_encode]; exact Nat.mod_eq_of_lt (by norm_num; omega)
  have hval : ¬ (f.length + t.length + 45 = 0 ∨ f.length + t.length + 45 > MAX_HEADER_BYTES ∨
      body.length > MockServer.MAX_BODY_BYTES) := by
    simp only [MAX_HEADER_BYTES, MockServer.MAX_BODY_BYTES]; omega
  rw [dh, db, if_neg hval] at hc
  rw [hc] at e1 e2
  obtain ⟨p1, p2, _⟩ := (recv_payload_stream malloc sched wr st3 (f.length + t.length + 45)
    body.length hm0 hm1).2 (by rw [h7]; simp [hlen])
  rw [h7] at p1 p2
  rw [e1, e2, p1, p2]
  refine ⟨?_, ?_⟩
  · congr 2
    · rw [← hlen, List.take_left]
    · rw [← hlen, List.drop_left, List.take_length]
  · rw [List.drop_of_length_le]
    simp [hlen]

end RoundTrip

/-! ## The reference server: magic, length bounds, truncation -/

section ServerClaims
open MockServer

/-- C4 (counterexample): a stream whose first four bytes are `"XXXX"` and that
ends right after them is not rejected as bad magic: the prefix read fails first
and the server exits with 4. -/
theorem C4_short_stream_exits_4 :
    lit "XXXX" ≠ lit "BNCE" ∧
    (main_conn okServer
      (⟨lit "XXXX", 0⟩, ())).exit = 4 := by
  refine ⟨by decide, ?_⟩
  show (main_conn ⟨fun _ _ => true, streamConn (fun _ => 0)
    (fun (t : Unit) data => ((data.length : Int), t))⟩ (⟨lit "XXXX", 0⟩, ())).exit = 4
  rw [main_conn_error _ _ 4 (recv_frame_stream_short _ _ _ _ (by decide))]

/-- C4 (amended): for every inbound stream that starts with four bytes `M`
other than `"BNCE"`, whatever the chunking: when at least 12 more bytes follow,
the server exits with 5 after printing "Bad magic", it has consumed exactly the
16 prefix bytes, and nothing was done with the 12 bytes after the magic (no
allocation, no output line, no write); when fewer than 12 bytes follow, the
prefix read fails and the server exits with 4. -/
theorem C4_bad_magic_rejected {τ : Type} (malloc : Nat → Nat → Bool) (sched : Nat → Nat)
    (wr : τ → List Byte → Int × τ) (t : τ) (k : Nat) (M rest : List Byte)
    (hM : M.length = 4) (hne : M ≠ lit "BNCE") :
    (12 ≤ rest.length →
      (main_conn ⟨malloc, streamConn sched wr⟩ (⟨M ++ rest, k⟩, t)).exit = 5 ∧
      Event.stderr Msg.bad_magic ∈
        (main_conn ⟨malloc, streamConn sched wr⟩ (⟨M ++ rest, k⟩, t)).trace ∧
      (main_conn ⟨malloc, streamConn sched wr⟩ (⟨M ++ rest, k⟩, t)).st.1.data = rest.drop 12 ∧
      NoMalloc (main_conn ⟨malloc, streamConn sched wr⟩ (⟨M ++ rest, k⟩, t)).trace ∧
      NoOutput (main_conn ⟨malloc, streamConn sched wr⟩ (⟨M ++ rest, k⟩, t)).trace) ∧
    (rest.length < 12 →
      (main_conn ⟨malloc, streamConn sched wr⟩ (⟨M ++ rest, k⟩, t)).exit = 4) := by
  constructor
  · intro h12
    have hd : (⟨M ++ rest, k⟩ : Stream).data
        = M ++ rest.take 4 ++ (rest.drop 4).take 8 ++ rest.drop 12 := by
      simp only [List.append_assoc]
      congr 1
      rw [← List.append_assoc, ← List.take_add]
      exact (List.take_append_drop 12 rest).symm
    obtain ⟨st3, pre, h7, h8, hpre, e1, e2, e3⟩ :=
      recv_frame_stream_prefix malloc sched wr (⟨M ++ rest, k⟩, t) M (rest.take 4)
        ((rest.drop 4).take 8) (rest.drop 12) hM (by simp; omega) (by simp; omega) hd
    have hc := recv_checked_bad_magic ⟨malloc, streamConn sched wr⟩ st3 M (rest.take 4)
      ((rest.drop 4).take 8) hM hne
    rw [hc] at e1 e2 e3
    have hres : (recv_frame ⟨malloc, streamConn sched wr⟩ (⟨M ++ rest, k⟩, t)).result
        = .error 5 := e1
    rw [main_conn_error _ _ 5 hres]
    refine ⟨rfl, ?_, ?_, recv_frame_no_malloc _ _ (Or.inr (Or.inl hres)),
      recv_frame_no_output _ _⟩
    · dsimp only
      rw [e3]; simp
    · dsimp only
      rw [e2]; exact h7
  · intro hlt
    rw [main_conn_error _ _ 4 (recv_frame_stream_short _ _ _ _ (by simp; omega))]

/-- C4 (witness): the amended statement at the stream `"XXXX0123456789AB"`. -/
theorem C4_bad_magic_rejected_witness :
    (lit "XXXX").length = 4 ∧ lit "XXXX" ≠ lit "BNCE" ∧ 12 ≤ (lit "0123456789AB").length ∧
    (main_conn okServer
      (⟨lit "XXXX" ++ lit "0123456789AB", 0⟩, ())).exit = 5 :=
  ⟨by decide, by decide, by decide,
    ((C4_bad_magic_rejected (fun _ _ => true) (fun _ => 0)
      (fun (t : Unit) d => ((d.length : Int), t)) () 0 (lit "XXXX") (lit "0123456789AB")
      (by decide) (by decide)).1 (by decide)).1⟩


/-- C5: for every inbound stream that starts with `"BNCE"`, the 4-byte
big-endian header length `h` and the 8-byte big-endian body length `b`,
whatever follows and whatever the chunking, the server exits with 6 exactly
when `h = 0`, `h > 16384` or `b > 2097152`; when it does, it has printed the
"Invalid lengths" line, the stream is left right after the 16 prefix bytes (no
payload byte consumed) and no allocation was made. -/
theorem C5_length_bounds {τ : Type} (malloc : Nat → Nat → Bool) (sched : Nat → Nat)
    (wr : τ → List Byte → Int × τ) (t : τ) (k : Nat) (h b : Nat) (rest : List Byte)
    (hh : h < 2 ^ 32) (hb : b < 2 ^ 64) :
    ((main_conn ⟨malloc, streamConn sched wr⟩
        (⟨lit "BNCE" ++ be_encode 4 h ++ be_encode 8 b ++ rest, k⟩, t)).exit = 6 ↔
      (h = 0 ∨ h > 16384 ∨ b > 2097152)) ∧
    ((main_conn ⟨malloc, streamConn sched wr⟩
        (⟨lit "BNCE" ++ be_encode 4 h ++ be_encode 8 b ++ rest, k⟩, t)).exit = 6 →
      Event.stderr (Msg.invalid_lengths h b) ∈
        (main_conn ⟨malloc, streamConn sched wr⟩
          (⟨lit "BNCE" ++ be_encode 4 h ++ be_encode 8 b ++ rest, k⟩, t)).trace ∧
      (main_conn ⟨malloc, streamConn sched wr⟩
        (⟨lit "BNCE" ++ be_encode 4 h ++ be_encode 8 b ++ rest, k⟩, t)).st.1.data = rest ∧
      NoMalloc (main_conn ⟨malloc, streamConn sched wr⟩
        (⟨lit "BNCE" ++ be_encode 4 h ++ be_encode 8 b ++ rest, k⟩, t)).trace ∧
      NoOutput (main_conn ⟨malloc, streamConn sched wr⟩
        (⟨lit "BNCE" ++ be_encode 4 h ++ be_encode 8 b ++ rest, k⟩, t)).trace) := by
  by_cases hinv : h = 0 ∨ h > MAX_HEADER_BYTES ∨ b > MAX_BODY_BYTES
  · obtain ⟨hres, hmsg, hdata⟩ :=
      main_conn_invalid_lengths malloc sched wr t k h b rest hh hb hinv
    rw [main_conn_error _ _ 6 hres]
    exact ⟨⟨fun _ => hinv, fun _ => rfl⟩, fun _ => ⟨hmsg, hdata,
      recv_frame_no_malloc _ _ (Or.inr (Or.inr hres)), recv_frame_no_output _ _⟩⟩
  · have hexit := main_conn_valid_lengths malloc sched wr t k h b rest hh hb hinv
    exact ⟨⟨fun h6 => absurd h6 hexit, fun hi => absurd hi hinv⟩, fun h6 => absurd h6 hexit⟩

/-- C5 (witness): a declared header length of 0 in front of the payload `"x"`. -/
theorem C5_length_bounds_witness :
    (0 : Nat) < 2 ^ 32 ∧ (5 : Nat) < 2 ^ 64 ∧
    ((main_conn okServer
        (⟨lit "BNCE" ++ be_encode 4 0 ++ be_encode 8 5 ++ lit "x", 0⟩, ())).exit = 6 ↔
      ((0 : Nat) = 0 ∨ 0 > 16384 ∨ 5 > 2097152)) :=
  ⟨by norm_num, by norm_num,
    (C5_length_bounds (fun _ _ => true) (fun _ => 0) (fun (t : Unit) d => ((d.length : Int), t))
      () 0 0 5 (lit "x") (by norm_num) (by norm_num)).1⟩


theorem recv_payload_alloc_fail {σ : Type} (env : Env σ) (st : σ) (h b : Nat)
    (hf : ¬ (env.malloc 0 (h + 1) = true ∧ (env.malloc 1 b = true ∨ b = 0))) :
    (recv_payload env st h b).result = .error 7 := by
  have hal : (!env.malloc 0 (h + 1) || (!env.malloc 1 b && decide (b > 0))) = true := by
    cases h0 : env.malloc 0 (h + 1) <;> cases h1 : env.malloc 1 b <;> simp_all
    omega
  simp only [recv_payload, hal, if_true]

/-- C6: for every inbound stream made of a valid 16-byte prefix (magic
`"BNCE"`, header length `1 ≤ h ≤ 16384`, body length `b ≤ 2097152`) followed by
fewer than `h + b` bytes and then end-of-stream, whatever the chunking: the
server never returns a partial result (no line on standard output, hence no
FRAME, HEADER or RESULT line, and no byte written to the connection); it exits
with 8 after printing "Failed to read frame payload" whenever the two buffers
are allocated, and with 7 otherwise. -/
theorem C6_truncated_payload {τ : Type} (malloc : Nat → Nat → Bool) (sched : Nat → Nat)
    (wr : τ → List Byte → Int × τ) (t : τ) (k : Nat) (h b : Nat) (payload : List Byte)
    (h1 : 1 ≤ h) (h2 : h ≤ 16384) (hb : b ≤ 2097152) (hp : payload.length < h + b) :
    NoOutput (main_conn ⟨malloc, streamConn sched wr⟩
      (⟨lit "BNCE" ++ be_encode 4 h ++ be_encode 8 b ++ payload, k⟩, t)).trace ∧
    sent (main_conn ⟨malloc, streamConn sched wr⟩
      (⟨lit "BNCE" ++ be_encode 4 h ++ be_encode 8 b ++ payload, k⟩, t)).trace = [] ∧
    (malloc 0 (h + 1) = true ∧ (malloc 1 b = true ∨ b = 0) →
      (main_conn ⟨malloc, streamConn sched wr⟩
        (⟨lit "BNCE" ++ be_encode 4 h ++ be_encode 8 b ++ payload, k⟩, t)).exit = 8 ∧
      Event.stderr Msg.payload_failed ∈ (main_conn ⟨malloc, streamConn sched wr⟩
        (⟨lit "BNCE" ++ be_encode 4 h ++ be_encode 8 b ++ payload, k⟩, t)).trace) ∧
    (¬ (malloc 0 (h + 1) = true ∧ (malloc 1 b = true ∨ b = 0)) →
      (main_conn ⟨malloc, streamConn sched wr⟩
        (⟨lit "BNCE" ++ be_encode 4 h ++ be_encode 8 b ++ payload, k⟩, t)).exit = 7) := by
  obtain ⟨st3, pre, h7, h8, hpre, e1, e2, e3⟩ :=
    recv_frame_stream_prefix malloc sched wr
      (⟨lit "BNCE" ++ be_encode 4 h ++ be_encode 8 b ++ payload, k⟩, t) (lit "BNCE")
      (be_encode 4 h) (be_encode 8 b) payload (by decide) (length_be_encode 4 h)
      (length_be_encode 8 b) rfl
  have hc := recv_checked_good_magic ⟨malloc, streamConn sched wr⟩ st3 (be_encode 4 h)
    (be_encode 8 b) (length_be_encode 4 h) (length_be_encode 8 b)
  have dh : be_decode (be_encode 4 h) = h := by
    rw [be_decode_encode]; exact Nat.mod_eq_of_lt (by norm_num; omega)
  have db : be_decode (be_encode 8 b) = b := by
    rw [be_decode_encode]; exact Nat.mod_eq_of_lt (by norm_num; omega)
  have hval : ¬ (h = 0 ∨ h > MAX_HEADER_BYTES ∨ b > MAX_BODY_BYTES) := by
    simp only [MAX_HEADER_BYTES, MAX_BODY_BYTES]; omega
  rw [dh, db, if_neg hval] at hc
  rw [hc] at e1 e3
  by_cases hal : malloc 0 (h + 1) = true ∧ (malloc 1 b = true ∨ b = 0)
  · have hres : (recv_frame ⟨malloc, streamConn sched wr⟩
        (⟨lit "BNCE" ++ be_encode 4 h ++ be_encode 8 b ++ payload, k⟩, t)).result = .error 8 := by
      rw [e1]
      exact (recv_payload_stream malloc sched wr st3 h b hal.1 hal.2).1 (by rw [h7]; exact hp)
    rw [main_conn_error _ _ 8 hres]
    refine ⟨recv_frame_no_output _ _, sent_of_NoOutput _ (recv_frame_no_output _ _),
      fun _ => ⟨rfl, ?_⟩, fun hn => absurd hal hn⟩
    dsimp only
    rw [e3]
    have hr8 := (recv_payload_stream malloc sched wr st3 h b hal.1 hal.2).1 (by rw [h7]; exact hp)
    revert hr8
    simp only [recv_payload]
    generalize read_all (streamConn sched wr) st3 h = r4
    generalize read_all (streamConn sched wr) r4.st b = r5
    split_ifs <;> simp
  · have hres : (recv_frame ⟨malloc, streamConn sched wr⟩
        (⟨lit "BNCE" ++ be_encode 4 h ++ be_encode 8 b ++ payload, k⟩, t)).result = .error 7 := by
      rw [e1]
      exact recv_payload_alloc_fail ⟨malloc, streamConn sched wr⟩ st3 h b hal
    rw [main_conn_error _ _ 7 hres]
    exact ⟨recv_frame_no_output _ _, sent_of_NoOutput _ (recv_frame_no_output _ _),
      fun ha => absurd ha hal, fun _ => rfl⟩

/-- C6 (witness): a frame that declares a 3-byte header and a 2-byte body and
carries only the four bytes `"abcd"`. -/
theorem C6_truncated_payload_witness :
    1 ≤ 3 ∧ 3 ≤ 16384 ∧ 2 ≤ 2097152 ∧ (lit "abcd").length < 3 + 2 ∧
    NoOutput (main_conn okServer
      (⟨lit "BNCE" ++ be_encode 4 3 ++ be_encode 8 2 ++ lit "abcd", 0⟩, ())).trace :=
  ⟨by decide, by decide, by decide, by decide,
    (C6_truncated_payload (fun _ _ => true) (fun _ => 0)
      (fun (t : Unit) d => ((d.length : Int), t)) () 0 3 2 (lit "abcd")
      (by decide) (by decide) (by decide) (by decide)).1⟩

end ServerClaims

/-! ## The client: retry loops, body buffer, acknowledgement, size limit, usage errors -/

section ClientClaims
open Client

/-- C9: with a connection on which every `write` call returns at most the
number of bytes it was offered, `write_all(buf, len)` returns 0 or -1; it
returns 0 exactly when every call it made returned a positive count, and then
the bytes accepted, in call order, are `buf[0..len)`; it returns -1 exactly at
the first call that returns `n ≤ 0` (the last call of the trace, all earlier
ones positive), having had fewer than `len` bytes accepted; every call offers
the bytes from the offset reached so far up to `len` (no byte skipped or
repeated); and it makes at most `len` calls. -/
theorem C9_short_write_retry {σ : Type} (c : Conn σ) (st : σ) (buf : List Byte) (len : Nat)
    (hw : ∀ st data, (c.write st data).1 ≤ data.length) :
    ((write_all c st buf len).ret = 0 ∨ (write_all c st buf len).ret = -1) ∧
    ((write_all c st buf len).ret = 0 ↔
      ∀ n ∈ write_rets (write_all c st buf len).trace, 0 < n) ∧
    ((write_all c st buf len).ret = 0 →
      sent (write_all c st buf len).trace = buf.take len ∧
      (sent (write_all c st buf len).trace).length = len) ∧
    ((write_all c st buf len).ret = -1 →
      (∃ pre n, write_rets (write_all c st buf len).trace = pre ++ [n] ∧ n ≤ 0 ∧
        ∀ m ∈ pre, 0 < m) ∧
      (sent (write_all c st buf len).trace).length < len) ∧
    OffersInOrder buf len 0 (write_all c st buf len).trace ∧
    AllEv Event.isWrite (write_all c st buf len).trace ∧
    (write_all c st buf len).trace.length ≤ len := by
  have h1 := write_all_loop_ret c buf len 0 st
  have h2 := write_all_loop_rets c buf len 0 st
  have h3 := write_all_sent c hw st buf len
  have h4 := write_all_loop_offers c buf len 0 st
  have h5 := write_all_loop_calls c buf len 0 st
  refine ⟨h1, h2.1, h3.1, fun hm => ⟨h2.2 hm, h3.2 ?_⟩, h4, write_all_AllEv c st buf len, h5⟩
  rw [hm]; decide

/-- C9 (witness): the three bytes `"abc"` written to a peer that accepts
everything. -/
theorem C9_short_write_retry_witness :
    (∀ (st : Unit) (data : List Byte), (okPeer.write st data).1 ≤ data.length) ∧
    ((write_all okPeer () (lit "abc") 3).ret = 0 ∨ (write_all okPeer () (lit "abc") 3).ret = -1) :=
  ⟨okPeer_wellBehaved.2, (C9_short_write_retry okPeer () (lit "abc") 3 okPeer_wellBehaved.2).1⟩

theorem main_sent_body {σ τ : Type} (env : Env σ τ) (s0 : σ) (argv : List (List Byte))
    (hr : ∀ st count bs, (env.stdin_read st count).1 = some bs → bs.length ≤ count)
    (hs : sent (main env s0 argv).trace ≠ []) :
    (stdin_bytes (main env s0 argv).trace).length ≤ MAX_BODY_BYTES := by
  have hpt := parse_args_loop_trace env.atoi argv.tail ⟨none, none, none, DEFAULT_TIMEOUT_SECS⟩
  change AllEv Event.isStderr (parse_args env.atoi argv).trace at hpt
  have hps : sent (parse_args env.atoi argv).trace = [] :=
    sent_nil_of _ (AllEv_mono _ _ _
      (by intro e; cases e <;> simp [Event.isWrite, Event.isStderr]) hpt)
  have hpb : stdin_bytes (parse_args env.atoi argv).trace = [] :=
    stdin_bytes_nil_of _ (AllEv_mono _ _ _
      (by intro e; cases e <;> simp [Event.isStdinRead, Event.isStderr]) hpt)
  revert hs
  simp only [main]
  split
  · simp [sent_append, hps, sent]
  · simp [sent_append, hps, sent]
  · simp [sent_append, hps, sent]
  · simp only [sent_append, hps, List.nil_append, stdin_bytes_append, hpb]
    generalize (parse_args env.atoi argv).args = args
    obtain ⟨_, b2, _, b4, _, _⟩ := read_body_loop_spec env.stdin_read hr [] s0 (by simp)
    simp only [List.nil_append] at b2
    have hA := read_body_loop_AllEv env.stdin_read [] s0
    have hSw : sent (read_body_loop env.stdin_read [] s0).trace = [] :=
      sent_nil_of _ (AllEv_mono _ _ _
        (by intro e; cases e <;> simp [Event.isWrite, Event.isStdinRead]) hA)
    have hcA := resolve_and_connect_AllEv env (args.server.getD []) args.timeout_secs
    have hCw : sent (resolve_and_connect env (args.server.getD []) args.timeout_secs).2 = [] :=
      sent_nil_of _ (AllEv_mono _ _ _
        (by intro e; cases e <;> simp [Event.isWrite, Event.isConnectStep]) hcA)
    have hCs : stdin_bytes (resolve_and_connect env (args.server.getD []) args.timeout_secs).2
        = [] :=
      stdin_bytes_nil_of _ (AllEv_mono _ _ _
        (by intro e; cases e <;> simp [Event.isStdinRead, Event.isConnectStep]) hcA)
    have hExs : ∀ t hj body, stdin_bytes (exchange env.sock t hj body).trace = [] :=
      fun t hj body => stdin_bytes_nil_of _ (AllEv_mono _ _ _
        (by intro e h; cases e <;> simp_all [Event.isStdinRead, Event.isWrite, Event.isRead])
        (exchange_trace env.sock t hj body))
    rcases run_cases env s0 args with ⟨_, hr⟩ | ⟨_, _, hr⟩ | ⟨_, _, hr⟩ | ⟨_, _, _, hr⟩ |
        ⟨_, hl, t, _, hr⟩
    · rw [hr]; simp [sent]
    · rw [hr]; simp [sent, sent_append, hSw]
    · rw [hr]; simp [sent, sent_append, hSw]
    · rw [hr]; simp [sent, sent_append, hSw, hCw]
    · rw [hr]
      intro _
      have := b4 hl
      simp [stdin_bytes, stdin_bytes_append, hCs, hExs, ← b2]
      exact this

/-- C10: for every behaviour of standard input in which each `read` returns at
most the count it was asked for: every `read` call of the body loop is issued
with a positive count equal to 51201 minus the bytes already stored, the bytes
stored never exceed 51201 (the size of the buffer), the loop ends after at most
51201 calls, the body it leaves has at most 51200 bytes unless it is reported
too large, and whenever the client writes anything to the socket the body it
read has at most 51200 bytes. -/
theorem C10_body_buffer {σ τ : Type} (env : Env σ τ) (s0 : σ) (argv : List (List Byte))
    (hr : ∀ st count bs, (env.stdin_read st count).1 = some bs → bs.length ≤ count) :
    ReadsFillBuffer 0 (read_body_loop env.stdin_read [] s0).trace ∧
    AllEv Event.isStdinRead (read_body_loop env.stdin_read [] s0).trace ∧
    (read_body_loop env.stdin_read [] s0).body
      = stdin_bytes (read_body_loop env.stdin_read [] s0).trace ∧
    (read_body_loop env.stdin_read [] s0).body.length ≤ 51201 ∧
    (read_body_loop env.stdin_read [] s0).trace.length ≤ 51201 ∧
    ((read_body_loop env.stdin_read [] s0).too_large = false →
      (read_body_loop env.stdin_read [] s0).body.length ≤ 51200) ∧
    (sent (main env s0 argv).trace ≠ [] →
      (stdin_bytes (main env s0 argv).trace).length ≤ 51200) := by
  obtain ⟨b1, b2, b3, b4, _, b6⟩ := read_body_loop_spec env.stdin_read hr [] s0 (by simp)
  simp only [List.nil_append] at b2
  exact ⟨b1, read_body_loop_AllEv _ _ _, b2, b3, b6, b4, main_sent_body env s0 argv hr⟩

/-- C10 (witness): an empty standard input. -/
theorem C10_body_buffer_witness :
    (∀ (st : Unit) (count : Nat) (bs : List Byte),
      (okEnv.stdin_read st count).1 = some bs → bs.length ≤ count) ∧
    ReadsFillBuffer 0 (read_body_loop okEnv.stdin_read [] ()).trace :=
  ⟨fun _ _ bs h => by simp only [okEnv, Option.some.injEq] at h; subst h; simp,
    (C10_body_buffer okEnv () [lit "prog"]
      (fun _ _ bs h => by simp only [okEnv, Option.some.injEq] at h; subst h; simp)).1⟩

/-- C3: for every invocation of the client whose arguments are accepted
(`parse_args` returns `PARSE_OK`), every behaviour of standard input, of the
allocator, of the resolver and of the peer (the socket keeping the contract of
`read` and `write`): the client exits with 0 if and only if it has connected,
the bytes accepted by the socket are the whole frame, and the bytes it read
from the socket, over any number of short reads, are exactly `"OK\n"`; in every
other case, in particular when the bytes read differ from `"OK\n"`, it exits
with 75; on success the trace is: the steps up to the connection, then the
`write` calls, then the `read` calls, then `close`; a peer on which every
`read` fails gives 75. Seen from the peer: once the client has connected (the
two buffers are allocated, the body is not too large, `resolve_and_connect`
returns a socket) to a peer that accepts at least one byte of every non-empty
`write` and whose inbound bytes are `reply` followed by end-of-stream, delivered
in any chunking, the client exits with 0 exactly when the first 3 bytes of
`reply` are `"OK\n"`, and with 75 when `reply` has other first bytes or fewer
than 3 bytes. -/
theorem C3_ack_gate {σ τ ω : Type} (env : Env σ τ) (s0 : σ) (argv : List (List Byte))
    (hp : (parse_args env.atoi argv).result = .PARSE_OK) (hwb : env.sock.WellBehaved) :
    ((main env s0 argv).exit = 0 ↔
      Event.connect true ∈ (main env s0 argv).trace ∧
      sent (main env s0 argv).trace
        = client_frame ((parse_args env.atoi argv).args.from_.getD [])
            ((parse_args env.atoi argv).args.to_.getD []) (stdin_bytes (main env s0 argv).trace) ∧
      received (main env s0 argv).trace = lit "OK\n") ∧
    ((main env s0 argv).exit = 0 ∨ (main env s0 argv).exit = 75) ∧
    (received (main env s0 argv).trace ≠ lit "OK\n" → (main env s0 argv).exit = 75) ∧
    ((main env s0 argv).exit = 0 →
      ∃ pre ws rs, (main env s0 argv).trace = pre ++ ws ++ rs ++ [Event.close] ∧
        AllEv (fun e => !e.isWrite && !e.isRead) pre ∧ Event.connect true ∈ pre ∧
        AllEv Event.isWrite ws ∧ AllEv Event.isRead rs) ∧
    ((∀ st count, (env.sock.read st count).1 = none) → (main env s0 argv).exit = 75) ∧
    (∀ (envS : Env σ (Stream × ω)) (sched : Nat → Nat) (wr : ω → List Byte → Int × ω)
        (reply : List Byte) (k : Nat) (w0 : ω),
      (parse_args envS.atoi argv).result = .PARSE_OK →
      envS.sock = streamConn sched wr →
      (∀ w data, (wr w data).1 ≤ data.length) →
      (∀ w data, data ≠ [] → 0 < (wr w data).1) →
      envS.malloc 0 (MAX_BODY_BYTES + 1) = true →
      (read_body_loop envS.stdin_read [] s0).too_large = false →
      envS.malloc 1 (strlen ((parse_args envS.atoi argv).args.from_.getD [])
        + strlen ((parse_args envS.atoi argv).args.to_.getD []) + 64) = true →
      (resolve_and_connect envS ((parse_args envS.atoi argv).args.server.getD [])
        (parse_args envS.atoi argv).args.timeout_secs).1 = some (⟨reply, k⟩, w0) →
      ((main envS s0 argv).exit = 0 ↔ reply.take 3 = lit "OK\n") ∧
      (reply.take 3 ≠ lit "OK\n" → (main envS s0 argv).exit = 75)) := by
  have hpt := parse_args_loop_trace env.atoi argv.tail ⟨none, none, none, DEFAULT_TIMEOUT_SECS⟩
  change AllEv Event.isStderr (parse_args env.atoi argv).trace at hpt
  obtain ⟨r1, r2⟩ := run_spec env hwb s0 (parse_args env.atoi argv).args
  have r3 := run_ok_shape env s0 (parse_args env.atoi argv).args
  have r4 := run_read_error env s0 (parse_args env.atoi argv).args
  have hS : ∀ (envS : Env σ (Stream × ω)) (sched : Nat → Nat) (wr : ω → List Byte → Int × ω)
      (reply : List Byte) (k : Nat) (w0 : ω),
      (parse_args envS.atoi argv).result = .PARSE_OK →
      envS.sock = streamConn sched wr →
      (∀ w data, (wr w data).1 ≤ data.length) →
      (∀ w data, data ≠ [] → 0 < (wr w data).1) →
      envS.malloc 0 (MAX_BODY_BYTES + 1) = true →
      (read_body_loop envS.stdin_read [] s0).too_large = false →
      envS.malloc 1 (strlen ((parse_args envS.atoi argv).args.from_.getD [])
        + strlen ((parse_args envS.atoi argv).args.to_.getD []) + 64) = true →
      (resolve_and_connect envS ((parse_args envS.atoi argv).args.server.getD [])
        (parse_args envS.atoi argv).args.timeout_secs).1 = some (⟨reply, k⟩, w0) →
      ((main envS s0 argv).exit = 0 ↔ reply.take 3 = lit "OK\n") ∧
      (reply.take 3 ≠ lit "OK\n" → (main envS s0 argv).exit = 75) := by
    intro envS sched wr reply k w0 hpS hsock hle hlive hm0 htl hm1 hconn
    have hex := run_connected envS s0 (parse_args envS.atoi argv).args (⟨reply, k⟩, w0)
      hm0 htl hm1 hconn
    have hiff : (main envS s0 argv).exit = 0 ↔ reply.take 3 = lit "OK\n" := by
      rw [main_ok envS s0 argv hpS]
      show (run envS s0 (parse_args envS.atoi argv).args).exit = 0 ↔ _
      rw [hex, hsock]
      exact exchange_stream sched wr hlive (⟨reply, k⟩, w0) _ _
    have hwbS : envS.sock.WellBehaved := by
      rw [hsock]; exact streamConn_wellBehaved sched wr hle
    have h2 : (main envS s0 argv).exit = 0 ∨ (main envS s0 argv).exit = 75 := by
      rw [main_ok envS s0 argv hpS]
      exact (run_spec envS hwbS s0 (parse_args envS.atoi argv).args).2
    refine ⟨hiff, fun hne => ?_⟩
    rcases h2 with h0 | h75
    · exact absurd (hiff.1 h0) hne
    · exact h75
  rw [main_ok env s0 argv hp]
  generalize parse_args env.atoi argv = pa at hpt r1 r2 r3 r4
  generalize run env s0 pa.args = o at r1 r2 r3 r4
  have e1 : sent (pa.trace ++ o.trace) = sent o.trace := by
    rw [sent_append, sent_nil_of _ (AllEv_mono _ _ _
      (by intro e; cases e <;> simp [Event.isWrite, Event.isStderr]) hpt)]
    rfl
  have e2 : received (pa.trace ++ o.trace) = received o.trace := by
    rw [received_append, received_nil_of _ (AllEv_mono _ _ _
      (by intro e; cases e <;> simp [Event.isRead, Event.isStderr]) hpt)]
    rfl
  have e3 : stdin_bytes (pa.trace ++ o.trace) = stdin_bytes o.trace := by
    rw [stdin_bytes_append, stdin_bytes_nil_of _ (AllEv_mono _ _ _
      (by intro e; cases e <;> simp [Event.isStdinRead, Event.isStderr]) hpt)]
    rfl
  have e4 : Event.connect true ∈ pa.trace ++ o.trace ↔ Event.connect true ∈ o.trace := by
    rw [List.mem_append]
    constructor
    · rintro (h | h)
      · exact absurd h (not_mem_of_AllEv _ _ _ hpt rfl)
      · exact h
    · exact Or.inr
  simp only [e1, e2, e3, e4]
  refine ⟨r1, r2, fun hne => ?_, fun h0 => ?_, r4, hS⟩
  · rcases r2 with h0 | h75
    · exact absurd (r1.1 h0).2.2 hne
    · exact h75
  · obtain ⟨pre, ws, rs, e, hpre, hc, hw, hr⟩ := r3 h0
    refine ⟨pa.trace ++ pre, ws, rs, by rw [e]; simp only [List.append_assoc], ?_,
      List.mem_append_right _ hc, hw, hr⟩
    rw [AllEv_append]
    exact ⟨AllEv_mono _ _ _
      (by intro e; cases e <;> simp [Event.isStderr, Event.isWrite, Event.isRead]) hpt, hpre⟩

/-- C3 (witness): the invocation `prog --server h:1 --from a --to b` with the
standard input `"hello"` delivered two bytes at a time and a peer that accepts
one byte per `write` and delivers its reply one byte per `read`: the reply
`"OK\n"` gives exit 0, the reply `"NO\n"` gives exit 75. -/
theorem C3_ack_gate_witness :
    (parse_args (peerEnv (lit "OK\n")).atoi
      [lit "prog", lit "--server", lit "h:1", lit "--from", lit "a", lit "--to", lit "b"]).result
      = .PARSE_OK ∧
    (peerEnv (lit "OK\n")).sock.WellBehaved ∧
    (main (peerEnv (lit "OK\n")) ⟨lit "hello", 0⟩
      [lit "prog", lit "--server", lit "h:1", lit "--from", lit "a", lit "--to", lit "b"]).exit
      = 0 ∧
    (main (peerEnv (lit "NO\n")) ⟨lit "hello", 0⟩
      [lit "prog", lit "--server", lit "h:1", lit "--from", lit "a", lit "--to", lit "b"]).exit
      = 75 :=
  have hle : ∀ (w : Unit) (data : List Byte),
      ((((min 1 data.length : Nat) : Int), w) : Int × Unit).1 ≤ data.length :=
    fun _ data => Int.ofNat_le.2 (Nat.min_le_right 1 data.length)
  have hlive : ∀ (w : Unit) (data : List Byte), data ≠ [] →
      0 < ((((min 1 data.length : Nat) : Int), w) : Int × Unit).1 :=
    fun _ data hd => Int.ofNat_lt.2 (Nat.lt_min.2 ⟨Nat.one_pos, List.length_pos.2 hd⟩)
  have hbody : (read_body_loop (stream_read (fun _ => 1)) [] ⟨lit "hello", 0⟩).too_large
      = false :=
    ((read_body_loop_stream (fun _ => 1) [] ⟨lit "hello", 0⟩ (by decide)).2 (by decide)).1
  ⟨by decide, streamConn_wellBehaved _ _ hle,
    ((C3_ack_gate (peerEnv (lit "OK\n")) ⟨lit "hello", 0⟩
      [lit "prog", lit "--server", lit "h:1", lit "--from", lit "a", lit "--to", lit "b"]
      (by decide) (streamConn_wellBehaved _ _ hle)).2.2.2.2.2
        (peerEnv (lit "OK\n")) (fun _ => 0)
        (fun w data => (((min 1 data.length : Nat) : Int), w)) (lit "OK\n") 0 ()
        (by decide) rfl hle hlive rfl hbody rfl rfl).1.2 (by decide),
    ((C3_ack_gate (peerEnv (lit "OK\n")) ⟨lit "hello", 0⟩
      [lit "prog", lit "--server", lit "h:1", lit "--from", lit "a", lit "--to", lit "b"]
      (by decide) (streamConn_wellBehaved _ _ hle)).2.2.2.2.2
        (peerEnv (lit "NO\n")) (fun _ => 0)
        (fun w data => (((min 1 data.length : Nat) : Int), w)) (lit "NO\n") 0 ()
        (by decide) rfl hle hlive rfl hbody rfl rfl).2 (by decide)⟩

/-- C7: for every invocation whose arguments are accepted and every standard
input that delivers the bytes `data` in any chunking and then end-of-stream:
when `data` is longer than 51200 bytes (51201 included) the client exits with
75, its trace holds no resolution, no socket, no connection and no traffic, and
the line "Mail body too large" is printed (the body buffer being allocated);
when `data` has at most 51200 bytes (51200 included) the size check does not
reject it: the "Mail body too large" line is never printed and the body read is
`data`. -/
theorem C7_oversized_body {τ : Type} (env : Env Stream τ) (sched : Nat → Nat) (k : Nat)
    (data : List Byte) (argv : List (List Byte))
    (hp : (parse_args env.atoi argv).result = .PARSE_OK)
    (hstdin : env.stdin_read = stream_read sched) :
    (51200 < data.length →
      (main env ⟨data, k⟩ argv).exit = 75 ∧
      AllEv (fun e => !e.isNetwork) (main env ⟨data, k⟩ argv).trace ∧
      (env.malloc 0 (MAX_BODY_BYTES + 1) = true →
        Event.stderr Msg.body_too_large ∈ (main env ⟨data, k⟩ argv).trace)) ∧
    (data.length ≤ 51200 →
      Event.stderr Msg.body_too_large ∉ (main env ⟨data, k⟩ argv).trace ∧
      (env.malloc 0 (MAX_BODY_BYTES + 1) = true →
        stdin_bytes (main env ⟨data, k⟩ argv).trace = data)) := by
  obtain ⟨r1, r2⟩ := run_trace_stream env sched k data (parse_args env.atoi argv).args hstdin
  have hp0 := parse_args_ok_trace env.atoi argv hp
  rw [main_ok env ⟨data, k⟩ argv hp, hp0]
  simp only [List.nil_append]
  exact ⟨r1, r2⟩

/-- C7 (witness): a standard input of 51201 bytes delivered 4096 bytes at a
time. -/
theorem C7_oversized_body_witness :
    (parse_args streamEnv.atoi
      [lit "prog", lit "--server", lit "h:1", lit "--from", lit "a", lit "--to", lit "b"]).result
      = .PARSE_OK ∧
    streamEnv.stdin_read = stream_read (fun _ => 4095) ∧
    51200 < (List.replicate 51201 (7 : Byte)).length ∧
    (main streamEnv ⟨List.replicate 51201 7, 0⟩
      [lit "prog", lit "--server", lit "h:1", lit "--from", lit "a", lit "--to", lit "b"]).exit
      = 75 :=
  ⟨by decide, rfl, by rw [List.length_replicate]; omega,
    ((C7_oversized_body streamEnv (fun _ => 4095) 0 (List.replicate 51201 7)
      [lit "prog", lit "--server", lit "h:1", lit "--from", lit "a", lit "--to", lit "b"]
      (by decide) rfl).1 (by rw [List.length_replicate]; omega)).1⟩

/-- C8 (counterexample): with `--help` the three required parameters are
missing and the client exits with 0, not 64; with the server address
`localhost` (no `':'`) the arguments are accepted, standard input is read, and
the client exits with 75, not 64. -/
theorem C8_help_and_bad_address :
    (main okEnv () [lit "prog", lit "--help"]).exit = 0 ∧
    (58 : Byte) ∉ lit "localhost" ∧
    (main okEnv ()
      [lit "prog", lit "--server", lit "localhost", lit "--from", lit "a", lit "--to", lit "b"]).exit
      = 75 ∧
    (∃ got, Event.stdin_read 51201 got ∈ (main okEnv ()
      [lit "prog", lit "--server", lit "localhost", lit "--from", lit "a", lit "--to",
        lit "b"]).trace) := by
  have h := main_no_colon okEnv ()
    [lit "prog", lit "--server", lit "localhost", lit "--from", lit "a", lit "--to", lit "b"]
    (by decide) (by decide)
  exact ⟨by decide, by decide, h.1, h.2.2 rfl⟩

/-- C8 (amended): whenever `parse_args` returns `PARSE_USAGE`, and in particular
for every invocation in which one of `--server`, `--from`, `--to` does not
occur on the command line and no `-h`, `--help`, `-V` or `--version` argument
occurs, the client exits with the usage-error code 64 before any system call
(no read of standard input, no allocation, no resolution, no socket); 64 differs
from 0 and from 75.  A server address without `':'` is not a usage error: the
arguments are accepted, the body is read from standard input, no resolution
and no socket call is made, and the client exits with 75. -/
theorem C8_usage_errors {σ τ : Type} (env : Env σ τ) (s0 : σ) (argv : List (List Byte)) :
    ((parse_args env.atoi argv).result = .PARSE_USAGE →
      (main env s0 argv).exit = 64 ∧ AllEv (fun e => !e.isSyscall) (main env s0 argv).trace) ∧
    ((∀ a ∈ argv.tail, streq a (lit "-h") = false ∧ streq a (lit "--help") = false ∧
        streq a (lit "-V") = false ∧ streq a (lit "--version") = false) →
      ((∀ a ∈ argv.tail, streq a (lit "--server") = false) ∨
        (∀ a ∈ argv.tail, streq a (lit "--from") = false) ∨
        (∀ a ∈ argv.tail, streq a (lit "--to") = false)) →
      (main env s0 argv).exit = 64 ∧ AllEv (fun e => !e.isSyscall) (main env s0 argv).trace) ∧
    ((parse_args env.atoi argv).result = .PARSE_OK →
      (58 : Byte) ∉ cstr ((parse_args env.atoi argv).args.server.getD []) →
      (main env s0 argv).exit = 75 ∧
      AllEv (fun e => !e.isNetwork) (main env s0 argv).trace ∧
      (env.malloc 0 (MAX_BODY_BYTES + 1) = true →
        ∃ got, Event.stdin_read 51201 got ∈ (main env s0 argv).trace)) ∧
    EX_USAGE = 64 ∧ EX_USAGE ≠ 0 ∧ EX_USAGE ≠ EX_TEMPFAIL :=
  ⟨fun hp => main_usage_spec env s0 argv hp,
    fun hno hmiss => main_usage_spec env s0 argv (parse_args_result_usage env.atoi argv hno hmiss),
    fun hp hc => main_no_colon env s0 argv hp hc,
    rfl, by decide, by decide⟩

/-- C8 (witness): the invocation `prog --from a --to b`, without `--server`. -/
theorem C8_usage_errors_witness :
    (parse_args okEnv.atoi [lit "prog", lit "--from", lit "a", lit "--to", lit "b"]).result
      = .PARSE_USAGE ∧
    (main okEnv () [lit "prog", lit "--from", lit "a", lit "--to", lit "b"]).exit = 64 :=
  ⟨by decide,
    ((C8_usage_errors okEnv () [lit "prog", lit "--from", lit "a", lit "--to", lit "b"]).1
      (by decide)).1⟩

end ClientClaims

/-! ## The frame: layout and round trip -/

section FrameClaims
open Client MockServer

/-- C1 (counterexample): with a `from` string of 16340 bytes (and empty `to`
and body) the serialized header has 16385 bytes, more than the 16384 the
server accepts: the server run on the client's frame exits with 6. -/
theorem C1_long_header_rejected :
    IsCStr (List.replicate 16340 (97 : Byte)) ∧
    (main_conn okServer (⟨client_frame (List.replicate 16340 97) [] [], 0⟩, ())).exit = 6 := by
  have hF : IsCStr (List.replicate 16340 (97 : Byte)) := IsCStr_replicate _ _ (by decide)
  refine ⟨hF, ?_⟩
  have hfr := (client_frame_layout (List.replicate 16340 97) [] [] hF (by decide)
    (by rw [List.length_replicate]; decide) (by decide)).2
  rw [hfr, List.append_nil, List.length_replicate]
  have hres := (main_conn_invalid_lengths (fun _ _ => true) (fun _ => 0)
    (fun (t : Unit) data => ((data.length : Int), t)) () 0
    (16340 + ([] : List Byte).length + 45) ([] : List Byte).length
    (header_text (List.replicate 16340 97) []) (by decide) (by decide)
    (Or.inr (Or.inl (by decide)))).1
  exact congrArg MockServer.Outcome.exit (main_conn_error _ _ 6 hres)

/-- C1 (amended): for every `from` and `to` string whose serialized header has
at most 16384 bytes (`len(from) + len(to) + 45 ≤ 16384`) and every body of at
most 51200 bytes, when the server allocates its two buffers, the server's
frame decoding run on exactly the bytes of the client's frame, in any chunking,
succeeds: the header it holds is the text built by `serialize_header(from, to)`,
the body is the input body, the reported lengths are the length of that text
and the length of the body, the whole frame is consumed, the FRAME and HEADER
lines are printed and the ACK `"OK\n"` is offered to the connection. -/
theorem C1_round_trip {τ : Type} (malloc : Nat → Nat → Bool) (sched : Nat → Nat)
    (wr : τ → List Byte → Int × τ) (t0 : τ) (k : Nat) (f t body : List Byte)
    (hf : IsCStr f) (ht : IsCStr t) (hb : body.length ≤ 51200)
    (hh : f.length + t.length + 45 ≤ 16384)
    (hm0 : malloc 0 (f.length + t.length + 45 + 1) = true)
    (hm1 : malloc 1 body.length = true ∨ body.length = 0) :
    (serialize_header (fun _ => true) ⟨some f, some t, none, none⟩).1
      = some (header_text f t ++ [0]) ∧
    (header_text f t).length = f.length + t.length + 45 ∧
    (recv_frame ⟨malloc, streamConn sched wr⟩ (⟨client_frame f t body, k⟩, t0)).result
      = .ok ⟨(header_text f t).length, body.length, header_text f t, body⟩ ∧
    (recv_frame ⟨malloc, streamConn sched wr⟩ (⟨client_frame f t body, k⟩, t0)).st.1.data = [] ∧
    Event.stdout (Msg.frame (header_text f t).length body.length) ∈
      (main_conn ⟨malloc, streamConn sched wr⟩ (⟨client_frame f t body, k⟩, t0)).trace ∧
    Event.stdout (Msg.header (header_text f t)) ∈
      (main_conn ⟨malloc, streamConn sched wr⟩ (⟨client_frame f t body, k⟩, t0)).trace ∧
    (∃ n, Event.write (lit "OK\n") n ∈
      (main_conn ⟨malloc, streamConn sched wr⟩ (⟨client_frame f t body, k⟩, t0)).trace) ∧
    ((main_conn ⟨malloc, streamConn sched wr⟩ (⟨client_frame f t body, k⟩, t0)).exit = 0 ∨
      (main_conn ⟨malloc, streamConn sched wr⟩ (⟨client_frame f t body, k⟩, t0)).exit = 9) := by
  obtain ⟨r1, r2⟩ := recv_frame_round_trip malloc sched wr t0 k f t body hf ht hb hh hm0 hm1
  have hlen := (client_frame_layout f t body hf ht (by norm_num; omega) (by norm_num; omega)).1
  have hser : (serialize_header (fun _ => true) ⟨some f, some t, none, none⟩).1
      = some (header_text f t ++ [0]) := by
    simp [serialize_header, snprintf_header]
  obtain ⟨n, rest, hw⟩ := write_all_first (streamConn sched wr)
    (recv_frame ⟨malloc, streamConn sched wr⟩ (⟨client_frame f t body, k⟩, t0)).st
    BOUNCER_ACK BOUNCER_ACK_LEN (by decide)
  have hack : List.take BOUNCER_ACK_LEN BOUNCER_ACK = lit "OK\n" := by decide
  rw [hack] at hw
  have hcs : cstr (header_text f t ++ [0]) = header_text f t :=
    cstr_append_nul _ _ (IsCStr_header_text f t)
  rw [hlen]
  refine ⟨hser, rfl, r1, r2, ?_, ?_, ?_, ?_⟩
  · rw [main_conn_ok _ _ _ r1]
    split_ifs <;> simp
  · rw [main_conn_ok _ _ _ r1]
    split_ifs <;> simp [hcs]
  · refine ⟨n, ?_⟩
    rw [main_conn_ok _ _ _ r1]
    split_ifs <;> simp [hw]
  · rw [main_conn_ok _ _ _ r1]
    split_ifs
    · right; rfl
    · left; rfl

/-- C1 (witness): `from = "a@x.com"`, `to = "b@y.com"`, body `"hello"`: the
server reports a body of 5 bytes and reaches the ACK step. -/
theorem C1_round_trip_witness :
    IsCStr (lit "a@x.com") ∧ IsCStr (lit "b@y.com") ∧ (lit "hello").length ≤ 51200 ∧
    (lit "a@x.com").length + (lit "b@y.com").length + 45 ≤ 16384 ∧
    (recv_frame okServer
      (⟨client_frame (lit "a@x.com") (lit "b@y.com") (lit "hello"), 0⟩, ())).result
      = .ok ⟨(header_text (lit "a@x.com") (lit "b@y.com")).length, (lit "hello").length,
          header_text (lit "a@x.com") (lit "b@y.com"), lit "hello"⟩ ∧
    (lit "hello").length = 5 ∧
    (∃ n, Event.write (lit "OK\n") n ∈ (main_conn okServer
      (⟨client_frame (lit "a@x.com") (lit "b@y.com") (lit "hello"), 0⟩, ())).trace) :=
  ⟨by decide, by decide, by decide, by decide,
    (C1_round_trip (fun _ _ => true) (fun _ => 0)
      (fun (t : Unit) data => ((data.length : Int), t)) () 0
      (lit "a@x.com") (lit "b@y.com") (lit "hello") (by decide) (by decide) (by decide)
      (by decide) rfl (Or.inl rfl)).2.2.1,
    by decide,
    (C1_round_trip (fun _ _ => true) (fun _ => 0)
      (fun (t : Unit) data => ((data.length : Int), t)) () 0
      (lit "a@x.com") (lit "b@y.com") (lit "hello") (by decide) (by decide) (by decide)
      (by decide) rfl (Or.inl rfl)).2.2.2.2.2.2.1⟩

end FrameClaims

end BounceNotify
